import Mathlib

/-!
# Schema builders of shyptr/graphql

A shallow embedding of the two schema builders of the repository:

* `graphql.SchemaBuilder` (`schemabuilder.go`), whose registries are keyed by the
  name computed from the options, and
* `schemabuilder.Schema` (`schemabuilder/schema.go`), whose registries are keyed by
  the name passed by the caller, together with its `Build`.  The type resolver that
  `Build` calls is outside the sources read: `Build` takes it as a parameter, and a
  resolver modelled from the spec is given for the claims about resolution.

Go values that the code only inspects through `reflect` are represented by what
`reflect` reports about them; an `interface{}` argument is given by its dynamic type,
`none` for nil, on which `reflect.TypeOf(x).Kind()` is a nil-pointer dereference.  A Go `map` is an association list with at most one
pair per key; a `nil` map and an empty map are not distinguished (the builders are
created by `NewSchema`, which allocates every map).  A `panic` is an outcome of its
own, which carries the builder state at the moment of the panic.
-/

/-! ## Host types as seen through `reflect` -/

/-- The kinds of `reflect.Kind`. -/
inductive Kind where
  | Invalid | Bool | Int | Int8 | Int16 | Int32 | Int64
  | Uint | Uint8 | Uint16 | Uint32 | Uint64 | Uintptr
  | Float32 | Float64 | Complex64 | Complex128
  | Array | Chan | Func | Interface | Map | Ptr | Slice | String | Struct | RawPointer
  deriving DecidableEq, Repr

mutual
/-- A non-nil `reflect.Type`.  `basic` stands for every type that is neither a pointer,
a struct nor an interface; `methods` is the method set of the type and `ptrMethods`
the methods that only the pointer to it has. -/
inductive RType where
  | basic (kind : Kind) (pkgPath name : String) (methods ptrMethods : List String)
  | ptr (elem : RType)
  | struct (pkgPath name : String) (fields : RFields) (methods ptrMethods : List String)
  | iface (pkgPath name : String) (methods : List String)
  deriving DecidableEq, Repr
/-- The fields of a struct type, in declaration order. -/
inductive RFields where
  | nil
  | cons (fieldName : String) (type : RType) (rest : RFields)
  deriving DecidableEq, Repr
end

namespace RFields

/-- The field types, in declaration order. -/
def types : RFields → List RType
  | nil => []
  | cons _ t rest => t :: types rest

end RFields

namespace RType

/-- `reflect.Type.Kind`. -/
def kind : RType → Kind
  | basic k _ _ _ _ => k
  | ptr _ => .Ptr
  | struct _ _ _ _ _ => .Struct
  | iface _ _ _ => .Interface

/-- `reflect.Type.Name`: the empty string for an unnamed type. -/
def name : RType → String
  | basic _ _ n _ _ => n
  | ptr _ => ""
  | struct _ n _ _ _ => n
  | iface _ n _ => n

/-- `reflect.Type.PkgPath`. -/
def pkgPath : RType → String
  | basic _ p _ _ _ => p
  | ptr _ => ""
  | struct p _ _ _ _ => p
  | iface p _ _ => p

/-- `reflect.Type.String`, up to the abbreviation of the package path. -/
def string : RType → String
  | basic _ p n _ _ => if p = "" then n else p ++ "." ++ n
  | ptr e => "*" ++ string e
  | struct p n _ _ _ => if p = "" then n else p ++ "." ++ n
  | iface p n _ => if p = "" then n else p ++ "." ++ n

/-- `reflect.Type.Elem` of a pointer type; `none` where `reflect` panics. -/
def elem : RType → Option RType
  | ptr e => some e
  | _ => none

/-- The struct fields in declaration order (`NumField`, `Field(i).Type`); `none`
where `reflect` panics because the type is not a struct. -/
def fields : RType → Option (List RType)
  | struct _ _ fs _ _ => some fs.types
  | _ => none

/-- A struct-shaped type: a struct or a pointer to a struct. -/
def structShaped (t : RType) : Bool :=
  decide (t.kind = .Struct) ||
    (decide (t.kind = .Ptr) && decide (t.elem.map RType.kind = some .Struct))

/-- The method set of a type. -/
def methodSet : RType → List String
  | basic _ _ _ ms _ => ms
  | ptr (basic _ _ _ ms pms) => ms ++ pms
  | ptr (struct _ _ _ ms pms) => ms ++ pms
  | ptr _ => []
  | struct _ _ _ ms _ => ms
  | iface _ _ ms => ms

/-- `reflect.Type.Implements`; `none` where `reflect` panics because the argument is
not an interface type. -/
def implements (t u : RType) : Option Bool :=
  match u with
  | iface _ _ ms => some (ms.all fun m => decide (m ∈ t.methodSet))
  | _ => none

end RType

/-- An opaque function value: `nil`, a function of the caller, or a closure that the
code itself builds (named by `tag`, over the captured function and type). -/
inductive Func where
  | nil
  | ref (id : Nat)
  | closure (tag : String) (captured : Func) (type : Option RType)
  deriving DecidableEq, Repr

/-- A struct field value: its type and its content. -/
structure FieldValue where
  type : RType
  num : Int
  text : String
  deriving DecidableEq, Repr

/-- A `reflect.Value`. -/
inductive Value where
  | invalid
  | atom (type : RType) (num : Int) (text : String)
  | struct (type : RType) (fields : List FieldValue)
  | iface (inner : Value)
  deriving DecidableEq, Repr

namespace Value

/-- `reflect.Value.Kind`. -/
def kind : Value → Kind
  | invalid => .Invalid
  | atom t _ _ => t.kind
  | struct _ _ => .Struct
  | iface _ => .Interface

/-- `reflect.Value.Elem` of an interface value. -/
def elem : Value → Value
  | iface v => v
  | _ => invalid

/-- The loop `for val.Kind() == reflect.Interface { val = val.Elem() }`. -/
def unwrap : Value → Value
  | iface v => unwrap v
  | v => v

/-- Whether the value may be used as a key of a Go map (`false`: the insertion panics). -/
def hashable : Value → Bool
  | invalid => true
  | atom t _ _ => t.kind ≠ .Slice ∧ t.kind ≠ .Map ∧ t.kind ≠ .Func
  | struct _ fs => fs.all fun f => f.type.kind ≠ .Slice ∧ f.type.kind ≠ .Map ∧ f.type.kind ≠ .Func
  | iface v => hashable v

end Value

/-! ## Go maps -/

/-- A Go map: an association list read and written at the first pair of a key. -/
abbrev GoMap (κ ν : Type) := List (κ × ν)

namespace GoMap

variable {κ ν : Type} [DecidableEq κ]

/-- Lookup `m[k]` with its `ok` flag. -/
def get : GoMap κ ν → κ → Option ν
  | [], _ => none
  | (k', v) :: m, k => if k' = k then some v else get m k

/-- Assignment `m[k] = v`. -/
def set : GoMap κ ν → κ → ν → GoMap κ ν
  | [], k, v => [(k, v)]
  | (k', v') :: m, k, v => if k' = k then (k, v) :: m else (k', v') :: set m k v

/-- The keys of the map. -/
def keys (m : GoMap κ ν) : List κ := m.map Prod.fst

/-- The assignments `m[k] = v` for the pairs of `l`, in order. -/
def setAll (m : GoMap κ ν) (l : List (κ × ν)) : GoMap κ ν :=
  l.foldl (fun acc p => acc.set p.1 p.2) m

end GoMap

/-- The result of a call: a normal return or a panic. -/
inductive Outcome (α : Type) where
  | ret (a : α)
  | panic (msg : String)
  deriving DecidableEq, Repr

namespace Outcome

/-- The call panicked. -/
def failed {α : Type} : Outcome α → Bool
  | ret _ => false
  | panic _ => true

end Outcome

/-- The message of the runtime error raised by a method call on a nil `reflect.Type`. -/
def nilDereference : String := "invalid memory address or nil pointer dereference"

/-! ## `graphql.SchemaBuilder` (`schemabuilder.go`) -/

namespace graphql

/-- A directive location; the declaration of `DirectiveLocation` is outside the sources read. -/
abbrev DirectiveLocation := String

/-- A `*FieldBuilder`, which the registration code never looks into. -/
structure FieldBuilder where
  id : Nat
  deriving DecidableEq, Repr

/-- The fields of `options` that the registration code reads.  `possibleTypes` and
`input` are carried through unchanged; their types are declared outside the sources read. -/
structure options where
  name : String
  description : String
  serialize : Func
  parseValue : Func
  parseLiteral : Func
  interfaces : List RType
  resolveType : Func
  possibleTypes : List RType
  input : List String
  deriving DecidableEq, Repr

/-- An `Option`: a function that updates the options. -/
abbrev OptionFn := options → options

/-- The loop `for _, o := range opts { o(&options) }`. -/
def applyOpts (opts : List OptionFn) (o : options) : options :=
  opts.foldl (fun acc f => f acc) o

/-- The options literal `options{name: n}`. -/
def optionsNamed (n : String) : options :=
  { name := n, description := "", serialize := .nil, parseValue := .nil, parseLiteral := .nil,
    interfaces := [], resolveType := .nil, possibleTypes := [], input := [] }

structure ScalarBuilder where
  Name : String
  Description : String
  Typ : RType
  Serialize : Func
  ParseValue : Func
  ParseLiteral : Func
  deriving DecidableEq, Repr

structure EnumBuilder where
  Name : String
  Description : String
  Typ : RType
  Values : GoMap String Value
  ReverseValues : GoMap Value String
  deriving DecidableEq, Repr

structure ObjectBuilder where
  Name : String
  Description : String
  Typ : RType
  Fields : GoMap String FieldBuilder
  Interface : GoMap String RType
  deriving DecidableEq, Repr

structure UnionBuilder where
  Name : String
  Description : String
  Typ : RType
  Types : List RType
  ResolveType : Func
  deriving DecidableEq, Repr

structure InterfaceBuilder where
  Name : String
  Description : String
  Typ : RType
  ResolveType : Func
  PossibleTypes : List RType
  Fields : GoMap String FieldBuilder
  deriving DecidableEq, Repr

structure DirectiveBuilder where
  Name : String
  Description : String
  Locations : List DirectiveLocation
  Args : List String
  DirectiveFn : Func
  deriving DecidableEq, Repr

/-- The builder `SchemaBuilder`: one registry per kind, keyed by name. -/
structure SchemaBuilder where
  scalars : GoMap String ScalarBuilder
  enums : GoMap String EnumBuilder
  objects : GoMap String ObjectBuilder
  unions : GoMap String UnionBuilder
  interfaces : GoMap String InterfaceBuilder
  directives : GoMap String DirectiveBuilder
  deriving DecidableEq, Repr

/-- The argument `values` of `Enum` as `reflect.ValueOf` shows it: a value that is not
a map, or a map given by its pairs in the order `MapRange` yields them, each key
already rendered by `Key().String()`. -/
inductive EnumValues where
  | notMap (kind : Kind)
  | map (entries : List (String × Value))
  deriving DecidableEq, Repr

namespace SchemaBuilder

/-- The options literal of `Scalar`: the name of the type and the three default closures. -/
def scalarOptions (reflectType : RType) : options :=
  { name := reflectType.name, description := "",
    serialize := .closure "serialize" .nil none,
    parseValue := .closure "parseValue" .nil (some reflectType),
    parseLiteral := .closure "parseLiteral" .nil (some reflectType),
    interfaces := [], resolveType := .nil, possibleTypes := [], input := [] }

/-- `SchemaBuilder.Scalar`. -/
def Scalar (s : SchemaBuilder) (scalarType : Option RType) (opts : List OptionFn) :
    Outcome ScalarBuilder × SchemaBuilder :=
  match scalarType with
  | none => (.panic nilDereference, s)
  | some reflectType =>
    if reflectType.kind = .Ptr then (.panic "scalarType must not be a ptr", s) else
    let options := applyOpts opts (scalarOptions reflectType)
    match s.scalars.get options.name with
    | some _ => (.panic "duplicate scalar name", s)
    | none =>
      let scalar : ScalarBuilder :=
        { Name := options.name, Description := options.description, Typ := reflectType,
          Serialize := options.serialize, ParseValue := options.parseValue,
          ParseLiteral := options.parseLiteral }
      (.ret scalar, { s with scalars := s.scalars.set scalar.Name scalar })

/-- The loop of `Enum` over the pairs of the values map, on the two local maps. -/
def enumLoop (reflectType : RType) :
    List (String × Value) → GoMap String Value → GoMap Value String →
    Outcome (GoMap String Value × GoMap Value String)
  | [], eMap, rMap => .ret (eMap, rMap)
  | (key, v) :: rest, eMap, rMap =>
    let val := v.unwrap
    if val = .invalid then .panic "reflect: call of reflect.Value.Interface on zero Value" else
    if val.kind ≠ reflectType.kind then .panic "enum types are not equal" else
    if val.hashable = false then .panic "runtime error: hash of unhashable type" else
    enumLoop reflectType rest (eMap.set key val) (rMap.set val key)

/-- `SchemaBuilder.Enum`. -/
def Enum (s : SchemaBuilder) (enumType : Option RType) (values : EnumValues)
    (opts : List OptionFn) : Outcome Unit × SchemaBuilder :=
  match values with
  | .notMap _ => (.panic "enum values must be a map", s)
  | .map entries =>
    match enumType with
    | none => (.panic nilDereference, s)
    | some reflectType =>
      let options := applyOpts opts (optionsNamed reflectType.name)
      match s.enums.get options.name with
      | some _ => (.panic ("duplicate enum " ++ options.name), s)
      | none =>
        match enumLoop reflectType entries [] [] with
        | .panic msg => (.panic msg, s)
        | .ret (eMap, rMap) =>
          let entry : EnumBuilder :=
            { Name := options.name, Description := options.description, Typ := reflectType,
              Values := eMap, ReverseValues := rMap }
          (.ret (), { s with enums := s.enums.set options.name entry })

/-- The loop of `Object` over `options.interfaces`, on the map `object.Interface`. -/
def objectLoop (reflectType : RType) :
    List RType → GoMap String RType → Outcome (GoMap String RType)
  | [], acc => .ret acc
  | iface :: rest, acc =>
    match reflectType.implements iface with
    | none => .panic "reflect: non-interface type passed to Type.Implements"
    | some false => .panic ("object must implements the interface " ++ iface.name)
    | some true => objectLoop reflectType rest (acc.set iface.name iface)

/-- `SchemaBuilder.Object`. -/
def Object (s : SchemaBuilder) (objectType : Option RType) (opts : List OptionFn) :
    Outcome ObjectBuilder × SchemaBuilder :=
  match objectType with
  | none => (.panic nilDereference, s)
  | some reflectType =>
    if reflectType.kind ≠ .Struct then (.panic "objectType must be a struct", s) else
    let options := applyOpts opts (optionsNamed reflectType.name)
    match s.objects.get options.name with
    | some object =>
      if object.Typ ≠ reflectType then
        (.panic ("re-registered object with different type, already registered type: "
          ++ object.Typ.pkgPath ++ "." ++ object.Typ.name), s)
      else (.ret object, s)
    | none =>
      match objectLoop reflectType options.interfaces [] with
      | .panic msg => (.panic msg, s)
      | .ret ifaces =>
        let object : ObjectBuilder :=
          { Name := options.name, Description := options.description, Typ := reflectType,
            Fields := [], Interface := ifaces }
        (.ret object, { s with objects := s.objects.set object.Name object })

/-- The loop of `Union` over the struct fields, filling `types` from index 0. -/
def unionLoop : List RType → List RType → Outcome (List RType)
  | [], types => .ret types
  | f :: rest, types =>
    if f.kind ≠ .Ptr ∨ f.elem.map RType.kind ≠ some .Struct then
      .panic "union's member must be a object struct ptr"
    else unionLoop rest (types ++ [f])

/-- `SchemaBuilder.Union`. -/
def Union (s : SchemaBuilder) (unionType : Option RType) (opts : List OptionFn) :
    Outcome Unit × SchemaBuilder :=
  match unionType with
  | none => (.panic nilDereference, s)
  | some reflectType =>
    match reflectType.fields with
    | none => (.panic "union must be a struct", s)
    | some fields =>
      let options := applyOpts opts (optionsNamed reflectType.name)
      match s.unions.get options.name with
      | some _ => (.panic ("duplicate union " ++ options.name), s)
      | none =>
        match unionLoop fields [] with
        | .panic msg => (.panic msg, s)
        | .ret types =>
          let entry : UnionBuilder :=
            { Name := options.name, Description := options.description, Typ := reflectType,
              Types := types, ResolveType := options.resolveType }
          (.ret (), { s with unions := s.unions.set options.name entry })

/-- `SchemaBuilder.Interface`. -/
def Interface (s : SchemaBuilder) (interfaceType : Option RType) (typeResolve : Func)
    (opts : List OptionFn) : Outcome InterfaceBuilder × SchemaBuilder :=
  match interfaceType with
  | none => (.panic "nil type passed to Interface", s)
  | some t =>
    let reflectType := match t with
      | .ptr e => e
      | _ => t
    if reflectType.kind ≠ .Interface then
      (.panic "Interface must be a interface Operation in Golang", s) else
    let options := applyOpts opts (optionsNamed reflectType.name)
    match s.interfaces.get options.name with
    | some _ => (.panic ("duplicate interface " ++ options.name), s)
    | none =>
      let entry : InterfaceBuilder :=
        { Name := options.name, Description := options.description, Typ := reflectType,
          ResolveType := typeResolve, PossibleTypes := options.possibleTypes, Fields := [] }
      (.ret entry, { s with interfaces := s.interfaces.set options.name entry })

/-- `SchemaBuilder.Directive`. -/
def Directive (s : SchemaBuilder) (name : String) (locations : List DirectiveLocation)
    (fn : Func) (opts : List OptionFn) : Outcome Unit × SchemaBuilder :=
  let options := applyOpts opts (optionsNamed name)
  if options.name = "" then (.panic "Directive must be named.", s) else
  if locations.length = 0 then (.panic "Must provide locations for directive.", s) else
  if fn = .nil then (.panic "Must provide option func for directive", s) else
  let entry : DirectiveBuilder :=
    { Name := options.name, Description := options.description, Locations := locations,
      Args := options.input, DirectiveFn := fn }
  (.ret (), { s with directives := s.directives.set name entry })

/-- Every entry of every registry is stored under a key equal to its own `Name`. -/
def keyedByName (s : SchemaBuilder) : Prop :=
  (∀ p ∈ s.scalars, p.1 = p.2.Name) ∧ (∀ p ∈ s.enums, p.1 = p.2.Name) ∧
  (∀ p ∈ s.objects, p.1 = p.2.Name) ∧ (∀ p ∈ s.unions, p.1 = p.2.Name) ∧
  (∀ p ∈ s.interfaces, p.1 = p.2.Name) ∧ (∀ p ∈ s.directives, p.1 = p.2.Name)

end SchemaBuilder

end graphql

/-! ## `schemabuilder.Schema` (`schemabuilder/schema.go`) -/

namespace internal

/-- Modelled from the spec: an `internal.Type` as the type resolver produces it; the
package `internal` is outside the sources read.  After sections 4.2, item 3, and 9 of
the spec it is a slot with a stable identity `id`, handed out before the slot is
complete, and its contents `refs`, one reference for each field of the type, a field
name with the identity of the slot of the field's type; `refs` is `none` while the
slot is a placeholder whose contents are not filled in yet. -/
structure IType where
  id : Nat
  refs : Option (List (String × Nat))
  deriving DecidableEq, Repr

/-- The struct `internal.Schema` as `Build` fills it. -/
structure Schema where
  Query : Option IType
  Mutation : Option IType
  Subscription : Option IType
  deriving DecidableEq, Repr

end internal

namespace schemabuilder

/-- The package path of the struct types declared in `schema.go`. -/
def pkg : String := "github.com/unrotten/graphql/schemabuilder"

/-- The entry `Object`.  `Typ` is the dynamic type of the `interface{}` field `Type`,
`none` for a nil interface; only the type of the stored value is ever inspected. -/
structure Object where
  Name : String
  Typ : Option RType
  Desc : String
  HandleChain : List Func
  deriving DecidableEq, Repr

structure Enum where
  Name : String
  Desc : String
  Typ : Option RType
  Map : GoMap String Value
  ReverseMap : GoMap Value String
  DescMap : GoMap String String
  deriving DecidableEq, Repr

structure InputObject where
  Name : String
  Typ : Option RType
  Fields : GoMap String Nat
  deriving DecidableEq, Repr

structure Scalar where
  Name : String
  Desc : String
  Typ : Option RType
  Serialize : Func
  ParseValue : Func
  deriving DecidableEq, Repr

/-- The entry `Union`; `Build` reads its field `Type`, which `Schema.Union` leaves nil. -/
structure Union where
  Name : String
  Desc : String
  Typ : Option RType
  Types : List RType
  deriving DecidableEq, Repr

structure Interface where
  Name : String
  Desc : String
  Typ : Option RType
  Fn : Func
  deriving DecidableEq, Repr

/-- The builder `Schema`: one registry per kind, keyed by name. -/
structure Schema where
  objects : GoMap String schemabuilder.Object
  enums : GoMap String schemabuilder.Enum
  inputObjects : GoMap String schemabuilder.InputObject
  interfaces : GoMap String schemabuilder.Interface
  unions : GoMap String schemabuilder.Union
  scalars : GoMap String schemabuilder.Scalar
  deriving DecidableEq, Repr

/-- The type `*Object` that `reflect.TypeOf(object)` yields in `Schema.Object`.  The
declaration of the struct is outside the sources read; its fields are those that
`schema.go` assigns. -/
def objectPointer : RType :=
  .ptr (.struct pkg "Object"
    (.cons "Name" (.basic .String "" "string" [] [])
      (.cons "Type" (.iface "" "" [])
        (.cons "Desc" (.basic .String "" "string" [] [])
          (.cons "HandleChain" (.basic .Slice "" "" [] []) .nil)))) [] [])

/-- The type `*reflect.rtype`, which is `reflect.TypeOf` of a `reflect.Type` value. -/
def rtypePointer : RType := .ptr (.struct "reflect" "rtype" .nil [] [])

/-- The root marker `query{}`. -/
def queryType : RType := .struct pkg "query" .nil [] []

/-- The root marker `mutation{}`. -/
def mutationType : RType := .struct pkg "mutation" .nil [] []

/-- The root marker `Subscription{}`, with its field `Payload []byte`. -/
def subscriptionType : RType :=
  .struct pkg "Subscription" (.cons "Payload" (.basic .Slice "" "" [] []) .nil) [] []

/-- The working maps of `Build`, keyed by host type.  The declaration of this struct is
outside the sources read; the fields are those of the literal in `Build`. -/
structure schemaBuilder where
  types : GoMap RType internal.IType
  objects : GoMap RType schemabuilder.Object
  enums : GoMap RType schemabuilder.Enum
  inputObjects : GoMap RType schemabuilder.InputObject
  interfaces : GoMap RType schemabuilder.Interface
  scalars : GoMap RType schemabuilder.Scalar
  unions : GoMap RType schemabuilder.Union
  deriving DecidableEq, Repr

/-- What a call of `Build` or of the type resolver does: it panics, or it returns a
pair of a (possibly nil) result and a (possibly nil) error. -/
inductive Returned (α : Type) where
  | panic (msg : String)
  | ret (value : Option α) (err : Option String)
  deriving DecidableEq, Repr

/-- The method `getType` of `*schemaBuilder`, which is outside the sources read: any
function from the working maps and a host type to a result and the working maps
after the call. -/
abbrev Resolver := schemaBuilder → RType → Returned internal.IType × schemaBuilder

namespace Schema

/-- The loop of `Schema.Enum` over the pairs of `enumMap`, on the three local maps. -/
def enumLoop (typ : Option RType) :
    List (String × Value) → GoMap String Value → GoMap Value String → GoMap String String →
    Outcome (GoMap String Value × GoMap Value String × GoMap String String)
  | [], eMap, rMap, dMap => .ret (eMap, rMap, dMap)
  | (key, val) :: rest, eMap, rMap, dMap =>
    let desc := ""
    match typ with
    | none => .panic nilDereference
    | some typ =>
      if val.kind ≠ typ.kind then
        match val with
        | .struct _ fields =>
          if fields.length ≠ 2 then .panic "if enumMap's value is struct,then fieldNum must be 2."
          else
            match fields with
            | [field, fieldDesc] =>
              if field.type.kind ≠ typ.kind then .panic "enumMap's value types are not equal" else
              if fieldDesc.type.kind ≠ .String then .panic "enum value's desc must be string" else
              .panic "enum types are not equal"
            | _ => .panic "enum types are not equal"
        | _ => .panic "enum types are not equal"
      else
        if val.hashable = false then .panic "runtime error: hash of unhashable type" else
        enumLoop (some typ) rest (eMap.set key val) (rMap.set val key) (dMap.set key desc)

/-- `Schema.Enum`. -/
def Enum (s : Schema) (name : String) (val : Option RType) (enumMap : List (String × Value))
    (desc : String) : Outcome Unit × Schema :=
  match s.enums.get name with
  | some _ => (.panic ("duplicate enum " ++ name), s)
  | none =>
    let typ := val
    match enumLoop typ enumMap [] [] [] with
    | .panic msg => (.panic msg, s)
    | .ret (eMap, rMap, dMap) =>
      let entry : schemabuilder.Enum :=
        { Name := name, Desc := desc, Typ := val, Map := eMap, ReverseMap := rMap,
          DescMap := dMap }
      (.ret (), { s with enums := s.enums.set name entry })

/-- The loop of `Schema.Object` over `options`: each option is given by the handler
that calling it returns, and the non-nil handlers are appended in order. -/
def handleChain (options : List Func) : List Func :=
  options.filter fun handleFunc => handleFunc ≠ .nil

/-- `Schema.Object`. -/
def Object (s : Schema) (name : String) (typ : Option RType) (desc : String)
    (options : List Func) : Outcome schemabuilder.Object × Schema :=
  match s.objects.get name with
  | some object =>
    if some objectPointer ≠ typ then
      match object.Typ with
      | none => (.panic nilDereference, s)
      | some t =>
        (.panic ("re-registered input object with different type, already registered type: "
          ++ t.pkgPath ++ "." ++ t.name), s)
    else (.ret object, s)
  | none =>
    let object : schemabuilder.Object :=
      { Name := name, Typ := typ, Desc := desc, HandleChain := handleChain options }
    (.ret object, { s with objects := s.objects.set name object })

/-- `Schema.InputObject`. -/
def InputObject (s : Schema) (name : String) (typ : Option RType) :
    Outcome schemabuilder.InputObject × Schema :=
  let inputObject : schemabuilder.InputObject := { Name := name, Typ := typ, Fields := [] }
  match s.inputObjects.get name with
  | some stored =>
    if stored.Typ ≠ typ then
      match stored.Typ with
      | none => (.panic nilDereference, s)
      | some t =>
        (.panic ("re-registered input object with different type, already registered type: "
          ++ t.pkgPath ++ "." ++ t.name), s)
    else (.ret inputObject, { s with inputObjects := s.inputObjects.set name inputObject })
  | none => (.ret inputObject, { s with inputObjects := s.inputObjects.set name inputObject })

/-- `Schema.Scalar`; `ufn` is the variadic list of unmarshal functions. -/
def Scalar (s : Schema) (name : String) (tp : Option RType) (desc : String) (ufn : List Func) :
    Outcome Unit × Schema :=
  match s.scalars.get name with
  | some _ => (.panic "duplicate scalar name", s)
  | none =>
    match tp with
    | none => (.panic nilDereference, s)
    | some typ =>
      if typ.kind = .Ptr then (.panic "type should not be of pointer type", s) else
      let store (ufn0 : Func) : Outcome Unit × Schema :=
        let scalar : schemabuilder.Scalar :=
          { Name := name, Desc := desc, Typ := tp, Serialize := .closure "Serialize" .nil none,
            ParseValue := .closure "ParseValue" ufn0 (some typ) }
        (.ret (), { s with scalars := s.scalars.set name scalar })
      match ufn with
      | [] =>
        match (RType.ptr typ).implements rtypePointer with
        | none => (.panic "reflect: non-interface type passed to Type.Implements", s)
        | some false =>
          (.panic ("either UnmarshalFunc should be provided or the provided type should "
            ++ "implement json.Unmarshaler interface"), s)
        | some true => store (.closure "UnmarshalJSON" .nil (some (RType.ptr typ)))
      | ufn0 :: _ => store ufn0

/-- The loop of `Schema.Union` over the struct fields, filling `types` from index 0. -/
def unionLoop : List RType → List RType → Outcome (List RType)
  | [], types => .ret types
  | f :: rest, types =>
    if f.kind ≠ .Struct then .panic "union's member must be a struct"
    else unionLoop rest (types ++ [f])

/-- `Schema.Union`. -/
def Union (s : Schema) (name : String) (union : Option RType) (desc : String) :
    Outcome Unit × Schema :=
  match union with
  | none => (.panic nilDereference, s)
  | some typ =>
    match typ.fields with
    | none => (.panic "union must be a struct", s)
    | some fields =>
      match s.unions.get name with
      | some _ => (.panic ("duplicate union " ++ name), s)
      | none =>
        match unionLoop fields [] with
        | .panic msg => (.panic msg, s)
        | .ret types =>
          let entry : schemabuilder.Union :=
            { Name := name, Desc := desc, Typ := none, Types := types }
          (.ret (), { s with unions := s.unions.set name entry })

/-- `Schema.Interface`, which returns the new entry without storing it. -/
def Interface (s : Schema) (name : String) (desc : String) (typ : Option RType) (fn : Func) :
    Outcome schemabuilder.Interface × Schema :=
  match typ with
  | none => (.panic nilDereference, s)
  | some t =>
    if t.kind ≠ .Interface then (.panic "Interface must be a interface Type in Golang", s) else
    match s.interfaces.get name with
    | some _ => (.panic ("duplicate interface of " ++ name), s)
    | none => (.ret { Name := name, Desc := desc, Typ := typ, Fn := fn }, s)

/-- `Schema.Query`: `s.Object("Query", query{}, "")`. -/
def Query (s : Schema) : Outcome schemabuilder.Object × Schema :=
  s.Object "Query" (some queryType) "" []

/-- `Schema.Mutation`: `s.Object("Mutation", mutation{}, "")`. -/
def Mutation (s : Schema) : Outcome schemabuilder.Object × Schema :=
  s.Object "Mutation" (some mutationType) "" []

/-- `Schema.Subscription`: `s.Object("Subscription", Subscription{}, "")`. -/
def Subscription (s : Schema) : Outcome schemabuilder.Object × Schema :=
  s.Object "Subscription" (some subscriptionType) "" []

/-- How one of the six re-keying loops of `Build` ends: with a runtime panic, with
`return nil, err`, or with its working map filled. -/
inductive Partition (α : Type) where
  | panic (msg : String)
  | err (e : String)
  | done (m : GoMap RType α)
  deriving DecidableEq, Repr

/-- The common shape of the six re-keying loops of `Build`, over the entries in the
order `range` yields them: take `reflect.TypeOf(entry.Type)`, return an error when
its kind is refused or when the working map already has the type, else store the
entry under the type. -/
def rekey {α : Type} (typeOf : α → Option RType) (refused : Kind → Bool)
    (kindErr dupErr : RType → String) : List α → GoMap RType α → Partition α
  | [], acc => .done acc
  | entry :: rest, acc =>
    match typeOf entry with
    | none => .panic nilDereference
    | some typ =>
      if refused typ.kind then .err (kindErr typ) else
      match acc.get typ with
      | some _ => .err (dupErr typ)
      | none => rekey typeOf refused kindErr dupErr rest (acc.set typ entry)

/-- The loop `for _, object := range s.objects`. -/
def rekeyObjects : List schemabuilder.Object → Partition schemabuilder.Object :=
  fun entries => rekey (fun e => e.Typ) (fun k => k ≠ .Struct)
    (fun typ => "object.Type should be a struct, not " ++ typ.string)
    (fun typ => "duplicate object for " ++ typ.string) entries []

/-- The loop `for _, inputObject := range s.inputObjects`. -/
def rekeyInputObjects : List schemabuilder.InputObject → Partition schemabuilder.InputObject :=
  fun entries => rekey (fun e => e.Typ) (fun k => k ≠ .Struct)
    (fun typ => "inputObject.Type should be a struct, not " ++ typ.string)
    (fun typ => "duplicate inputObject for " ++ typ.string) entries []

/-- The loop `for _, enum := range s.enums`. -/
def rekeyEnums : List schemabuilder.Enum → Partition schemabuilder.Enum :=
  fun entries => rekey (fun e => e.Typ) (fun k => k = .Ptr)
    (fun _ => "Enum.Type should not be a pointer")
    (fun typ => "duplicate enum for " ++ typ.string) entries []

/-- The loop `for _, inter := range s.interfaces`. -/
def rekeyInterfaces : List schemabuilder.Interface → Partition schemabuilder.Interface :=
  fun entries => rekey (fun e => e.Typ) (fun k => k ≠ .Interface)
    (fun typ => "inputObject.Type should be a interface, not " ++ typ.string)
    (fun typ => "duplicate interface for " ++ typ.string) entries []

/-- The loop `for _, scalar := range s.scalars`. -/
def rekeyScalars : List schemabuilder.Scalar → Partition schemabuilder.Scalar :=
  fun entries => rekey (fun e => e.Typ) (fun k => k ≠ .Struct)
    (fun _ => "Scalar.Type should  be a struct")
    (fun typ => "duplicate scalar for " ++ typ.string) entries []

/-- The loop `for _, union := range s.unions`. -/
def rekeyUnions : List schemabuilder.Union → Partition schemabuilder.Union :=
  fun entries => rekey (fun e => e.Typ) (fun k => k ≠ .Struct)
    (fun _ => "Scalar.Type should  be a struct")
    (fun typ => "duplicate union for " ++ typ.string) entries []

/-- How the partition pass of `Build` ends: with a panic, with an error, or with the
working maps `sb` filled. -/
inductive Partitioned where
  | panic (msg : String)
  | err (e : String)
  | done (sb : schemaBuilder)
  deriving DecidableEq, Repr

/-- The partition pass of `Build`: the six re-keying loops in source order (objects,
input objects, enums, interfaces, scalars, unions), each over the values of its
registry in list order. -/
def partition (s : Schema) : Partitioned :=
  match rekeyObjects (s.objects.map Prod.snd) with
  | .panic msg => .panic msg
  | .err e => .err e
  | .done objects =>
  match rekeyInputObjects (s.inputObjects.map Prod.snd) with
  | .panic msg => .panic msg
  | .err e => .err e
  | .done inputObjects =>
  match rekeyEnums (s.enums.map Prod.snd) with
  | .panic msg => .panic msg
  | .err e => .err e
  | .done enums =>
  match rekeyInterfaces (s.interfaces.map Prod.snd) with
  | .panic msg => .panic msg
  | .err e => .err e
  | .done interfaces =>
  match rekeyScalars (s.scalars.map Prod.snd) with
  | .panic msg => .panic msg
  | .err e => .err e
  | .done scalars =>
  match rekeyUnions (s.unions.map Prod.snd) with
  | .panic msg => .panic msg
  | .err e => .err e
  | .done unions =>
    .done { types := [], objects := objects, enums := enums, inputObjects := inputObjects,
            interfaces := interfaces, scalars := scalars, unions := unions }

/-- The root resolution of `Build`: `getType` on `*query`, `*mutation` and
`*Subscription` in turn, each followed by `if err != nil { return nil, err }`. -/
def resolveRoots (getType : Resolver) (sb : schemaBuilder) : Returned internal.Schema :=
  match getType sb (.ptr queryType) with
  | (.panic msg, _) => .panic msg
  | (.ret _ (some err), _) => .ret none (some err)
  | (.ret queryTyp none, sb) =>
  match getType sb (.ptr mutationType) with
  | (.panic msg, _) => .panic msg
  | (.ret _ (some err), _) => .ret none (some err)
  | (.ret mutationTyp none, sb) =>
  match getType sb (.ptr subscriptionType) with
  | (.panic msg, _) => .panic msg
  | (.ret _ (some err), _) => .ret none (some err)
  | (.ret subscriptionTyp none, _) =>
    .ret (some { Query := queryTyp, Mutation := mutationTyp, Subscription := subscriptionTyp })
      none

/-- `Schema.Build`, which returns what the call does together with the builder after
the call: the code reads the registries of `s` and assigns to none of them. -/
def Build (getType : Resolver) (s : Schema) : Returned internal.Schema × Schema :=
  match partition s with
  | .panic msg => (.panic msg, s)
  | .err e => (.ret none (some e), s)
  | .done sb => (resolveRoots getType sb, s)

/-- Another iteration order of the same registries: Go fixes no order for `range`
over a map. -/
def reordered (s t : Schema) : Prop :=
  t.objects.Perm s.objects ∧ t.enums.Perm s.enums ∧ t.inputObjects.Perm s.inputObjects ∧
  t.interfaces.Perm s.interfaces ∧ t.unions.Perm s.unions ∧ t.scalars.Perm s.scalars

/-- Two different names of the registry `m` are bound to entries of the same host type. -/
def sharedType {α : Type} (typeOf : α → Option RType) (m : GoMap String α) : Prop :=
  ∃ n₁ n₂ e₁ e₂ T, n₁ ≠ n₂ ∧ m.get n₁ = some e₁ ∧ m.get n₂ = some e₂ ∧
    typeOf e₁ = some T ∧ typeOf e₂ = some T

/-- Two different names of the same kind are bound to the same host type. -/
def hasDuplicate (s : Schema) : Prop :=
  sharedType (fun e => e.Typ) s.objects ∨ sharedType (fun e => e.Typ) s.inputObjects ∨
  sharedType (fun e => e.Typ) s.enums ∨ sharedType (fun e => e.Typ) s.interfaces ∨
  sharedType (fun e => e.Typ) s.scalars ∨ sharedType (fun e => e.Typ) s.unions

/-- Every entry of every registry has a non-nil `Type`. -/
def allTyped (s : Schema) : Prop :=
  (∀ p ∈ s.objects, p.2.Typ ≠ none) ∧ (∀ p ∈ s.inputObjects, p.2.Typ ≠ none) ∧
  (∀ p ∈ s.enums, p.2.Typ ≠ none) ∧ (∀ p ∈ s.interfaces, p.2.Typ ≠ none) ∧
  (∀ p ∈ s.scalars, p.2.Typ ≠ none) ∧ (∀ p ∈ s.unions, p.2.Typ ≠ none)

/-- Every entry has a host type of the kind that the loop of its registry accepts. -/
def kindsAccepted (s : Schema) : Prop :=
  (∀ p ∈ s.objects, ∃ T, p.2.Typ = some T ∧ T.kind = .Struct) ∧
  (∀ p ∈ s.inputObjects, ∃ T, p.2.Typ = some T ∧ T.kind = .Struct) ∧
  (∀ p ∈ s.enums, ∃ T, p.2.Typ = some T ∧ T.kind ≠ .Ptr) ∧
  (∀ p ∈ s.interfaces, ∃ T, p.2.Typ = some T ∧ T.kind = .Interface) ∧
  (∀ p ∈ s.scalars, ∃ T, p.2.Typ = some T ∧ T.kind = .Struct) ∧
  (∀ p ∈ s.unions, ∃ T, p.2.Typ = some T ∧ T.kind = .Struct)

/-- Within each kind, the entries have pairwise different host types. -/
def distinctPerKind (s : Schema) : Prop :=
  (s.objects.map fun p => p.2.Typ).Nodup ∧ (s.inputObjects.map fun p => p.2.Typ).Nodup ∧
  (s.enums.map fun p => p.2.Typ).Nodup ∧ (s.interfaces.map fun p => p.2.Typ).Nodup ∧
  (s.scalars.map fun p => p.2.Typ).Nodup ∧ (s.unions.map fun p => p.2.Typ).Nodup

end Schema

/-- `NewSchema`.  The package variable `scalars`, the predeclared scalars, is declared
outside the sources read and is a parameter. -/
def NewSchema (scalars : GoMap String schemabuilder.Scalar) : Schema :=
  { objects := [], enums := [], inputObjects := [], interfaces := [], unions := [],
    scalars := scalars }

/-- The builder states reached from `NewSchema` by calls of `Enum`, `Object`,
`InputObject`, `Scalar` and `Union` that returned normally, each with a host value
that `allowed` holds of. -/
inductive ReachedBy (scalars : GoMap String schemabuilder.Scalar)
    (allowed : Option RType → Prop) : Schema → Prop where
  | new : ReachedBy scalars allowed (NewSchema scalars)
  | enum {s s' : Schema} (n : String) (val : Option RType) (enumMap : List (String × Value))
      (desc : String) : ReachedBy scalars allowed s → allowed val →
      s.Enum n val enumMap desc = (.ret (), s') → ReachedBy scalars allowed s'
  | object {s s' : Schema} (n : String) (typ : Option RType) (desc : String)
      (options : List Func) (r : schemabuilder.Object) : ReachedBy scalars allowed s →
      allowed typ → s.Object n typ desc options = (.ret r, s') → ReachedBy scalars allowed s'
  | inputObject {s s' : Schema} (n : String) (typ : Option RType)
      (r : schemabuilder.InputObject) : ReachedBy scalars allowed s → allowed typ →
      s.InputObject n typ = (.ret r, s') → ReachedBy scalars allowed s'
  | scalar {s s' : Schema} (n : String) (tp : Option RType) (desc : String)
      (ufn : List Func) : ReachedBy scalars allowed s → allowed tp →
      s.Scalar n tp desc ufn = (.ret (), s') → ReachedBy scalars allowed s'
  | union {s s' : Schema} (n : String) (u : Option RType) (desc : String) :
      ReachedBy scalars allowed s → allowed u →
      s.Union n u desc = (.ret (), s') → ReachedBy scalars allowed s'

/-! ### The type resolver, from the spec

The method `getType` of `*schemaBuilder` is outside the sources read.  The
definitions below follow section 4.2 of the spec, items 3 (lazy, memoized type
resolution), 5 (union closure) and 6 (root resolution), and the design note of
section 9 on cyclic graph resolution. -/

/-- Modelled from the spec: the declared field registrations of the object and
interface types, which the entries under `src/` do not carry: for a host type, the
pairs of a field name and the host type of the field's output.  A field may refer to
the type of its own object or to a type that refers back: cycles are legal. -/
abbrev FieldTable := RType → List (String × RType)

/-- Modelled from the spec: the host type that a reference stands for, a pointer
standing for its element. -/
def target : RType → RType
  | .ptr e => e
  | t => t

/-- Modelled from the spec: the named references that the resolution of the
registered type `u` recurses into: the fields of an object or interface with their
output types, the constituents of a union, which must all be objects, each under the
name of its host type, and none for a scalar or an enum; an error for a type that no
registry holds. -/
def dependents (fields : FieldTable) (sb : schemaBuilder) (u : RType) :
    Except String (List (String × RType)) :=
  if (sb.objects.get u).isSome || (sb.interfaces.get u).isSome then
    .ok (fields u)
  else
    match sb.unions.get u with
    | some union =>
      if union.Types.all fun c => (sb.objects.get (target c)).isSome then
        .ok (union.Types.map fun c => ((target c).name, c))
      else .error ("union member of " ++ u.string ++ " is not an object")
    | none =>
      if (sb.scalars.get u).isSome || (sb.enums.get u).isSome then .ok []
      else .error ("unknown type " ++ u.string)

/-- Modelled from the spec: how a resolution ends: with a result, the working maps
and the host types walked so far, with an error, or without fuel. -/
inductive Walk (α : Type) where
  | done (a : α) (sb : schemaBuilder) (walked : List RType)
  | fail (err : String)
  | exhausted
  deriving DecidableEq, Repr

/-- Modelled from the spec: the resolution of the host types of `ts` in turn, each
by `step`, stopping at the first that does not end with a result; the results are
returned in the order of `ts`. -/
def resolveAll {α : Type} (step : schemaBuilder → List RType → RType → Walk α) :
    List RType → schemaBuilder → List RType → Walk (List α)
  | [], sb, walked => .done [] sb walked
  | t :: rest, sb, walked =>
    match step sb walked t with
    | .done a sb' walked' =>
      match resolveAll step rest sb' walked' with
      | .done as sb'' walked'' => .done (a :: as) sb'' walked''
      | .fail err => .fail err
      | .exhausted => .exhausted
    | .fail err => .fail err
    | .exhausted => .exhausted

/-- Modelled from the spec: lazy, memoized type resolution.  The memo table
`sb.types` is keyed by host-type identity.  A type found in it, fully or partially
resolved, is returned and not walked again.  Otherwise a placeholder slot with a new
identity and no contents is registered in the memo table before the resolution
recurses into the dependents, so a reference back to a type in progress finds the
placeholder; when the recursion has returned, the contents of the slot are filled in:
for each dependent, its name with the identity of the type that its resolution
returned.  `walked` records each type whose dependents are walked; `fuel` bounds the
depth of the recursion. -/
def resolve (fields : FieldTable) :
    Nat → schemaBuilder → List RType → RType → Walk internal.IType
  | 0, _, _, _ => .exhausted
  | fuel + 1, sb, walked, t =>
    match sb.types.get (target t) with
    | some typ => .done typ sb walked
    | none =>
      match dependents fields sb (target t) with
      | .error err => .fail err
      | .ok deps =>
        let slot : internal.IType := { id := sb.types.length, refs := none }
        match resolveAll (resolve fields fuel) (deps.map Prod.snd)
            { sb with types := sb.types.set (target t) slot } (walked ++ [target t]) with
        | .done typs sb' walked' =>
          let typ : internal.IType :=
            { id := slot.id, refs := some ((deps.map Prod.fst).zip (typs.map fun r => r.id)) }
          .done typ { sb' with types := sb'.types.set (target t) typ } walked'
        | .fail err => .fail err
        | .exhausted => .exhausted

/-- Modelled from the spec: a depth that no resolution exceeds: one more than the
number of registered types. -/
def fuelFor (sb : schemaBuilder) : Nat :=
  sb.objects.length + sb.interfaces.length + sb.unions.length + sb.scalars.length +
    sb.enums.length + 1

/-- Modelled from the spec: the marker of `Mutation` or of `Subscription` is absent:
it is not registered as an object and has no slot in the memo table. -/
def absentRoot (sb : schemaBuilder) (t : RType) : Bool :=
  (decide (target t = mutationType) || decide (target t = subscriptionType)) &&
    ((sb.types.get (target t)).isNone && (sb.objects.get (target t)).isNone)

/-- Modelled from the spec: the method `getType`, with the host types walked.  The
markers of `Mutation` and `Subscription` may be absent, which is distinct from
failure: the result is nil and nothing is walked.  Every other type is resolved by
`resolve`. -/
def getTypeWalk (fields : FieldTable) (sb : schemaBuilder) (walked : List RType) (t : RType) :
    Walk (Option internal.IType) :=
  if absentRoot sb t then .done none sb walked
  else
    match resolve fields (fuelFor sb) sb walked t with
    | .done typ sb' walked' => .done (some typ) sb' walked'
    | .fail err => .fail err
    | .exhausted => .exhausted

/-- Modelled from the spec: the method `getType`: an absent `Mutation` or
`Subscription` gives a nil result and a nil error; a type that cannot be resolved,
also a missing `Query`, is an error. -/
def getType (fields : FieldTable) : Resolver := fun sb t =>
  match getTypeWalk fields sb [] t with
  | .done typ sb' _ => (.ret typ none, sb')
  | .fail err => (.ret none (some err), sb)
  | .exhausted => (.ret none (some "type resolution did not finish"), sb)

/-- Modelled from the spec: the resolution of the three roots in the order of `Build`,
with the host types walked. -/
def rootsWalk (fields : FieldTable) (sb : schemaBuilder) : Walk (List (Option internal.IType)) :=
  resolveAll (getTypeWalk fields)
    [.ptr queryType, .ptr mutationType, .ptr subscriptionType] sb []

/-- Modelled from the spec: the type has a slot in the memo table. -/
def known (sb : schemaBuilder) (u : RType) : Bool := (sb.types.get u).isSome

/-- Modelled from the spec: the identity of the slot of a type in the memo table. -/
def slotId (sb : schemaBuilder) (u : RType) : Option Nat :=
  (sb.types.get u).map fun typ => typ.id

/-- Modelled from the spec: the populated reference of a dependent: its name with the
identity of the slot of its type; none when the type has no slot. -/
def reference (sb : schemaBuilder) (d : String × RType) : Option (String × Nat) :=
  (slotId sb (target d.2)).map fun i => (d.1, i)

/-- Modelled from the spec: the slot `typ` of the type `u` is filled: it is no
placeholder, and its contents are one reference for each dependent of `u`, in order,
under the name of the dependent, to the slot that the memo table holds for the type
of the dependent. -/
def filled (fields : FieldTable) (sb : schemaBuilder) (u : RType) (typ : internal.IType) : Prop :=
  ∃ deps refs, dependents fields sb u = .ok deps ∧ typ.refs = some refs ∧
    refs.map some = deps.map (reference sb)

/-- Modelled from the spec: no unresolved placeholder remains: every slot of the memo
table is filled. -/
def populated (fields : FieldTable) (sb : schemaBuilder) : Prop :=
  ∀ u typ, sb.types.get u = some typ → filled fields sb u typ

/-- Modelled from the spec: every dependent of a registered type is registered. -/
def closedTable (fields : FieldTable) (sb : schemaBuilder) : Prop :=
  ∀ u deps, dependents fields sb u = .ok deps →
    ∀ d ∈ deps, ∃ deps', dependents fields sb (target d.2) = .ok deps'

/-- The host types that the registries of resolvable kinds hold. -/
def allKeys (sb : schemaBuilder) : List RType :=
  sb.objects.keys ++ sb.interfaces.keys ++ sb.unions.keys ++ sb.scalars.keys ++ sb.enums.keys

/-- The number of registered host types without a slot in the memo table. -/
def pending (sb : schemaBuilder) : Nat :=
  ((allKeys sb).filter fun u => !known sb u).length

/-- The working maps `sb'` extend `sb`: the registries are the same and every slot of
the memo table is kept as it is. -/
def Ext (sb sb' : schemaBuilder) : Prop :=
  sb'.objects = sb.objects ∧ sb'.enums = sb.enums ∧ sb'.inputObjects = sb.inputObjects ∧
  sb'.interfaces = sb.interfaces ∧ sb'.scalars = sb.scalars ∧ sb'.unions = sb.unions ∧
  ∀ u typ, sb.types.get u = some typ → sb'.types.get u = some typ

/-- The working maps `sb'` keep the identities of `sb`: the registries are the same
and every slot of the memo table keeps its identity. -/
def IdExt (sb sb' : schemaBuilder) : Prop :=
  sb'.objects = sb.objects ∧ sb'.enums = sb.enums ∧ sb'.inputObjects = sb.inputObjects ∧
  sb'.interfaces = sb.interfaces ∧ sb'.scalars = sb.scalars ∧ sb'.unions = sb.unions ∧
  ∀ u i, slotId sb u = some i → slotId sb' u = some i

/-- Every slot of the memo table other than those of the types of `inProgress` is
filled. -/
def populatedExcept (fields : FieldTable) (inProgress : List RType) (sb : schemaBuilder) : Prop :=
  ∀ u typ, sb.types.get u = some typ → u ∈ inProgress ∨ filled fields sb u typ

/-- The slots of the memo table are numbered in the order in which they were
registered, so no two types share an identity. -/
def numbered (sb : schemaBuilder) : Prop :=
  (sb.types.map fun p => p.2.id) = List.range sb.types.length

/-- A check of `closedTable` over the registered host types. -/
def closedTableCheck (fields : FieldTable) (sb : schemaBuilder) : Bool :=
  (allKeys sb).all fun u =>
    match dependents fields sb u with
    | .ok deps => deps.all fun d =>
        match dependents fields sb (target d.2) with
        | .ok _ => true
        | .error _ => false
    | .error _ => true
/-- What the resolution keeps while the types of `inProgress` are being resolved and
the host types `walked` have been walked: the field table is closed, every slot other
than those of the types in progress is filled, the memo table holds exactly the types
walked, none of them twice, and its slots are numbered. -/
def WalkInv (fields : FieldTable) (inProgress : List RType) (sb : schemaBuilder)
    (walked : List RType) : Prop :=
  closedTable fields sb ∧ populatedExcept fields inProgress sb ∧ sb.types.keys = walked ∧
    walked.Nodup ∧ numbered sb

end schemabuilder

/-! ## Concrete host types and builder states -/

namespace Example

/-- The Go type `int`. -/
def intT : RType := .basic .Int "" "int" [] []

/-- A named integer type `type Color int`. -/
def colorT : RType := .basic .Int "main" "Color" [] []

/-- A named string type `type Celsius string`. -/
def celsiusT : RType := .basic .String "main" "Celsius" [] []

/-- The struct `type User struct { ID int }`, without methods. -/
def userT : RType := .struct "main" "User" (.cons "ID" intT .nil) [] []

/-- The struct `type Admin struct { ID int }`, without methods. -/
def adminT : RType := .struct "main" "Admin" (.cons "ID" intT .nil) [] []

/-- The interface `type Identifiable interface { GetID() int }`. -/
def identifiableT : RType := .iface "main" "Identifiable" ["GetID"]

/-- The struct `type Empty struct{}`. -/
def emptyT : RType := .struct "main" "Empty" .nil [] []

/-- The struct `type SearchResult struct { *User; *Admin }`. -/
def searchResultT : RType :=
  .struct "main" "SearchResult" (.cons "User" (.ptr userT) (.cons "Admin" (.ptr adminT) .nil)) [] []

/-- The struct `type Plain struct { User; Admin }`, with struct members. -/
def plainT : RType :=
  .struct "main" "Plain" (.cons "User" userT (.cons "Admin" adminT .nil)) [] []

/-- The struct `type Mixed struct { *User; Count *int }`, with a pointer to a scalar. -/
def mixedT : RType :=
  .struct "main" "Mixed" (.cons "User" (.ptr userT) (.cons "Count" (.ptr intT) .nil)) [] []

/-- The builder `graphql.SchemaBuilder` with empty registries. -/
def emptyBuilder : graphql.SchemaBuilder :=
  { scalars := [], enums := [], objects := [], unions := [], interfaces := [], directives := [] }

/-- The builder `schemabuilder.Schema` with empty registries. -/
def emptySchema : schemabuilder.Schema :=
  { objects := [], enums := [], inputObjects := [], interfaces := [], unions := [], scalars := [] }

/-- The scalar entry that `Scalar(Celsius(""))` stores. -/
def celsiusScalar : graphql.ScalarBuilder :=
  { Name := "Celsius", Description := "", Typ := celsiusT,
    Serialize := .closure "serialize" .nil none,
    ParseValue := .closure "parseValue" .nil (some celsiusT),
    ParseLiteral := .closure "parseLiteral" .nil (some celsiusT) }

/-- A builder in which the scalar name `Celsius` is bound to the type `Celsius`. -/
def celsiusBuilder : graphql.SchemaBuilder :=
  { emptyBuilder with scalars := [("Celsius", celsiusScalar)] }

/-- The object entry that `Object(User{})` stores. -/
def userObject : graphql.ObjectBuilder :=
  { Name := "User", Description := "", Typ := userT, Fields := [], Interface := [] }

/-- A builder in which the object name `User` is bound to the struct `User`. -/
def userBuilder : graphql.SchemaBuilder :=
  { emptyBuilder with objects := [("User", userObject)] }

/-- The option that declares the interface `Identifiable`. -/
def implementsIdentifiable : graphql.OptionFn :=
  fun o => { o with interfaces := o.interfaces ++ [identifiableT] }

/-- The option that renames the registration. -/
def named (n : String) : graphql.OptionFn :=
  fun o => { o with name := n }

/-- The entry of `schemabuilder.Schema.Object("User", User{}, "")`. -/
def userEntry : schemabuilder.Object :=
  { Name := "User", Typ := some userT, Desc := "", HandleChain := [] }

/-- A `schemabuilder.Schema` in which the object name `User` is bound to the struct `User`. -/
def userSchema : schemabuilder.Schema :=
  { emptySchema with objects := [("User", userEntry)] }

/-- The values map `{"RED": Color(1), "CRIMSON": Color(1)}`: two names for one host value. -/
def colorValues : List (String × Value) :=
  [("RED", .atom colorT 1 ""), ("CRIMSON", .atom colorT 1 "")]

/-- The values map `{"RED": Color(1), "GREEN": Color(2)}`. -/
def distinctValues : List (String × Value) :=
  [("RED", .atom colorT 1 ""), ("GREEN", .atom colorT 2 "")]

/-- The enum entry of `Schema.Enum(n, Color(1), {}, "")`. -/
def colorEnum (n : String) : schemabuilder.Enum :=
  { Name := n, Desc := "", Typ := some colorT, Map := [], ReverseMap := [], DescMap := [] }

/-- A `Schema` with the enum names `Color` and `Colour` both bound to the type `Color`. -/
def twoColorsSchema : schemabuilder.Schema :=
  { emptySchema with enums := [("Color", colorEnum "Color"), ("Colour", colorEnum "Colour")] }

/-- The `Schema` after `Object("Anything", nil, "")` and the two enum registrations:
the object entry has a nil `Type`. -/
def nilObjectSchema : schemabuilder.Schema :=
  { twoColorsSchema with
    objects := [("Anything", { Name := "Anything", Typ := none, Desc := "", HandleChain := [] })] }

/-- The entry of `schemabuilder.Schema.InputObject("UserInput", User{})`. -/
def userInput : schemabuilder.InputObject :=
  { Name := "UserInput", Typ := some userT, Fields := [] }

/-- A `Schema` in which the struct `User` is registered both as the object `User` and
as the input object `UserInput`. -/
def crossKindSchema : schemabuilder.Schema :=
  { emptySchema with
    objects := [("User", userEntry)]
    inputObjects := [("UserInput", userInput)] }

/-- The working maps of `Build` after the partition pass on `crossKindSchema`. -/
def crossKindMaps : schemabuilder.schemaBuilder :=
  { types := [], objects := [(userT, userEntry)], enums := [],
    inputObjects := [(userT, userInput)], interfaces := [], scalars := [], unions := [] }

/-- A type resolver that resolves `*query` and returns an error for every other type. -/
def queryOnlyResolver : schemabuilder.Resolver :=
  fun sb t =>
    if t = .ptr schemabuilder.queryType then (.ret (some { id := 0, refs := some [] }) none, sb)
    else (.ret none (some "unknown type"), sb)

/-- The enum type of the comment of `Schema.Enum`: `type enumType int32`. -/
def enumTypeT : RType := .basic .Int32 "main" "enumType" [] []

/-- The Go type `string`. -/
def stringT : RType := .basic .String "" "string" [] []

/-- The type of a two-field struct `{host value, description string}`. -/
def describedT : RType :=
  .struct "" "" (.cons "Value" enumTypeT (.cons "Desc" stringT .nil)) [] []

/-- The enum map of the comment of `Schema.Enum`:
`{"one": {enumType(1), "the first one"}, "two": enumType(2), "three": enumType(3)}`. -/
def documentedMap : List (String × Value) :=
  [("one", .struct describedT [{ type := enumTypeT, num := 1, text := "" },
                               { type := stringT, num := 0, text := "the first one" }]),
   ("two", .atom enumTypeT 2 ""),
   ("three", .atom enumTypeT 3 "")]

/-- The plain entries of the documented map: `{"two": enumType(2), "three": enumType(3)}`. -/
def plainMap : List (String × Value) :=
  [("two", .atom enumTypeT 2 ""), ("three", .atom enumTypeT 3 "")]

/-- The builder after `Directive("auth", ["FIELD"], f, <name "authz">)` on a fresh
builder: the entry named `authz` is stored under the key `auth`. -/
def renamedDirectiveBuilder : graphql.SchemaBuilder :=
  { emptyBuilder with directives := [("auth",
      { Name := "authz", Description := "", Locations := ["FIELD"], Args := [],
        DirectiveFn := .ref 1 })] }

/-- The Go type `bool`. -/
def boolT : RType := .basic .Bool "" "bool" [] []

/-- A predeclared scalar `Boolean` over the Go type `bool`. -/
def builtinScalars : GoMap String schemabuilder.Scalar :=
  [("Boolean", { Name := "Boolean", Desc := "", Typ := some boolT,
                 Serialize := .closure "Serialize" .nil none, ParseValue := .ref 0 })]

/-- The entry of `Object("Anything", nil, "")`. -/
def anythingEntry : schemabuilder.Object :=
  { Name := "Anything", Typ := none, Desc := "", HandleChain := [] }

/-- The `Schema` after `NewSchema()` and `Object("Anything", nil, "")`. -/
def anythingSchema : schemabuilder.Schema :=
  { schemabuilder.NewSchema builtinScalars with objects := [("Anything", anythingEntry)] }

/-- The entry that `Union("Plain", Plain{}, "")` stores: it has no `Type`. -/
def plainUnion : schemabuilder.Union :=
  { Name := "Plain", Desc := "", Typ := none, Types := [userT, adminT] }

/-- The `Schema` after `NewSchema()`, without predeclared scalars, and
`Union("Plain", Plain{}, "")`. -/
def plainUnionSchema : schemabuilder.Schema :=
  { schemabuilder.NewSchema [] with unions := [("Plain", plainUnion)] }

/-- The `Schema` after `NewSchema()` and `Object("User", User{}, "")`. -/
def userOnlySchema : schemabuilder.Schema :=
  { schemabuilder.NewSchema builtinScalars with objects := [("User", userEntry)] }

/-- The struct `A` of an object that has a field of its own type. -/
def aT : RType := .struct "main" "A" (.cons "ID" intT .nil) [] []

/-- The struct `B` of an object that refers to `A` and is referred to by `A`. -/
def bT : RType := .struct "main" "B" (.cons "ID" intT .nil) [] []

/-- The entry of `Object(n, t, "")`. -/
def objectEntry (n : String) (t : RType) : schemabuilder.Object :=
  { Name := n, Typ := some t, Desc := "", HandleChain := [] }

/-- The registry after `NewSchema()`, without predeclared scalars, `Query()`,
`Object("User", User{}, "")` and `InputObject("UserInput", User{})`: the struct `User`
is registered both as an object and as an input object. -/
def crossKindQuerySchema : schemabuilder.Schema :=
  ((((schemabuilder.NewSchema []).Query).2.Object "User" (some userT) "" []).2.InputObject
    "UserInput" (some userT)).2

/-- The fields of `crossKindQuerySchema`: `Query.user : *User`. -/
def crossKindFields : schemabuilder.FieldTable := fun t =>
  if t = schemabuilder.queryType then [("user", .ptr userT)] else []

/-- The working maps of `Build` after the partition pass on `crossKindQuerySchema`. -/
def crossKindQueryMaps : schemabuilder.schemaBuilder :=
  { types := [],
    objects := [(schemabuilder.queryType, objectEntry "Query" schemabuilder.queryType),
                (userT, userEntry)],
    enums := [], inputObjects := [(userT, userInput)], interfaces := [], scalars := [],
    unions := [] }

/-- The registry after `NewSchema()`, without predeclared scalars, `Query()` and
`Object("A", A{}, "")`; `Mutation()` and `Subscription()` are not called. -/
def selfSchema : schemabuilder.Schema :=
  (((schemabuilder.NewSchema []).Query).2.Object "A" (some aT) "" []).2

/-- The fields of `selfSchema`: `Query.a : *A` and `A.next : *A`, a field of the
type of its own object. -/
def selfFields : schemabuilder.FieldTable := fun t =>
  if t = schemabuilder.queryType then [("a", .ptr aT)]
  else if t = aT then [("next", .ptr aT)]
  else []

/-- The registry after `NewSchema()`, without predeclared scalars, `Query()`,
`Mutation()`, `Subscription()`, `Object("A", A{}, "")` and `Object("B", B{}, "")`. -/
def mutualSchema : schemabuilder.Schema :=
  ((((((schemabuilder.NewSchema []).Query).2.Mutation).2.Subscription).2.Object
    "A" (some aT) "" []).2.Object "B" (some bT) "" []).2

/-- The fields of `mutualSchema`: `Query.a : *A`, `Mutation.setB : *B`, `A.b : *B` and
`B.a : *A`: the objects `A` and `B` each have a field of the other's type. -/
def mutualFields : schemabuilder.FieldTable := fun t =>
  if t = schemabuilder.queryType then [("a", .ptr aT)]
  else if t = schemabuilder.mutationType then [("setB", .ptr bT)]
  else if t = aT then [("b", .ptr bT)]
  else if t = bT then [("a", .ptr aT)]
  else []

/-- The working maps of `Build` after the partition pass on `selfSchema`. -/
def selfMaps : schemabuilder.schemaBuilder :=
  { types := [],
    objects := [(schemabuilder.queryType, objectEntry "Query" schemabuilder.queryType),
                (aT, objectEntry "A" aT)],
    enums := [], inputObjects := [], interfaces := [], scalars := [], unions := [] }

/-- The working maps of `Build` after the partition pass on `mutualSchema`. -/
def mutualMaps : schemabuilder.schemaBuilder :=
  { types := [],
    objects := [(schemabuilder.queryType, objectEntry "Query" schemabuilder.queryType),
                (schemabuilder.mutationType, objectEntry "Mutation" schemabuilder.mutationType),
                (schemabuilder.subscriptionType,
                  objectEntry "Subscription" schemabuilder.subscriptionType),
                (aT, objectEntry "A" aT), (bT, objectEntry "B" bT)],
    enums := [], inputObjects := [], interfaces := [], scalars := [], unions := [] }

/-- The working maps after the resolution of the roots of `selfSchema`: the slot of
`A` refers to itself. -/
def selfResolved : schemabuilder.schemaBuilder :=
  { selfMaps with
    types := [(schemabuilder.queryType, { id := 0, refs := some [("a", 1)] }),
              (aT, { id := 1, refs := some [("next", 1)] })] }

/-- The working maps after the resolution of the roots of `mutualSchema`: the slot of
`A` refers to the slot of `B` and the slot of `B` to the slot of `A`. -/
def mutualResolved : schemabuilder.schemaBuilder :=
  { mutualMaps with
    types := [(schemabuilder.queryType, { id := 0, refs := some [("a", 1)] }),
              (aT, { id := 1, refs := some [("b", 2)] }),
              (bT, { id := 2, refs := some [("a", 1)] }),
              (schemabuilder.mutationType, { id := 3, refs := some [("setB", 2)] }),
              (schemabuilder.subscriptionType, { id := 4, refs := some [] })] }

end Example

/-! ## Lemmas on Go maps -/

namespace GoMap

variable {κ ν : Type} [DecidableEq κ]

theorem get_set_self (m : GoMap κ ν) (k : κ) (v : ν) : (m.set k v).get k = some v := by
  induction m with
  | nil => simp [set, get]
  | cons p m ih =>
    obtain ⟨k', v'⟩ := p
    by_cases h : k' = k
    · simp [set, get, h]
    · simp [set, get, h, ih]

theorem get_set_ne (m : GoMap κ ν) {k k' : κ} (v : ν) (h : k ≠ k') :
    (m.set k v).get k' = m.get k' := by
  induction m with
  | nil => simp [set, get, h]
  | cons p m ih =>
    obtain ⟨k₀, v₀⟩ := p
    by_cases h₀ : k₀ = k
    · subst h₀
      simp [set, get, h]
    · by_cases h₁ : k₀ = k'
      · subst h₁
        simp [set, get, h₀]
      · simp [set, get, h₀, h₁, ih]

theorem mem_of_get {m : GoMap κ ν} {k : κ} {v : ν} (h : m.get k = some v) : (k, v) ∈ m := by
  induction m with
  | nil => simp [get] at h
  | cons p m ih =>
    obtain ⟨k₀, v₀⟩ := p
    by_cases h₀ : k₀ = k
    · simp [get, h₀] at h
      simp [h₀, h]
    · simp [get, h₀] at h
      exact List.mem_cons_of_mem _ (ih h)

theorem get_eq_none_iff (m : GoMap κ ν) (k : κ) : m.get k = none ↔ k ∉ m.keys := by
  induction m with
  | nil => simp [get, keys]
  | cons p m ih =>
    obtain ⟨k₀, v₀⟩ := p
    by_cases h₀ : k₀ = k
    · simp [get, keys, h₀]
    · have h₁ : ¬ k = k₀ := fun h => h₀ h.symm
      simpa [get, keys, h₀, h₁] using ih

theorem keys_set (m : GoMap κ ν) (k : κ) (v : ν) :
    (m.set k v).keys = if k ∈ m.keys then m.keys else m.keys ++ [k] := by
  induction m with
  | nil => simp [set, keys]
  | cons p m ih =>
    obtain ⟨k₀, v₀⟩ := p
    by_cases h₀ : k₀ = k
    · simp [set, keys, h₀]
    · have h₁ : ¬ k = k₀ := fun h => h₀ h.symm
      simp only [keys] at ih
      by_cases h₂ : k ∈ List.map Prod.fst m
      · simp [set, keys, h₀, h₁, h₂, ih]
      · simp [set, keys, h₀, h₁, h₂, ih]

end GoMap

/-! ## Registration under a name that is already bound -/

namespace graphql.SchemaBuilder

theorem Scalar_bound (s : SchemaBuilder) (T : RType) (opts : List OptionFn)
    (h : (s.scalars.get (applyOpts opts (scalarOptions T)).name).isSome) :
    (s.Scalar (some T) opts).1.failed = true ∧ (s.Scalar (some T) opts).2 = s := by
  obtain ⟨e, he⟩ := Option.isSome_iff_exists.mp h
  unfold Scalar
  by_cases hk : T.kind = .Ptr <;> simp [hk, he, Outcome.failed]

theorem Enum_bound (s : SchemaBuilder) (T : RType) (values : EnumValues) (opts : List OptionFn)
    (h : (s.enums.get (applyOpts opts (optionsNamed T.name)).name).isSome) :
    (s.Enum (some T) values opts).1.failed = true ∧ (s.Enum (some T) values opts).2 = s := by
  obtain ⟨e, he⟩ := Option.isSome_iff_exists.mp h
  unfold Enum
  cases values <;> simp [he, Outcome.failed]

theorem Union_bound (s : SchemaBuilder) (T : RType) (opts : List OptionFn)
    (h : (s.unions.get (applyOpts opts (optionsNamed T.name)).name).isSome) :
    (s.Union (some T) opts).1.failed = true ∧ (s.Union (some T) opts).2 = s := by
  obtain ⟨e, he⟩ := Option.isSome_iff_exists.mp h
  unfold Union
  cases hf : T.fields <;> simp [hf, he, Outcome.failed]

theorem Interface_bound (s : SchemaBuilder) (T : RType) (typeResolve : Func)
    (opts : List OptionFn)
    (h : (s.interfaces.get (applyOpts opts (optionsNamed T.name)).name).isSome) :
    (s.Interface (some (.ptr T)) typeResolve opts).1.failed = true ∧
    (s.Interface (some (.ptr T)) typeResolve opts).2 = s := by
  obtain ⟨e, he⟩ := Option.isSome_iff_exists.mp h
  unfold Interface
  by_cases hk : T.kind = .Interface <;> simp [hk, he, Outcome.failed]

end graphql.SchemaBuilder

namespace schemabuilder.Schema

theorem Enum_taken (t : Schema) (n : String) (val : Option RType)
    (enumMap : List (String × Value)) (desc : String) (h : (t.enums.get n).isSome) :
    (t.Enum n val enumMap desc).1.failed = true ∧ (t.Enum n val enumMap desc).2 = t := by
  obtain ⟨e, he⟩ := Option.isSome_iff_exists.mp h
  simp [Enum, he, Outcome.failed]

theorem Scalar_taken (t : Schema) (n : String) (tp : Option RType) (desc : String)
    (ufn : List Func) (h : (t.scalars.get n).isSome) :
    (t.Scalar n tp desc ufn).1.failed = true ∧ (t.Scalar n tp desc ufn).2 = t := by
  obtain ⟨e, he⟩ := Option.isSome_iff_exists.mp h
  simp [Scalar, he, Outcome.failed]

theorem Union_taken (t : Schema) (n : String) (T : RType) (desc : String)
    (h : (t.unions.get n).isSome) :
    (t.Union n (some T) desc).1.failed = true ∧ (t.Union n (some T) desc).2 = t := by
  obtain ⟨e, he⟩ := Option.isSome_iff_exists.mp h
  unfold Union
  cases hf : T.fields <;> simp [hf, he, Outcome.failed]

theorem Interface_taken (t : Schema) (n desc : String) (T : RType) (fn : Func)
    (h : (t.interfaces.get n).isSome) :
    (t.Interface n desc (some T) fn).1.failed = true ∧ (t.Interface n desc (some T) fn).2 = t := by
  obtain ⟨e, he⟩ := Option.isSome_iff_exists.mp h
  unfold Interface
  by_cases hk : T.kind = .Interface <;> simp [hk, he, Outcome.failed]

end schemabuilder.Schema

/-- C1, counterexample.  In a builder where the scalar name `Celsius` is bound to the
host type `Celsius`, registering the type `Celsius` again with `Scalar` panics with
`duplicate scalar name`: the call fails instead of returning the stored entry. -/
theorem scalar_reregistration_panics :
    Example.celsiusBuilder.scalars.get "Celsius" = some Example.celsiusScalar ∧
    Example.celsiusScalar.Typ = Example.celsiusT ∧
    graphql.SchemaBuilder.Scalar Example.celsiusBuilder (some Example.celsiusT) [] =
      (.panic "duplicate scalar name", Example.celsiusBuilder) := by
  decide

/-- C1, amended.  Re-registering a bound name with the same host type is a no-op that
returns the stored entry at `graphql.SchemaBuilder.Object` (for a struct type).  At
`Scalar`, `Enum`, `Union` and `Interface` of `graphql.SchemaBuilder` and at `Enum`,
`Scalar`, `Union` and `Interface` of `schemabuilder.Schema`, a registration under a
name that is already bound panics and leaves the builder unchanged.
`schemabuilder.Schema.InputObject` does not fail and keeps the name bound to the
same host type. -/
theorem reregistration_same_type (s : graphql.SchemaBuilder) (t : schemabuilder.Schema)
    (T : RType) (opts : List graphql.OptionFn) (values : graphql.EnumValues)
    (typeResolve fn : Func) (n desc : String) (enumMap : List (String × Value))
    (ufn : List Func) :
    (∀ e, T.kind = .Struct →
        s.objects.get (graphql.applyOpts opts (graphql.optionsNamed T.name)).name = some e →
        e.Typ = T → s.Object (some T) opts = (.ret e, s)) ∧
    ((s.scalars.get (graphql.applyOpts opts (graphql.SchemaBuilder.scalarOptions T)).name).isSome →
        (s.Scalar (some T) opts).1.failed = true ∧ (s.Scalar (some T) opts).2 = s) ∧
    ((s.enums.get (graphql.applyOpts opts (graphql.optionsNamed T.name)).name).isSome →
        (s.Enum (some T) values opts).1.failed = true ∧ (s.Enum (some T) values opts).2 = s) ∧
    ((s.unions.get (graphql.applyOpts opts (graphql.optionsNamed T.name)).name).isSome →
        (s.Union (some T) opts).1.failed = true ∧ (s.Union (some T) opts).2 = s) ∧
    ((s.interfaces.get (graphql.applyOpts opts (graphql.optionsNamed T.name)).name).isSome →
        (s.Interface (some (.ptr T)) typeResolve opts).1.failed = true ∧
        (s.Interface (some (.ptr T)) typeResolve opts).2 = s) ∧
    ((t.enums.get n).isSome →
        (t.Enum n (some T) enumMap desc).1.failed = true ∧ (t.Enum n (some T) enumMap desc).2 = t) ∧
    ((t.scalars.get n).isSome →
        (t.Scalar n (some T) desc ufn).1.failed = true ∧ (t.Scalar n (some T) desc ufn).2 = t) ∧
    ((t.unions.get n).isSome →
        (t.Union n (some T) desc).1.failed = true ∧ (t.Union n (some T) desc).2 = t) ∧
    ((t.interfaces.get n).isSome →
        (t.Interface n desc (some T) fn).1.failed = true ∧
        (t.Interface n desc (some T) fn).2 = t) ∧
    (∀ e, t.inputObjects.get n = some e → e.Typ = some T →
        (t.InputObject n (some T)).1.failed = false ∧
        ((t.InputObject n (some T)).2.inputObjects.get n).map (fun e => e.Typ) = some (some T)) := by
  refine ⟨?_, s.Scalar_bound T opts, s.Enum_bound T values opts, s.Union_bound T opts,
    s.Interface_bound T typeResolve opts, t.Enum_taken n (some T) enumMap desc,
    t.Scalar_taken n (some T) desc ufn, t.Union_taken n T desc, t.Interface_taken n desc T fn, ?_⟩
  · intro e hk hget hT
    simp [graphql.SchemaBuilder.Object, hk, hget, hT]
  · intro e hget hT
    simp [schemabuilder.Schema.InputObject, hget, hT, Outcome.failed, GoMap.get_set_self]

/-- C1, witness.  `Object(User{})` on a builder that holds `User` returns the stored
entry and the same builder, and `Scalar(Celsius(""))` on a builder that holds
`Celsius` panics and leaves it unchanged. -/
theorem reregistration_same_type_witness :
    Example.userBuilder.Object (some Example.userT) [] =
      (.ret Example.userObject, Example.userBuilder) ∧
    ((Example.celsiusBuilder.Scalar (some Example.celsiusT) []).1.failed = true ∧
      (Example.celsiusBuilder.Scalar (some Example.celsiusT) []).2 = Example.celsiusBuilder) :=
  ⟨(reregistration_same_type Example.userBuilder Example.userSchema Example.userT []
      (.map []) .nil .nil "User" "" [] []).1 Example.userObject (by decide) (by decide)
      (by decide),
   (reregistration_same_type Example.celsiusBuilder Example.userSchema Example.celsiusT []
      (.map []) .nil .nil "User" "" [] []).2.1 (by decide)⟩

/-- C2, failing input.  In a `schemabuilder.Schema` where the object name `User` is
bound to the struct `User`, the call `Object("User", &Object{}, "")` supplies the same
name with the different host type `*Object` and returns the stored entry without a
panic: the guard compares `reflect.TypeOf(object)`, the type of the entry pointer,
with the type of the argument, not the stored host type. -/
theorem object_other_type_returns :
    Example.userSchema.objects.get "User" = some Example.userEntry ∧
    Example.userEntry.Typ = some Example.userT ∧
    Example.userT ≠ schemabuilder.objectPointer ∧
    Example.userSchema.Object "User" (some schemabuilder.objectPointer) "" [] =
      (.ret Example.userEntry, Example.userSchema) := by
  decide

/-- A registration that supplies a bound name with a different host type panics and
leaves the builder unchanged at every registry other than `schemabuilder.Schema.Object`. -/
theorem other_type_panics_elsewhere (s : graphql.SchemaBuilder) (t : schemabuilder.Schema)
    (T U : RType) (hne : U ≠ T) (opts : List graphql.OptionFn) (values : graphql.EnumValues)
    (typeResolve fn : Func) (n desc : String) (enumMap : List (String × Value))
    (ufn : List Func) :
    (∀ e, s.objects.get (graphql.applyOpts opts (graphql.optionsNamed U.name)).name = some e →
        e.Typ = T → (s.Object (some U) opts).1.failed = true ∧ (s.Object (some U) opts).2 = s) ∧
    ((s.scalars.get (graphql.applyOpts opts (graphql.SchemaBuilder.scalarOptions U)).name).isSome →
        (s.Scalar (some U) opts).1.failed = true ∧ (s.Scalar (some U) opts).2 = s) ∧
    ((s.enums.get (graphql.applyOpts opts (graphql.optionsNamed U.name)).name).isSome →
        (s.Enum (some U) values opts).1.failed = true ∧ (s.Enum (some U) values opts).2 = s) ∧
    ((s.unions.get (graphql.applyOpts opts (graphql.optionsNamed U.name)).name).isSome →
        (s.Union (some U) opts).1.failed = true ∧ (s.Union (some U) opts).2 = s) ∧
    ((s.interfaces.get (graphql.applyOpts opts (graphql.optionsNamed U.name)).name).isSome →
        (s.Interface (some (.ptr U)) typeResolve opts).1.failed = true ∧
        (s.Interface (some (.ptr U)) typeResolve opts).2 = s) ∧
    ((t.enums.get n).isSome →
        (t.Enum n (some U) enumMap desc).1.failed = true ∧ (t.Enum n (some U) enumMap desc).2 = t) ∧
    ((t.scalars.get n).isSome →
        (t.Scalar n (some U) desc ufn).1.failed = true ∧ (t.Scalar n (some U) desc ufn).2 = t) ∧
    ((t.unions.get n).isSome →
        (t.Union n (some U) desc).1.failed = true ∧ (t.Union n (some U) desc).2 = t) ∧
    ((t.interfaces.get n).isSome →
        (t.Interface n desc (some U) fn).1.failed = true ∧
        (t.Interface n desc (some U) fn).2 = t) ∧
    (∀ e, t.inputObjects.get n = some e → e.Typ = some T →
        (t.InputObject n (some U)).1.failed = true ∧ (t.InputObject n (some U)).2 = t) := by
  refine ⟨?_, s.Scalar_bound U opts, s.Enum_bound U values opts, s.Union_bound U opts,
    s.Interface_bound U typeResolve opts, t.Enum_taken n (some U) enumMap desc,
    t.Scalar_taken n (some U) desc ufn, t.Union_taken n U desc, t.Interface_taken n desc U fn, ?_⟩
  · intro e hget hT
    unfold graphql.SchemaBuilder.Object
    have hne' : ¬ T = U := fun h => hne h.symm
    by_cases hk : U.kind = .Struct <;> simp [hk, hget, hT, hne', Outcome.failed]
  · intro e hget hT
    have hne' : ¬ T = U := fun h => hne h.symm
    simp [schemabuilder.Schema.InputObject, hget, hT, hne', Outcome.failed]

/-! ## Successive assignments to a Go map -/

namespace GoMap

variable {κ ν : Type} [DecidableEq κ]

theorem mem_keys_set (m : GoMap κ ν) (k x : κ) (v : ν) :
    x ∈ (m.set k v).keys ↔ x ∈ m.keys ∨ x = k := by
  rw [keys_set]
  by_cases h : k ∈ m.keys
  · simp only [h, if_true]
    constructor
    · exact Or.inl
    · rintro (h' | rfl)
      · exact h'
      · exact h
  · simp [h]

theorem nodup_keys_set (m : GoMap κ ν) (k : κ) (v : ν) (h : m.keys.Nodup) :
    (m.set k v).keys.Nodup := by
  rw [keys_set]
  by_cases hk : k ∈ m.keys
  · simpa [hk] using h
  · simp only [hk, if_false]
    exact List.Nodup.append h (List.nodup_singleton k) (by simpa using hk)

theorem setAll_cons (m : GoMap κ ν) (p : κ × ν) (l : List (κ × ν)) :
    m.setAll (p :: l) = (m.set p.1 p.2).setAll l := rfl

theorem mem_keys_setAll (l : List (κ × ν)) (m : GoMap κ ν) (x : κ) :
    x ∈ (m.setAll l).keys ↔ x ∈ m.keys ∨ x ∈ l.map Prod.fst := by
  induction l generalizing m with
  | nil => simp [setAll]
  | cons p l ih =>
    rw [setAll_cons, ih, mem_keys_set]
    simp only [List.map_cons, List.mem_cons]
    tauto

theorem nodup_keys_setAll (l : List (κ × ν)) (m : GoMap κ ν) (h : m.keys.Nodup) :
    (m.setAll l).keys.Nodup := by
  induction l generalizing m with
  | nil => simpa [setAll] using h
  | cons p l ih =>
    rw [setAll_cons]
    exact ih _ (nodup_keys_set m p.1 p.2 h)

theorem length_setAll_nil (l : List (κ × ν)) :
    (setAll ([] : GoMap κ ν) l).length = (l.map Prod.fst).toFinset.card := by
  have hn : (setAll ([] : GoMap κ ν) l).keys.Nodup := nodup_keys_setAll l [] (by simp [keys])
  have hl : (setAll ([] : GoMap κ ν) l).length = (setAll ([] : GoMap κ ν) l).keys.length := by
    simp [keys]
  rw [hl, ← List.toFinset_card_of_nodup hn]
  congr 1
  ext x
  simp only [List.mem_toFinset]
  rw [mem_keys_setAll]
  simp [keys]

theorem get_setAll_of_not_mem (l : List (κ × ν)) (m : GoMap κ ν) (k : κ)
    (h : k ∉ l.map Prod.fst) : (m.setAll l).get k = m.get k := by
  induction l generalizing m with
  | nil => simp [setAll]
  | cons p l ih =>
    simp only [List.map_cons, List.mem_cons, not_or] at h
    rw [setAll_cons, ih _ h.2]
    exact get_set_ne m p.2 (fun e => h.1 e.symm)

theorem get_setAll_of_mem (l : List (κ × ν)) (m : GoMap κ ν) (k : κ) (v : ν)
    (hn : (l.map Prod.fst).Nodup) (h : (k, v) ∈ l) : (m.setAll l).get k = some v := by
  induction l generalizing m with
  | nil => simp at h
  | cons p l ih =>
    simp only [List.map_cons, List.nodup_cons] at hn
    rw [setAll_cons]
    rcases List.mem_cons.mp h with rfl | h'
    · rw [get_setAll_of_not_mem l _ _ hn.1]
      exact get_set_self m _ _
    · exact ih _ hn.2 h'

theorem mem_of_get_setAll (l : List (κ × ν)) (m : GoMap κ ν) (k : κ) (v : ν)
    (h : (m.setAll l).get k = some v) : (k, v) ∈ l ∨ m.get k = some v := by
  induction l generalizing m with
  | nil => exact Or.inr (by simpa [setAll] using h)
  | cons p l ih =>
    rw [setAll_cons] at h
    rcases ih _ h with h' | h'
    · exact Or.inl (List.mem_cons_of_mem _ h')
    · by_cases hk : p.1 = k
      · subst hk
        rw [get_set_self] at h'
        simp only [Option.some.injEq] at h'
        subst h'
        exact Or.inl (List.mem_cons_self _ _)
      · rw [get_set_ne m p.2 hk] at h'
        exact Or.inr h'

end GoMap

theorem card_toFinset_eq_length_iff {α : Type} [DecidableEq α] (l : List α) :
    l.toFinset.card = l.length ↔ l.Nodup := by
  constructor
  · intro h
    rw [List.card_toFinset] at h
    have := (List.dedup_sublist l).eq_of_length h
    exact List.dedup_eq_self.mp this
  · exact List.toFinset_card_of_nodup

/-! ## Enum registration -/

namespace graphql.SchemaBuilder

theorem enumLoop_ret (T : RType) (entries : List (String × Value))
    (eMap eMap' : GoMap String Value) (rMap rMap' : GoMap Value String)
    (h : enumLoop T entries eMap rMap = .ret (eMap', rMap')) :
    eMap' = eMap.setAll (entries.map fun p => (p.1, p.2.unwrap)) ∧
    rMap' = rMap.setAll (entries.map fun p => (p.2.unwrap, p.1)) := by
  induction entries generalizing eMap rMap with
  | nil =>
    simp only [enumLoop, Outcome.ret.injEq, Prod.mk.injEq] at h
    simp [GoMap.setAll, h.1, h.2]
  | cons p entries ih =>
    obtain ⟨key, v⟩ := p
    simp only [enumLoop] at h
    split_ifs at h
    simpa [GoMap.setAll] using ih _ _ h

end graphql.SchemaBuilder

namespace schemabuilder.Schema

theorem enumLoop_sets (typ : Option RType) (enumMap : List (String × Value))
    (eMap eMap' : GoMap String Value) (rMap rMap' : GoMap Value String)
    (dMap dMap' : GoMap String String)
    (h : enumLoop typ enumMap eMap rMap dMap = .ret (eMap', rMap', dMap')) :
    eMap' = eMap.setAll enumMap ∧
    rMap' = rMap.setAll (enumMap.map fun p => (p.2, p.1)) := by
  induction enumMap generalizing eMap rMap dMap with
  | nil =>
    simp only [enumLoop, Outcome.ret.injEq, Prod.mk.injEq] at h
    simp [GoMap.setAll, h.1, h.2.1]
  | cons p enumMap ih =>
    obtain ⟨key, v⟩ := p
    cases typ with
    | none => simp [enumLoop] at h
    | some T =>
      simp only [enumLoop] at h
      split at h
      · split at h
        · split at h <;> try split at h
          all_goals simp at h
          all_goals (split_ifs at h)
        · simp at h
      · split_ifs at h
        simpa [GoMap.setAll] using ih _ _ _ h

end schemabuilder.Schema

namespace GoMap

variable {κ ν : Type} [DecidableEq κ] [DecidableEq ν]

/-- The forward and the reverse map built from the pairs of `l`, whose keys are distinct. -/
theorem forward_reverse (l : List (κ × ν)) (hn : (l.map Prod.fst).Nodup) :
    (∀ k v, (k, v) ∈ l → (setAll [] l).get k = some v) ∧
    (∀ v k, (setAll ([] : GoMap ν κ) (l.map fun p => (p.2, p.1))).get v = some k →
        (setAll [] l).get k = some v) ∧
    (setAll ([] : GoMap ν κ) (l.map fun p => (p.2, p.1))).length ≤
      (setAll ([] : GoMap κ ν) l).length ∧
    ((setAll ([] : GoMap ν κ) (l.map fun p => (p.2, p.1))).length =
      (setAll ([] : GoMap κ ν) l).length ↔ (l.map Prod.snd).Nodup) := by
  have hf : (setAll ([] : GoMap κ ν) l).length = l.length := by
    rw [length_setAll_nil, List.toFinset_card_of_nodup hn, List.length_map]
  have hr : (setAll ([] : GoMap ν κ) (l.map fun p => (p.2, p.1))).length =
      (l.map Prod.snd).toFinset.card := by
    rw [length_setAll_nil, List.map_map]
    rfl
  have hfwd : ∀ k v, (k, v) ∈ l → (setAll [] l).get k = some v :=
    fun k v h => get_setAll_of_mem l [] k v hn h
  refine ⟨hfwd, ?_, ?_, ?_⟩
  · intro v k h
    rcases mem_of_get_setAll _ _ _ _ h with h' | h'
    · obtain ⟨p, hp, he⟩ := List.mem_map.mp h'
      simp only [Prod.mk.injEq] at he
      apply hfwd
      rw [← he.1, ← he.2]
      exact hp
    · simp [get] at h'
  · rw [hf, hr]
    simpa using List.toFinset_card_le (l.map Prod.snd)
  · rw [hf, hr, ← card_toFinset_eq_length_iff (l.map Prod.snd), List.length_map]

end GoMap

/-- C3, counterexample.  The values map `{"RED": Color(1), "CRIMSON": Color(1)}` has
two names for one host value, and both `graphql.SchemaBuilder.Enum` and
`schemabuilder.Schema.Enum` accept it on a fresh builder: the stored forward map has
two entries and the reverse map one. -/
theorem enum_accepts_repeated_value :
    graphql.SchemaBuilder.Enum Example.emptyBuilder (some Example.colorT)
        (.map Example.colorValues) [] =
      (.ret (), { Example.emptyBuilder with enums := [("Color",
        { Name := "Color", Description := "", Typ := Example.colorT,
          Values := [("RED", .atom Example.colorT 1 ""), ("CRIMSON", .atom Example.colorT 1 "")],
          ReverseValues := [(.atom Example.colorT 1 "", "CRIMSON")] })] }) ∧
    schemabuilder.Schema.Enum Example.emptySchema "Color" (some Example.colorT)
        Example.colorValues "" =
      (.ret (), { Example.emptySchema with enums := [("Color",
        { Name := "Color", Desc := "", Typ := some Example.colorT,
          Map := [("RED", .atom Example.colorT 1 ""), ("CRIMSON", .atom Example.colorT 1 "")],
          ReverseMap := [(.atom Example.colorT 1 "", "CRIMSON")],
          DescMap := [("RED", ""), ("CRIMSON", "")] })] }) := by
  decide

/-- C3, amended.  Enum registration does not check that host values are distinct.
For every registration that is accepted, of a values map with distinct keys, by
`graphql.SchemaBuilder.Enum` or by `schemabuilder.Schema.Enum`: the stored forward map
binds every name of the values map to its host value, every pair of the reverse map
is the inverse of a pair of the forward map, the reverse map has at most as many
entries as the forward map, and it has exactly as many if and only if no host value
appears twice in the values map. -/
theorem enum_registration_maps (entries : List (String × Value))
    (hkeys : (entries.map Prod.fst).Nodup) :
    (∀ (s s' : graphql.SchemaBuilder) (T : RType) (opts : List graphql.OptionFn),
      s.Enum (some T) (.map entries) opts = (.ret (), s') →
      ∃ e, s'.enums.get (graphql.applyOpts opts (graphql.optionsNamed T.name)).name = some e ∧
        (∀ k v, (k, v) ∈ entries → e.Values.get k = some v.unwrap) ∧
        (∀ v k, e.ReverseValues.get v = some k → e.Values.get k = some v) ∧
        e.ReverseValues.length ≤ e.Values.length ∧
        (e.ReverseValues.length = e.Values.length ↔
          (entries.map fun p => p.2.unwrap).Nodup)) ∧
    (∀ (t t' : schemabuilder.Schema) (n desc : String) (val : Option RType),
      t.Enum n val entries desc = (.ret (), t') →
      ∃ e, t'.enums.get n = some e ∧
        (∀ k v, (k, v) ∈ entries → e.Map.get k = some v) ∧
        (∀ v k, e.ReverseMap.get v = some k → e.Map.get k = some v) ∧
        e.ReverseMap.length ≤ e.Map.length ∧
        (e.ReverseMap.length = e.Map.length ↔ (entries.map Prod.snd).Nodup)) := by
  constructor
  · intro s s' T opts h
    unfold graphql.SchemaBuilder.Enum at h
    simp only at h
    split at h
    · simp at h
    · split at h
      · simp at h
      · rename_i eMap rMap hloop
        obtain ⟨he, hr⟩ := graphql.SchemaBuilder.enumLoop_ret _ _ _ _ _ _ hloop
        simp only [Prod.mk.injEq, true_and] at h
        subst h
        refine ⟨_, GoMap.get_set_self _ _ _, ?_⟩
        have hk' : ((entries.map fun p => (p.1, p.2.unwrap)).map Prod.fst).Nodup := by
          simpa [List.map_map, Function.comp_def] using hkeys
        have key := GoMap.forward_reverse (entries.map fun p => (p.1, p.2.unwrap)) hk'
        simp only [List.map_map, Function.comp_def] at key
        subst he hr
        refine ⟨?_, key.2.1, key.2.2.1, key.2.2.2⟩
        intro k v hkv
        exact key.1 k v.unwrap (List.mem_map.mpr ⟨(k, v), hkv, rfl⟩)
  · intro t t' n desc val h
    unfold schemabuilder.Schema.Enum at h
    simp only at h
    split at h
    · simp at h
    · split at h
      · simp at h
      · rename_i eMap rMap dMap hloop
        obtain ⟨he, hr⟩ := schemabuilder.Schema.enumLoop_sets _ _ _ _ _ _ _ _ hloop
        simp only [Prod.mk.injEq, true_and] at h
        subst h
        refine ⟨_, GoMap.get_set_self _ _ _, ?_⟩
        subst he hr
        exact GoMap.forward_reverse entries hkeys

/-- C3, witness.  The values map `{"RED": Color(1), "GREEN": Color(2)}` is accepted on
a fresh builder and the map `{"RED": Color(1), "CRIMSON": Color(1)}` on a fresh
`Schema`; the theorem applies to both registrations. -/
theorem enum_registration_maps_witness :
    (∃ e, ((graphql.SchemaBuilder.Enum Example.emptyBuilder (some Example.colorT)
          (.map Example.distinctValues) []).2.enums.get "Color") = some e ∧
        e.ReverseValues.length = e.Values.length) ∧
    (∃ e, ((schemabuilder.Schema.Enum Example.emptySchema "Color" (some Example.colorT)
          Example.colorValues "").2.enums.get "Color") = some e ∧
        e.ReverseMap.length ≤ e.Map.length) := by
  constructor
  · obtain ⟨e, h1, _, _, _, h5⟩ :=
      (enum_registration_maps Example.distinctValues (by decide)).1 Example.emptyBuilder
        (graphql.SchemaBuilder.Enum Example.emptyBuilder (some Example.colorT)
          (.map Example.distinctValues) []).2 Example.colorT [] (by decide)
    exact ⟨e, h1, h5.mpr (by decide)⟩
  · obtain ⟨e, h1, _, _, h4, _⟩ :=
      (enum_registration_maps Example.colorValues (by decide)).2 Example.emptySchema
        (schemabuilder.Schema.Enum Example.emptySchema "Color" (some Example.colorT)
          Example.colorValues "").2 "Color" "" (some Example.colorT) (by decide)
    exact ⟨e, h1, h4⟩

/-! ## Object registration and declared interfaces -/

namespace graphql.SchemaBuilder

theorem objectLoop_panics (T iface : RType) (ifaces : List RType) (acc : GoMap String RType)
    (hi : iface ∈ ifaces) (hno : T.implements iface ≠ some true) :
    (objectLoop T ifaces acc).failed = true := by
  induction ifaces generalizing acc with
  | nil => simp at hi
  | cons i ifaces ih =>
    unfold objectLoop
    rcases List.mem_cons.mp hi with rfl | h'
    · cases h : T.implements iface with
      | none => simp [Outcome.failed]
      | some b =>
        cases b with
        | false => simp [Outcome.failed]
        | true => exact absurd h hno
    · cases h : T.implements i with
      | none => simp [Outcome.failed]
      | some b =>
        cases b with
        | false => simp [Outcome.failed]
        | true => simpa using ih _ h'

end graphql.SchemaBuilder

/-- C4, counterexample.  After `Object(User{})` on a fresh builder, the call
`Object(User{}, <implements Identifiable>)` declares the interface `Identifiable`,
which the struct `User` does not implement, and returns the stored entry normally. -/
theorem object_unsatisfied_interface_returns :
    (graphql.applyOpts [Example.implementsIdentifiable]
        (graphql.optionsNamed Example.userT.name)).interfaces = [Example.identifiableT] ∧
    Example.userT.implements Example.identifiableT = some false ∧
    (graphql.SchemaBuilder.Object Example.emptyBuilder (some Example.userT) []).2 =
      Example.userBuilder ∧
    graphql.SchemaBuilder.Object Example.userBuilder (some Example.userT)
        [Example.implementsIdentifiable] = (.ret Example.userObject, Example.userBuilder) := by
  decide

/-- C4, amended.  `graphql.SchemaBuilder.Object`, for a call whose options declare an
interface that the supplied host struct type does not implement, panics at the
registration call and registers nothing when the name is not yet bound; when the name
is already bound to the same host type, the call returns the stored entry without
looking at the declared interfaces. -/
theorem object_unsatisfied_interface (s : graphql.SchemaBuilder) (T iface : RType)
    (opts : List graphql.OptionFn) (hk : T.kind = .Struct)
    (hi : iface ∈ (graphql.applyOpts opts (graphql.optionsNamed T.name)).interfaces)
    (hno : T.implements iface ≠ some true) :
    (s.objects.get (graphql.applyOpts opts (graphql.optionsNamed T.name)).name = none →
        (s.Object (some T) opts).1.failed = true ∧ (s.Object (some T) opts).2 = s) ∧
    (∀ e, s.objects.get (graphql.applyOpts opts (graphql.optionsNamed T.name)).name = some e →
        e.Typ = T → s.Object (some T) opts = (.ret e, s)) := by
  constructor
  · intro hfresh
    have hp := graphql.SchemaBuilder.objectLoop_panics T iface _ [] hi hno
    unfold graphql.SchemaBuilder.Object
    cases hl : graphql.SchemaBuilder.objectLoop T
        (graphql.applyOpts opts (graphql.optionsNamed T.name)).interfaces [] with
    | ret a => simp [hl, Outcome.failed] at hp
    | panic msg => simp [hk, hfresh, hl, Outcome.failed]
  · intro e hget hT
    simp [graphql.SchemaBuilder.Object, hk, hget, hT]

/-- C4, witness.  On a fresh builder `Object(User{}, <implements Identifiable>)`
panics and registers nothing. -/
theorem object_unsatisfied_interface_witness :
    (graphql.SchemaBuilder.Object Example.emptyBuilder (some Example.userT)
        [Example.implementsIdentifiable]).1.failed = true ∧
    (graphql.SchemaBuilder.Object Example.emptyBuilder (some Example.userT)
        [Example.implementsIdentifiable]).2 = Example.emptyBuilder :=
  (object_unsatisfied_interface Example.emptyBuilder Example.userT Example.identifiableT
    [Example.implementsIdentifiable] (by decide) (by decide) (by decide)).1 (by decide)

/-! ## Union registration -/

namespace graphql.SchemaBuilder

theorem unionLoop_ret (fields types types' : List RType)
    (h : unionLoop fields types = .ret types') : types' = types ++ fields := by
  induction fields generalizing types with
  | nil => simpa [unionLoop] using h.symm
  | cons f fields ih =>
    simp only [unionLoop] at h
    split_ifs at h
    simpa using ih _ h

theorem unionLoop_panics (fields types : List RType)
    (h : ∃ f ∈ fields, f.structShaped = false) : (unionLoop fields types).failed = true := by
  induction fields generalizing types with
  | nil => simp at h
  | cons f fields ih =>
    obtain ⟨g, hg, hs⟩ := h
    simp only [unionLoop]
    split_ifs with hbad
    · simp [Outcome.failed]
    · rcases List.mem_cons.mp hg with rfl | h'
      · exfalso
        simp only [not_or, not_not] at hbad
        simp [RType.structShaped, hbad.1, hbad.2] at hs
      · exact ih _ ⟨g, h', hs⟩

end graphql.SchemaBuilder

namespace schemabuilder.Schema

theorem unionLoop_appends (fields types types' : List RType)
    (h : unionLoop fields types = .ret types') : types' = types ++ fields := by
  induction fields generalizing types with
  | nil => simpa [unionLoop] using h.symm
  | cons f fields ih =>
    simp only [unionLoop] at h
    split_ifs at h
    simpa using ih _ h

theorem unionLoop_rejects (fields types : List RType)
    (h : ∃ f ∈ fields, f.structShaped = false) : (unionLoop fields types).failed = true := by
  induction fields generalizing types with
  | nil => simp at h
  | cons f fields ih =>
    obtain ⟨g, hg, hs⟩ := h
    simp only [unionLoop]
    split_ifs with hbad
    · simp [Outcome.failed]
    · rcases List.mem_cons.mp hg with rfl | h'
      · exfalso
        simp only [not_not] at hbad
        simp [RType.structShaped, hbad] at hs
      · exact ih _ ⟨g, h', hs⟩

end schemabuilder.Schema

namespace graphql.SchemaBuilder

/-- Over fields that are all pointers to structs, the loop of `Union` returns the
field types appended in declaration order. -/
theorem unionLoop_stores (fields types : List RType)
    (h : ∀ f ∈ fields, f.kind = .Ptr ∧ f.elem.map RType.kind = some .Struct) :
    unionLoop fields types = .ret (types ++ fields) := by
  induction fields generalizing types with
  | nil => simp [unionLoop]
  | cons f fields ih =>
    have hf := h f (List.mem_cons_self _ _)
    simp only [unionLoop]
    rw [if_neg (by simp [hf.1, hf.2])]
    rw [ih _ (fun g hg => h g (List.mem_cons_of_mem _ hg))]
    simp

end graphql.SchemaBuilder

namespace schemabuilder.Schema

/-- Over fields that are all structs, the loop of `Schema.Union` returns the field
types appended in declaration order. -/
theorem unionLoop_keeps (fields types : List RType) (h : ∀ f ∈ fields, f.kind = .Struct) :
    unionLoop fields types = .ret (types ++ fields) := by
  induction fields generalizing types with
  | nil => simp [unionLoop]
  | cons f fields ih =>
    have hf := h f (List.mem_cons_self _ _)
    simp only [unionLoop]
    rw [if_neg (by simp [hf])]
    rw [ih _ (fun g hg => h g (List.mem_cons_of_mem _ hg))]
    simp

end schemabuilder.Schema

/-- C5.  For a union struct type with at least one member field that is not
struct-shaped (neither a struct nor a pointer to a struct, so in particular a scalar
kind or a pointer to a scalar kind), `graphql.SchemaBuilder.Union` and
`schemabuilder.Schema.Union` panic and leave the builder unchanged; when either
registration returns normally, the stored entry lists the types of the struct
fields, one per field in declaration order.  Registration does succeed: under a name
that is not yet bound, `graphql.SchemaBuilder.Union` on fields that are all pointers
to structs, and `schemabuilder.Schema.Union` on fields that are all structs, return
normally and store exactly the entry whose `Types` is the list of the field types in
declaration order. -/
theorem union_members (s : graphql.SchemaBuilder) (t : schemabuilder.Schema) (T : RType)
    (fields : List RType) (opts : List graphql.OptionFn) (n desc : String)
    (hT : T.fields = some fields) :
    ((∃ f ∈ fields, f.structShaped = false) →
      ((s.Union (some T) opts).1.failed = true ∧ (s.Union (some T) opts).2 = s) ∧
      ((t.Union n (some T) desc).1.failed = true ∧ (t.Union n (some T) desc).2 = t)) ∧
    (∀ s', s.Union (some T) opts = (.ret (), s') →
      ∃ e, s'.unions.get (graphql.applyOpts opts (graphql.optionsNamed T.name)).name = some e ∧
        e.Types = fields) ∧
    (∀ t', t.Union n (some T) desc = (.ret (), t') →
      ∃ e, t'.unions.get n = some e ∧ e.Types = fields) ∧
    ((∀ f ∈ fields, f.kind = .Ptr ∧ f.elem.map RType.kind = some .Struct) →
      s.unions.get (graphql.applyOpts opts (graphql.optionsNamed T.name)).name = none →
      s.Union (some T) opts = (.ret (), { s with unions :=
        (s.unions.set (graphql.applyOpts opts (graphql.optionsNamed T.name)).name
          { Name := (graphql.applyOpts opts (graphql.optionsNamed T.name)).name,
            Description := (graphql.applyOpts opts (graphql.optionsNamed T.name)).description,
            Typ := T, Types := fields,
            ResolveType :=
              (graphql.applyOpts opts (graphql.optionsNamed T.name)).resolveType }) })) ∧
    ((∀ f ∈ fields, f.kind = .Struct) → t.unions.get n = none →
      t.Union n (some T) desc = (.ret (), { t with unions :=
        (t.unions.set n { Name := n, Desc := desc, Typ := none, Types := fields }) })) := by
  refine ⟨?_, ?_, ?_, ?_, ?_⟩
  · intro hbad
    have h1 := graphql.SchemaBuilder.unionLoop_panics fields [] hbad
    have h2 := schemabuilder.Schema.unionLoop_rejects fields [] hbad
    constructor
    · unfold graphql.SchemaBuilder.Union
      cases hl : graphql.SchemaBuilder.unionLoop fields [] with
      | ret a => simp [hl, Outcome.failed] at h1
      | panic msg =>
        cases hg : s.unions.get (graphql.applyOpts opts (graphql.optionsNamed T.name)).name <;>
          simp [hT, hl, hg, Outcome.failed]
    · unfold schemabuilder.Schema.Union
      cases hl : schemabuilder.Schema.unionLoop fields [] with
      | ret a => simp [hl, Outcome.failed] at h2
      | panic msg =>
        cases hg : t.unions.get n <;> simp [hT, hl, hg, Outcome.failed]
  · intro s' h
    unfold graphql.SchemaBuilder.Union at h
    simp only [hT] at h
    split at h
    · simp at h
    · split at h
      · simp at h
      · rename_i types hloop
        have ht := graphql.SchemaBuilder.unionLoop_ret _ _ _ hloop
        simp only [Prod.mk.injEq, true_and] at h
        subst h
        exact ⟨_, GoMap.get_set_self _ _ _, by simpa using ht⟩
  · intro t' h
    unfold schemabuilder.Schema.Union at h
    simp only [hT] at h
    split at h
    · simp at h
    · split at h
      · simp at h
      · rename_i types hloop
        have ht := schemabuilder.Schema.unionLoop_appends _ _ _ hloop
        simp only [Prod.mk.injEq, true_and] at h
        subst h
        exact ⟨_, GoMap.get_set_self _ _ _, by simpa using ht⟩
  · intro hall hfresh
    have hl := graphql.SchemaBuilder.unionLoop_stores fields [] hall
    simp only [List.nil_append] at hl
    simp [graphql.SchemaBuilder.Union, hT, hfresh, hl]
  · intro hall hfresh
    have hl := schemabuilder.Schema.unionLoop_keeps fields [] hall
    simp only [List.nil_append] at hl
    simp [schemabuilder.Schema.Union, hT, hfresh, hl]

/-- C5, witness.  The struct `Mixed` has the member `Count *int`, a pointer to a
scalar: both registrations panic and change nothing.  The struct `SearchResult`, with
the members `*User` and `*Admin`, is stored by `graphql.SchemaBuilder.Union` with the
constituents `[*User, *Admin]`, and the struct `Plain`, with the members `User` and
`Admin`, by `schemabuilder.Schema.Union` with the constituents `[User, Admin]`. -/
theorem union_members_witness :
    (((graphql.SchemaBuilder.Union Example.emptyBuilder (some Example.mixedT) []).1.failed
        = true ∧
      (graphql.SchemaBuilder.Union Example.emptyBuilder (some Example.mixedT) []).2 =
        Example.emptyBuilder) ∧
    ((schemabuilder.Schema.Union Example.emptySchema "Mixed" (some Example.mixedT) "").1.failed
        = true ∧
      (schemabuilder.Schema.Union Example.emptySchema "Mixed" (some Example.mixedT) "").2 =
        Example.emptySchema)) ∧
    graphql.SchemaBuilder.Union Example.emptyBuilder (some Example.searchResultT) [] =
      (.ret (), { Example.emptyBuilder with unions := [("SearchResult",
        { Name := "SearchResult", Description := "", Typ := Example.searchResultT,
          Types := [.ptr Example.userT, .ptr Example.adminT], ResolveType := .nil })] }) ∧
    schemabuilder.Schema.Union Example.emptySchema "Plain" (some Example.plainT) "" =
      (.ret (), { Example.emptySchema with unions := [("Plain",
        { Name := "Plain", Desc := "", Typ := none,
          Types := [Example.userT, Example.adminT] })] }) :=
  ⟨(union_members Example.emptyBuilder Example.emptySchema Example.mixedT
      [.ptr Example.userT, .ptr Example.intT] [] "Mixed" "" (by decide)).1
      ⟨.ptr Example.intT, by decide, by decide⟩,
   (union_members Example.emptyBuilder Example.emptySchema Example.searchResultT
      [.ptr Example.userT, .ptr Example.adminT] [] "Plain" "" (by decide)).2.2.2.1
      (by decide) (by decide),
   (union_members Example.emptyBuilder Example.emptySchema Example.plainT
      [Example.userT, Example.adminT] [] "Plain" "" (by decide)).2.2.2.2
      (by decide) (by decide)⟩

/-- C6, counterexample.  The struct `Empty` has no field, and both
`graphql.SchemaBuilder.Union` and `schemabuilder.Schema.Union` store it on a fresh
builder as a union without constituents. -/
theorem union_accepts_empty_struct :
    Example.emptyT.fields = some [] ∧
    graphql.SchemaBuilder.Union Example.emptyBuilder (some Example.emptyT) [] =
      (.ret (), { Example.emptyBuilder with unions := [("Empty",
        { Name := "Empty", Description := "", Typ := Example.emptyT, Types := [],
          ResolveType := .nil })] }) ∧
    schemabuilder.Schema.Union Example.emptySchema "Empty" (some Example.emptyT) "" =
      (.ret (), { Example.emptySchema with unions := [("Empty",
        { Name := "Empty", Desc := "", Typ := none, Types := [] })] }) := by
  decide

/-- C6, amended.  Union registration does not require a constituent: for a struct
type with zero fields and a name that is not yet bound, `graphql.SchemaBuilder.Union`
and `schemabuilder.Schema.Union` return normally and store a union whose constituent
list is empty. -/
theorem union_zero_fields (s : graphql.SchemaBuilder) (t : schemabuilder.Schema) (T : RType)
    (opts : List graphql.OptionFn) (n desc : String) (hT : T.fields = some []) :
    (s.unions.get (graphql.applyOpts opts (graphql.optionsNamed T.name)).name = none →
      s.Union (some T) opts = (.ret (), { s with unions :=
        (s.unions.set (graphql.applyOpts opts (graphql.optionsNamed T.name)).name
          { Name := (graphql.applyOpts opts (graphql.optionsNamed T.name)).name,
            Description := (graphql.applyOpts opts (graphql.optionsNamed T.name)).description,
            Typ := T, Types := [],
            ResolveType :=
              (graphql.applyOpts opts (graphql.optionsNamed T.name)).resolveType }) })) ∧
    (t.unions.get n = none →
      t.Union n (some T) desc = (.ret (), { t with unions :=
        (t.unions.set n { Name := n, Desc := desc, Typ := none, Types := [] }) })) := by
  constructor
  · intro h
    simp [graphql.SchemaBuilder.Union, hT, h, graphql.SchemaBuilder.unionLoop]
  · intro h
    simp [schemabuilder.Schema.Union, hT, h, schemabuilder.Schema.unionLoop]

/-- C6, witness.  The struct `Empty` on a fresh `Schema` under the name `Nothing`. -/
theorem union_zero_fields_witness :
    schemabuilder.Schema.Union Example.emptySchema "Nothing" (some Example.emptyT) "none" =
      (.ret (), { Example.emptySchema with unions :=
        (GoMap.set Example.emptySchema.unions "Nothing"
          { Name := "Nothing", Desc := "none", Typ := none, Types := [] }) }) :=
  (union_zero_fields Example.emptyBuilder Example.emptySchema Example.emptyT [] "Nothing" "none"
    (by decide)).2 (by decide)

/-! ## Directive registration -/

/-- C7.  `graphql.SchemaBuilder.Directive` panics if and only if the name of the
directive (the name after the options have been applied, which is the name the
entry gets) is empty, or the locations list is empty, or the directive function is
nil.  When it panics the builder is unchanged; when it returns, the directive
registry holds, under the name passed to the call, an entry with that name, those
locations and that function. -/
theorem directive_fails_iff (s : graphql.SchemaBuilder) (name : String)
    (locations : List graphql.DirectiveLocation) (fn : Func) (opts : List graphql.OptionFn) :
    ((s.Directive name locations fn opts).1.failed = true ↔
      (graphql.applyOpts opts (graphql.optionsNamed name)).name = "" ∨ locations = [] ∨
        fn = .nil) ∧
    ((s.Directive name locations fn opts).1.failed = true →
      (s.Directive name locations fn opts).2 = s) ∧
    ((s.Directive name locations fn opts).1.failed = false →
      ∃ e, (s.Directive name locations fn opts).2.directives.get name = some e ∧
        e.Name = (graphql.applyOpts opts (graphql.optionsNamed name)).name ∧
        e.Locations = locations ∧ e.DirectiveFn = fn ∧
        (s.Directive name locations fn opts).2 =
          { s with directives := s.directives.set name e }) := by
  unfold graphql.SchemaBuilder.Directive
  by_cases h1 : (graphql.applyOpts opts (graphql.optionsNamed name)).name = ""
  · simp [h1, Outcome.failed]
  · by_cases h2 : locations = []
    · simp [h1, h2, Outcome.failed]
    · by_cases h3 : fn = .nil
      · simp [h1, h2, h3, Outcome.failed]
      · simp [h1, h2, h3, Outcome.failed, GoMap.get_set_self]

/-- C7, witness.  `Directive("auth", ["FIELD"], f)` returns and stores the entry;
with an empty locations list the call panics and changes nothing. -/
theorem directive_fails_iff_witness :
    (∃ e, (graphql.SchemaBuilder.Directive Example.emptyBuilder "auth" ["FIELD"] (.ref 1)
          []).2.directives.get "auth" = some e ∧
        e.Name = "auth" ∧ e.Locations = ["FIELD"] ∧ e.DirectiveFn = .ref 1) ∧
    (graphql.SchemaBuilder.Directive Example.emptyBuilder "auth" [] (.ref 1) []).2 =
      Example.emptyBuilder := by
  constructor
  · obtain ⟨e, h1, h2, h3, h4, _⟩ :=
      (directive_fails_iff Example.emptyBuilder "auth" ["FIELD"] (.ref 1) []).2.2 (by decide)
    exact ⟨e, h1, by simpa [graphql.applyOpts, graphql.optionsNamed] using h2, h3, h4⟩
  · exact (directive_fails_iff Example.emptyBuilder "auth" [] (.ref 1) []).2.1 (by decide)

/-! ## The partition pass of `Build` -/

namespace schemabuilder.Schema

variable {α : Type}

/-- A re-keying loop that fills its working map met entries of pairwise different,
non-nil host types, none of which was in the working map before. -/
theorem rekey_done (typeOf : α → Option RType) (refused : Kind → Bool)
    (kindErr dupErr : RType → String) (l : List α) (acc m : GoMap RType α)
    (h : rekey typeOf refused kindErr dupErr l acc = .done m) :
    (l.map typeOf).Nodup ∧ ∀ e ∈ l, ∃ T, typeOf e = some T ∧ acc.get T = none := by
  induction l generalizing acc with
  | nil => simp
  | cons e rest ih =>
    unfold rekey at h
    cases hT : typeOf e with
    | none => simp [hT] at h
    | some T =>
      simp only [hT] at h
      split_ifs at h
      cases hg : acc.get T with
      | some x => simp [hg] at h
      | none =>
        simp only [hg] at h
        obtain ⟨hn, hall⟩ := ih _ h
        have hnot : ∀ e' ∈ rest, typeOf e' ≠ some T := by
          intro e' he' heq
          obtain ⟨T', hT', hget⟩ := hall e' he'
          rw [heq] at hT'
          cases hT'
          rw [GoMap.get_set_self] at hget
          cases hget
        constructor
        · simp only [List.map_cons, List.nodup_cons, hT]
          refine ⟨?_, hn⟩
          intro hmem
          obtain ⟨e', he', heq⟩ := List.mem_map.mp hmem
          exact hnot e' he' heq
        · intro e' he'
          rcases List.mem_cons.mp he' with rfl | he'
          · exact ⟨T, hT, hg⟩
          · obtain ⟨T', hT', hget⟩ := hall e' he'
            refine ⟨T', hT', ?_⟩
            have hne : T ≠ T' := fun heq => hnot e' he' (heq ▸ hT')
            rwa [GoMap.get_set_ne acc e hne] at hget

/-- A re-keying loop over entries with non-nil host types does not panic. -/
theorem rekey_no_panic (typeOf : α → Option RType) (refused : Kind → Bool)
    (kindErr dupErr : RType → String) (l : List α) (acc : GoMap RType α)
    (h : ∀ e ∈ l, typeOf e ≠ none) (msg : String) :
    rekey typeOf refused kindErr dupErr l acc ≠ .panic msg := by
  induction l generalizing acc with
  | nil => simp [rekey]
  | cons e rest ih =>
    unfold rekey
    cases hT : typeOf e with
    | none => exact absurd hT (h e (List.mem_cons_self _ _))
    | some T =>
      simp only
      split_ifs
      · simp
      · cases hg : acc.get T with
        | some x => simp
        | none => exact ih _ (fun e' he' => h e' (List.mem_cons_of_mem _ he'))

/-- A re-keying loop over entries of accepted kinds and pairwise different host
types, none of them in the working map, fills the working map. -/
theorem rekey_succeeds (typeOf : α → Option RType) (refused : Kind → Bool)
    (kindErr dupErr : RType → String) (l : List α) (acc : GoMap RType α)
    (hk : ∀ e ∈ l, ∃ T, typeOf e = some T ∧ refused T.kind = false ∧ acc.get T = none)
    (hn : (l.map typeOf).Nodup) :
    ∃ m, rekey typeOf refused kindErr dupErr l acc = .done m := by
  induction l generalizing acc with
  | nil => exact ⟨acc, rfl⟩
  | cons e rest ih =>
    obtain ⟨T, hT, hr, hg⟩ := hk e (List.mem_cons_self _ _)
    simp only [List.map_cons, List.nodup_cons] at hn
    unfold rekey
    simp only [hT, hr, hg]
    apply ih
    · intro e' he'
      obtain ⟨T', hT', hr', hg'⟩ := hk e' (List.mem_cons_of_mem _ he')
      refine ⟨T', hT', hr', ?_⟩
      have hne : T ≠ T' := by
        intro heq
        apply hn.1
        rw [hT, heq, ← hT']
        exact List.mem_map_of_mem _ he'
      rw [GoMap.get_set_ne acc e hne]
      exact hg'
    · exact hn.2

/-- Two names bound to one host type leave no iteration order in which the host
types met are pairwise different. -/
theorem sharedType_not_nodup (typeOf : α → Option RType) (m m' : GoMap String α)
    (h : sharedType typeOf m) (hp : m'.Perm m) :
    ¬ ((m'.map Prod.snd).map typeOf).Nodup := by
  obtain ⟨n₁, n₂, e₁, e₂, T, hne, h₁, h₂, t₁, t₂⟩ := h
  intro hn
  have hm₁ : (n₁, e₁) ∈ m' := hp.mem_iff.mpr (GoMap.mem_of_get h₁)
  have hm₂ : (n₂, e₂) ∈ m' := hp.mem_iff.mpr (GoMap.mem_of_get h₂)
  rw [List.map_map] at hn
  have := List.inj_on_of_nodup_map hn hm₁ hm₂ (by simp [t₁, t₂])
  exact hne (congrArg Prod.fst this)

end schemabuilder.Schema

namespace schemabuilder.Schema

/-- When the partition pass fills the working maps, every registry has entries of
pairwise different host types. -/
theorem partition_done (s : Schema) (sb : schemaBuilder) (h : partition s = .done sb) :
    ((s.objects.map Prod.snd).map fun e => e.Typ).Nodup ∧
    ((s.inputObjects.map Prod.snd).map fun e => e.Typ).Nodup ∧
    ((s.enums.map Prod.snd).map fun e => e.Typ).Nodup ∧
    ((s.interfaces.map Prod.snd).map fun e => e.Typ).Nodup ∧
    ((s.scalars.map Prod.snd).map fun e => e.Typ).Nodup ∧
    ((s.unions.map Prod.snd).map fun e => e.Typ).Nodup := by
  unfold partition at h
  cases h₁ : rekeyObjects (s.objects.map Prod.snd) with
  | panic msg => simp [h₁] at h
  | err e => simp [h₁] at h
  | done m₁ =>
  cases h₂ : rekeyInputObjects (s.inputObjects.map Prod.snd) with
  | panic msg => simp [h₁, h₂] at h
  | err e => simp [h₁, h₂] at h
  | done m₂ =>
  cases h₃ : rekeyEnums (s.enums.map Prod.snd) with
  | panic msg => simp [h₁, h₂, h₃] at h
  | err e => simp [h₁, h₂, h₃] at h
  | done m₃ =>
  cases h₄ : rekeyInterfaces (s.interfaces.map Prod.snd) with
  | panic msg => simp [h₁, h₂, h₃, h₄] at h
  | err e => simp [h₁, h₂, h₃, h₄] at h
  | done m₄ =>
  cases h₅ : rekeyScalars (s.scalars.map Prod.snd) with
  | panic msg => simp [h₁, h₂, h₃, h₄, h₅] at h
  | err e => simp [h₁, h₂, h₃, h₄, h₅] at h
  | done m₅ =>
  cases h₆ : rekeyUnions (s.unions.map Prod.snd) with
  | panic msg => simp [h₁, h₂, h₃, h₄, h₅, h₆] at h
  | err e => simp [h₁, h₂, h₃, h₄, h₅, h₆] at h
  | done m₆ =>
    exact ⟨(rekey_done _ _ _ _ _ _ _ h₁).1, (rekey_done _ _ _ _ _ _ _ h₂).1,
      (rekey_done _ _ _ _ _ _ _ h₃).1, (rekey_done _ _ _ _ _ _ _ h₄).1,
      (rekey_done _ _ _ _ _ _ _ h₅).1, (rekey_done _ _ _ _ _ _ _ h₆).1⟩

theorem typed_values {α : Type} (typeOf : α → Option RType) (m : GoMap String α)
    (h : ∀ p ∈ m, typeOf p.2 ≠ none) : ∀ e ∈ m.map Prod.snd, typeOf e ≠ none := by
  intro e he
  obtain ⟨p, hp, rfl⟩ := List.mem_map.mp he
  exact h p hp

/-- When every entry has a non-nil `Type`, the partition pass does not panic. -/
theorem partition_no_panic (s : Schema) (h : s.allTyped) (msg : String) :
    partition s ≠ .panic msg := by
  obtain ⟨a₁, a₂, a₃, a₄, a₅, a₆⟩ := h
  unfold partition
  cases h₁ : rekeyObjects (s.objects.map Prod.snd) with
  | panic m => exact absurd h₁ (rekey_no_panic _ _ _ _ _ _ (typed_values _ _ a₁) m)
  | err e => simp
  | done m₁ =>
  cases h₂ : rekeyInputObjects (s.inputObjects.map Prod.snd) with
  | panic m => exact absurd h₂ (rekey_no_panic _ _ _ _ _ _ (typed_values _ _ a₂) m)
  | err e => simp
  | done m₂ =>
  cases h₃ : rekeyEnums (s.enums.map Prod.snd) with
  | panic m => exact absurd h₃ (rekey_no_panic _ _ _ _ _ _ (typed_values _ _ a₃) m)
  | err e => simp
  | done m₃ =>
  cases h₄ : rekeyInterfaces (s.interfaces.map Prod.snd) with
  | panic m => exact absurd h₄ (rekey_no_panic _ _ _ _ _ _ (typed_values _ _ a₄) m)
  | err e => simp
  | done m₄ =>
  cases h₅ : rekeyScalars (s.scalars.map Prod.snd) with
  | panic m => exact absurd h₅ (rekey_no_panic _ _ _ _ _ _ (typed_values _ _ a₅) m)
  | err e => simp
  | done m₅ =>
  cases h₆ : rekeyUnions (s.unions.map Prod.snd) with
  | panic m => exact absurd h₆ (rekey_no_panic _ _ _ _ _ _ (typed_values _ _ a₆) m)
  | err e => simp
  | done m₆ => simp

theorem accepted_values {α : Type} (typeOf : α → Option RType) (refused : Kind → Bool)
    (m : GoMap String α)
    (h : ∀ p ∈ m, ∃ T, typeOf p.2 = some T ∧ refused T.kind = false) :
    ∀ e ∈ m.map Prod.snd, ∃ T, typeOf e = some T ∧ refused T.kind = false ∧
      GoMap.get ([] : GoMap RType α) T = none := by
  intro e he
  obtain ⟨p, hp, rfl⟩ := List.mem_map.mp he
  obtain ⟨T, hT, hr⟩ := h p hp
  exact ⟨T, hT, hr, rfl⟩

/-- When every entry has an accepted kind and the host types are pairwise different
within each kind, the partition pass fills the working maps. -/
theorem partition_succeeds (s : Schema) (hk : s.kindsAccepted) (hn : s.distinctPerKind) :
    ∃ sb, partition s = .done sb := by
  obtain ⟨k₁, k₂, k₃, k₄, k₅, k₆⟩ := hk
  obtain ⟨n₁, n₂, n₃, n₄, n₅, n₆⟩ := hn
  obtain ⟨m₁, h₁⟩ := rekey_succeeds (fun e : schemabuilder.Object => e.Typ)
    (fun k => k ≠ .Struct)
    (fun typ => "object.Type should be a struct, not " ++ typ.string)
    (fun typ => "duplicate object for " ++ typ.string) (s.objects.map Prod.snd) []
    (accepted_values (fun e : schemabuilder.Object => e.Typ) (fun k => k ≠ .Struct) s.objects
      (fun p hp => ((k₁ p hp).imp fun T hT => ⟨hT.1, by simp [hT.2]⟩))) (by simpa [List.map_map] using n₁)
  obtain ⟨m₂, h₂⟩ := rekey_succeeds (fun e : schemabuilder.InputObject => e.Typ)
    (fun k => k ≠ .Struct)
    (fun typ => "inputObject.Type should be a struct, not " ++ typ.string)
    (fun typ => "duplicate inputObject for " ++ typ.string) (s.inputObjects.map Prod.snd) []
    (accepted_values (fun e : schemabuilder.InputObject => e.Typ) (fun k => k ≠ .Struct) s.inputObjects
      (fun p hp => ((k₂ p hp).imp fun T hT => ⟨hT.1, by simp [hT.2]⟩))) (by simpa [List.map_map] using n₂)
  obtain ⟨m₃, h₃⟩ := rekey_succeeds (fun e : schemabuilder.Enum => e.Typ)
    (fun k => k = .Ptr)
    (fun _ => "Enum.Type should not be a pointer")
    (fun typ => "duplicate enum for " ++ typ.string) (s.enums.map Prod.snd) []
    (accepted_values (fun e : schemabuilder.Enum => e.Typ) (fun k => k = .Ptr) s.enums
      (fun p hp => ((k₃ p hp).imp fun T hT => ⟨hT.1, by simp [hT.2]⟩))) (by simpa [List.map_map] using n₃)
  obtain ⟨m₄, h₄⟩ := rekey_succeeds (fun e : schemabuilder.Interface => e.Typ)
    (fun k => k ≠ .Interface)
    (fun typ => "inputObject.Type should be a interface, not " ++ typ.string)
    (fun typ => "duplicate interface for " ++ typ.string) (s.interfaces.map Prod.snd) []
    (accepted_values (fun e : schemabuilder.Interface => e.Typ) (fun k => k ≠ .Interface) s.interfaces
      (fun p hp => ((k₄ p hp).imp fun T hT => ⟨hT.1, by simp [hT.2]⟩))) (by simpa [List.map_map] using n₄)
  obtain ⟨m₅, h₅⟩ := rekey_succeeds (fun e : schemabuilder.Scalar => e.Typ)
    (fun k => k ≠ .Struct)
    (fun _ => "Scalar.Type should  be a struct")
    (fun typ => "duplicate scalar for " ++ typ.string) (s.scalars.map Prod.snd) []
    (accepted_values (fun e : schemabuilder.Scalar => e.Typ) (fun k => k ≠ .Struct) s.scalars
      (fun p hp => ((k₅ p hp).imp fun T hT => ⟨hT.1, by simp [hT.2]⟩))) (by simpa [List.map_map] using n₅)
  obtain ⟨m₆, h₆⟩ := rekey_succeeds (fun e : schemabuilder.Union => e.Typ)
    (fun k => k ≠ .Struct)
    (fun _ => "Scalar.Type should  be a struct")
    (fun typ => "duplicate union for " ++ typ.string) (s.unions.map Prod.snd) []
    (accepted_values (fun e : schemabuilder.Union => e.Typ) (fun k => k ≠ .Struct) s.unions
      (fun p hp => ((k₆ p hp).imp fun T hT => ⟨hT.1, by simp [hT.2]⟩))) (by simpa [List.map_map] using n₆)
  refine ⟨{ types := [], objects := m₁, enums := m₃, inputObjects := m₂, interfaces := m₄,
            scalars := m₅, unions := m₆ }, ?_⟩
  unfold partition
  simp only [rekeyObjects, rekeyInputObjects, rekeyEnums, rekeyInterfaces, rekeyScalars,
    rekeyUnions, h₁, h₂, h₃, h₄, h₅, h₆]

end schemabuilder.Schema

/-! ## `Build` -/

/-- C8, counterexample.  After `Object("Anything", nil, "")` and two enum
registrations that bind the names `Color` and `Colour` to the host type `Color`,
`Build` panics with a nil-pointer dereference in the loop over the objects: it
returns neither an error nor a Schema. -/
theorem build_panics_on_nil_type :
    Example.nilObjectSchema.enums.get "Color" = some (Example.colorEnum "Color") ∧
    Example.nilObjectSchema.enums.get "Colour" = some (Example.colorEnum "Colour") ∧
    (Example.colorEnum "Color").Typ = some Example.colorT ∧
    (Example.colorEnum "Colour").Typ = some Example.colorT ∧
    (schemabuilder.Schema.Build Example.queryOnlyResolver Example.nilObjectSchema).1 =
      .panic nilDereference := by
  decide

/-- C8, amended.  For every registry state in which two different names of the same
kind are bound to the same underlying host type, and in every order in which the
registry maps are iterated, `Build` returns no Schema: it returns an error, or it
panics on an entry whose `Type` is nil; when every registry entry has a non-nil
`Type`, it returns an error and a nil Schema. -/
theorem build_shared_host_type (getType : schemabuilder.Resolver)
    (s t : schemabuilder.Schema) (hdup : s.hasDuplicate)
    (hperm : schemabuilder.Schema.reordered s t) :
    (∀ sch err, (schemabuilder.Schema.Build getType t).1 ≠ .ret (some sch) err) ∧
    (s.allTyped → ∃ e, (schemabuilder.Schema.Build getType t).1 = .ret none (some e)) := by
  obtain ⟨p₁, p₂, p₃, p₄, p₅, p₆⟩ := hperm
  have hnot : ∀ sb, schemabuilder.Schema.partition t ≠ .done sb := by
    intro sb hsb
    obtain ⟨n₁, n₂, n₃, n₄, n₅, n₆⟩ := schemabuilder.Schema.partition_done t sb hsb
    rcases hdup with h | h | h | h | h | h
    · exact schemabuilder.Schema.sharedType_not_nodup _ _ _ h p₁ n₁
    · exact schemabuilder.Schema.sharedType_not_nodup _ _ _ h p₃ n₂
    · exact schemabuilder.Schema.sharedType_not_nodup _ _ _ h p₂ n₃
    · exact schemabuilder.Schema.sharedType_not_nodup _ _ _ h p₄ n₄
    · exact schemabuilder.Schema.sharedType_not_nodup _ _ _ h p₆ n₅
    · exact schemabuilder.Schema.sharedType_not_nodup _ _ _ h p₅ n₆
  constructor
  · intro sch err
    unfold schemabuilder.Schema.Build
    cases hp : schemabuilder.Schema.partition t with
    | panic msg => simp
    | err e => simp
    | done sb => exact absurd hp (hnot sb)
  · intro htyped
    have htyped' : t.allTyped := by
      obtain ⟨a₁, a₂, a₃, a₄, a₅, a₆⟩ := htyped
      exact ⟨fun p hp => a₁ p (p₁.mem_iff.mp hp), fun p hp => a₂ p (p₃.mem_iff.mp hp),
        fun p hp => a₃ p (p₂.mem_iff.mp hp), fun p hp => a₄ p (p₄.mem_iff.mp hp),
        fun p hp => a₅ p (p₆.mem_iff.mp hp), fun p hp => a₆ p (p₅.mem_iff.mp hp)⟩
    unfold schemabuilder.Schema.Build
    cases hp : schemabuilder.Schema.partition t with
    | panic msg => exact absurd hp (schemabuilder.Schema.partition_no_panic t htyped' msg)
    | err e => exact ⟨e, rfl⟩
    | done sb => exact absurd hp (hnot sb)

/-- C8, witness.  With the enum names `Color` and `Colour` bound to the host type
`Color` and no other entry, `Build` returns an error and a nil Schema. -/
theorem build_shared_host_type_witness :
    ∃ e, (schemabuilder.Schema.Build Example.queryOnlyResolver Example.twoColorsSchema).1 =
      .ret none (some e) :=
  (build_shared_host_type Example.queryOnlyResolver Example.twoColorsSchema
    Example.twoColorsSchema
    (Or.inr (Or.inr (Or.inl ⟨"Color", "Colour", Example.colorEnum "Color",
      Example.colorEnum "Colour", Example.colorT, by decide, by decide, by decide, by decide,
      by decide⟩)))
    ⟨List.Perm.refl _, List.Perm.refl _, List.Perm.refl _, List.Perm.refl _, List.Perm.refl _,
      List.Perm.refl _⟩).2
    (by
      unfold schemabuilder.Schema.allTyped
      decide)

/-- C9, counterexample.  After `NewSchema()`, `Query()`, `Object("User", User{}, "")` and
`InputObject("UserInput", User{})` the struct `User` is claimed by two kinds, object
and input object.  The partition pass of `Build` returns no error and fills the
working maps, with `User` in the map of the objects and in the map of the input
objects; with the type resolver of the spec and the field `Query.user : *User`,
`Build` returns a nil error and a Schema whose `Query` refers to the slot of `User`. -/
theorem build_accepts_cross_kind :
    Example.crossKindQuerySchema.objects.get "User" = some Example.userEntry ∧
    Example.userEntry.Typ = some Example.userT ∧
    (Example.crossKindQuerySchema.inputObjects.get "UserInput").map (fun e => e.Typ) =
      some (some Example.userT) ∧
    schemabuilder.Schema.partition Example.crossKindQuerySchema =
      .done Example.crossKindQueryMaps ∧
    (schemabuilder.Schema.Build (schemabuilder.getType Example.crossKindFields)
        Example.crossKindQuerySchema).1 =
      .ret (some { Query := some { id := 0, refs := some [("user", 1)] }, Mutation := none,
                   Subscription := none }) none := by
  decide

/-- C9, amended.  The partition pass of `Build` keeps one working map per kind and
compares host types only within a kind: when every entry has a host type of the kind
its loop accepts and, within each kind, the host types are pairwise different, the
partition pass fills the working maps, also when two kinds claim the same host type,
and `Build` returns what the resolution of the three roots returns. -/
theorem build_partition_per_kind (getType : schemabuilder.Resolver) (s : schemabuilder.Schema)
    (hk : s.kindsAccepted) (hn : s.distinctPerKind) :
    ∃ sb, schemabuilder.Schema.partition s = .done sb ∧
      (schemabuilder.Schema.Build getType s).1 = schemabuilder.Schema.resolveRoots getType sb := by
  obtain ⟨sb, hsb⟩ := schemabuilder.Schema.partition_succeeds s hk hn
  exact ⟨sb, hsb, by simp [schemabuilder.Schema.Build, hsb]⟩

/-- C9, witness.  The registry after `Query()`, `Object("User", User{}, "")` and
`InputObject("UserInput", User{})`, with the struct `User` as object and as input
object, passes the partition pass, and `Build` with the type resolver of the spec
returns what the resolution of the three roots returns. -/
theorem build_partition_per_kind_witness :
    ∃ sb, schemabuilder.Schema.partition Example.crossKindQuerySchema = .done sb ∧
      (schemabuilder.Schema.Build (schemabuilder.getType Example.crossKindFields)
          Example.crossKindQuerySchema).1 =
        schemabuilder.Schema.resolveRoots (schemabuilder.getType Example.crossKindFields) sb :=
  build_partition_per_kind (schemabuilder.getType Example.crossKindFields)
    Example.crossKindQuerySchema
    (by
      unfold schemabuilder.Schema.kindsAccepted
      decide)
    (by
      unfold schemabuilder.Schema.distinctPerKind
      decide)

/-- C10.  `Build` never returns a partial Schema.  Whenever it returns, the error is
non-nil exactly when the Schema is nil; an error of the partition pass is returned
without any call of the type resolver; an error of the resolution of `*query`,
`*mutation` or `*Subscription` is returned at that point with a nil Schema; and the
registries of the builder after the call are those before the call. -/
theorem build_no_partial_schema (getType : schemabuilder.Resolver) (s : schemabuilder.Schema) :
    (∀ sch err, (schemabuilder.Schema.Build getType s).1 = .ret sch err →
      (err.isSome = true ↔ sch.isNone = true)) ∧
    (∀ e, schemabuilder.Schema.partition s = .err e →
      ∀ g : schemabuilder.Resolver, (schemabuilder.Schema.Build g s).1 = .ret none (some e)) ∧
    (∀ sb r e sb₁, schemabuilder.Schema.partition s = .done sb →
      getType sb (.ptr schemabuilder.queryType) = (.ret r (some e), sb₁) →
      (schemabuilder.Schema.Build getType s).1 = .ret none (some e)) ∧
    (∀ sb q sb₁ r e sb₂, schemabuilder.Schema.partition s = .done sb →
      getType sb (.ptr schemabuilder.queryType) = (.ret q none, sb₁) →
      getType sb₁ (.ptr schemabuilder.mutationType) = (.ret r (some e), sb₂) →
      (schemabuilder.Schema.Build getType s).1 = .ret none (some e)) ∧
    (∀ sb q sb₁ m sb₂ r e sb₃, schemabuilder.Schema.partition s = .done sb →
      getType sb (.ptr schemabuilder.queryType) = (.ret q none, sb₁) →
      getType sb₁ (.ptr schemabuilder.mutationType) = (.ret m none, sb₂) →
      getType sb₂ (.ptr schemabuilder.subscriptionType) = (.ret r (some e), sb₃) →
      (schemabuilder.Schema.Build getType s).1 = .ret none (some e)) ∧
    (schemabuilder.Schema.Build getType s).2 = s := by
  refine ⟨?_, ?_, ?_, ?_, ?_, ?_⟩
  · intro sch err h
    unfold schemabuilder.Schema.Build at h
    cases hp : schemabuilder.Schema.partition s with
    | panic msg => simp [hp] at h
    | err e =>
      simp only [hp, schemabuilder.Returned.ret.injEq] at h
      simp [← h.1, ← h.2]
    | done sb =>
      simp only [hp] at h
      unfold schemabuilder.Schema.resolveRoots at h
      split at h
      · simp at h
      · simp only [schemabuilder.Returned.ret.injEq] at h
        simp [← h.1, ← h.2]
      · split at h
        · simp at h
        · simp only [schemabuilder.Returned.ret.injEq] at h
          simp [← h.1, ← h.2]
        · split at h
          · simp at h
          · simp only [schemabuilder.Returned.ret.injEq] at h
            simp [← h.1, ← h.2]
          · simp only [schemabuilder.Returned.ret.injEq] at h
            simp [← h.1, ← h.2]
  · intro e hp g
    simp [schemabuilder.Schema.Build, hp]
  · intro sb r e sb₁ hp hq
    simp [schemabuilder.Schema.Build, hp, schemabuilder.Schema.resolveRoots, hq]
  · intro sb q sb₁ r e sb₂ hp hq hm
    simp [schemabuilder.Schema.Build, hp, schemabuilder.Schema.resolveRoots, hq, hm]
  · intro sb q sb₁ m sb₂ r e sb₃ hp hq hm hs
    simp [schemabuilder.Schema.Build, hp, schemabuilder.Schema.resolveRoots, hq, hm, hs]
  · unfold schemabuilder.Schema.Build
    cases schemabuilder.Schema.partition s <;> rfl

/-- C10, witness.  On the state with the struct `User` as object and input object and
a resolver that fails on `*mutation`, `Build` returns the error of that resolution
and a nil Schema. -/
theorem build_no_partial_schema_witness :
    (schemabuilder.Schema.Build Example.queryOnlyResolver Example.crossKindSchema).1 =
      .ret none (some "unknown type") :=
  (build_no_partial_schema Example.queryOnlyResolver Example.crossKindSchema).2.2.2.1
    Example.crossKindMaps (some { id := 0, refs := some [] }) Example.crossKindMaps none
    "unknown type"
    Example.crossKindMaps (by decide) (by decide) (by decide)

/-! ## Described enum entries -/

namespace schemabuilder.Schema

/-- An entry whose kind is not the kind of the enum type makes the loop of
`Schema.Enum` panic, wherever it stands in the iteration. -/
theorem enumLoop_kind_mismatch (T : RType) (enumMap : List (String × Value))
    (eMap : GoMap String Value) (rMap : GoMap Value String) (dMap : GoMap String String)
    (h : ∃ p ∈ enumMap, p.2.kind ≠ T.kind) :
    (enumLoop (some T) enumMap eMap rMap dMap).failed = true := by
  induction enumMap generalizing eMap rMap dMap with
  | nil => simp at h
  | cons p enumMap ih =>
    obtain ⟨key, v⟩ := p
    obtain ⟨q, hq, hk⟩ := h
    simp only [enumLoop]
    split
    · split
      · split <;> try split
        all_goals try split_ifs
        all_goals simp [Outcome.failed]
      · simp [Outcome.failed]
    · rename_i hsame
      split_ifs
      · simp [Outcome.failed]
      · rcases List.mem_cons.mp hq with rfl | hq'
        · exact absurd hk hsame
        · exact ih _ _ _ ⟨q, hq', hk⟩

/-- The description map that the loop of `Schema.Enum` returns binds every name it
met to the empty string. -/
theorem enumLoop_descs (typ : Option RType) (enumMap : List (String × Value))
    (eMap eMap' : GoMap String Value) (rMap rMap' : GoMap Value String)
    (dMap dMap' : GoMap String String)
    (h : enumLoop typ enumMap eMap rMap dMap = .ret (eMap', rMap', dMap')) :
    dMap' = dMap.setAll (enumMap.map fun p => (p.1, "")) := by
  induction enumMap generalizing eMap rMap dMap with
  | nil =>
    simp only [enumLoop, Outcome.ret.injEq, Prod.mk.injEq] at h
    simp [GoMap.setAll, h.2.2]
  | cons p enumMap ih =>
    obtain ⟨key, v⟩ := p
    cases typ with
    | none => simp [enumLoop] at h
    | some T =>
      simp only [enumLoop] at h
      split at h
      · split at h
        · split at h <;> try split at h
          all_goals simp at h
          all_goals (split_ifs at h)
        · simp at h
      · split_ifs at h
        simpa [GoMap.setAll] using ih _ _ _ h

end schemabuilder.Schema

/-- C11, failing input.  The enum map of the comment of `Schema.Enum`,
`{"one": {enumType(1), "the first one"}, "two": enumType(2), "three": enumType(3)}`,
has a first entry that is a struct of two fields, a host value of the kind of
`enumType` and a string.  Registering it on a fresh `Schema` panics with
`enum types are not equal` and stores nothing: after its checks the struct branch
runs into the panic that closes the kind test. -/
theorem enum_documented_map_panics :
    Example.documentedMap.head? = some ("one", .struct Example.describedT
      [{ type := Example.enumTypeT, num := 1, text := "" },
       { type := Example.stringT, num := 0, text := "the first one" }]) ∧
    Example.enumTypeT.kind = .Int32 ∧ Example.stringT.kind = .String ∧
    schemabuilder.Schema.Enum Example.emptySchema "number" (some Example.enumTypeT)
        Example.documentedMap "" =
      (.panic "enum types are not equal", Example.emptySchema) := by
  decide

/-- `Schema.Enum` rejects, in every iteration order, every enum map with an entry
whose kind is not the kind of the enum type, so every described (struct) entry of an
enum of a scalar kind: the call panics and the builder is unchanged. -/
theorem enum_described_entry_rejected (s : schemabuilder.Schema) (name desc : String)
    (T : RType) (enumMap order : List (String × Value))
    (hentry : ∃ p ∈ enumMap, p.2.kind ≠ T.kind) (horder : order.Perm enumMap) :
    (s.Enum name (some T) order desc).1.failed = true ∧
    (s.Enum name (some T) order desc).2 = s := by
  have hentry' : ∃ p ∈ order, p.2.kind ≠ T.kind := by
    obtain ⟨p, hp, hk⟩ := hentry
    exact ⟨p, horder.mem_iff.mpr hp, hk⟩
  have hloop := schemabuilder.Schema.enumLoop_kind_mismatch T order [] [] [] hentry'
  unfold schemabuilder.Schema.Enum
  cases hg : s.enums.get name with
  | some e => simp [Outcome.failed]
  | none =>
    cases hl : schemabuilder.Schema.enumLoop (some T) order [] [] [] with
    | ret r => simp [hl, Outcome.failed] at hloop
    | panic msg => simp [hl, Outcome.failed]

/-- Every registration that `Schema.Enum` accepts stores the empty string as the
description of every name of the enum map. -/
theorem enum_plain_descriptions (s s' : schemabuilder.Schema) (name desc : String)
    (val : Option RType) (enumMap : List (String × Value))
    (h : s.Enum name val enumMap desc = (.ret (), s')) :
    ∃ e, s'.enums.get name = some e ∧ ∀ p ∈ enumMap, e.DescMap.get p.1 = some "" := by
  unfold schemabuilder.Schema.Enum at h
  simp only at h
  split at h
  · simp at h
  · split at h
    · simp at h
    · rename_i eMap rMap dMap hloop
      have hd := schemabuilder.Schema.enumLoop_descs _ _ _ _ _ _ _ _ hloop
      simp only [Prod.mk.injEq, true_and] at h
      subst h
      refine ⟨_, GoMap.get_set_self _ _ _, ?_⟩
      intro p hp
      subst hd
      simp only
      rcases GoMap.mem_keys_setAll (enumMap.map fun p => (p.1, "")) [] p.1 with ⟨_, hmem⟩
      have hk : p.1 ∈ (GoMap.setAll ([] : GoMap String String)
          (enumMap.map fun p => (p.1, ""))).keys :=
        hmem (Or.inr (by simpa using ⟨p.2, hp⟩))
      cases hget : (GoMap.setAll ([] : GoMap String String)
          (enumMap.map fun p => (p.1, ""))).get p.1 with
      | none => exact absurd hk ((GoMap.get_eq_none_iff _ _).mp hget)
      | some d =>
        rcases GoMap.mem_of_get_setAll _ _ _ _ hget with hin | hin
        · obtain ⟨q, _, hq⟩ := List.mem_map.mp hin
          simp only [Prod.mk.injEq] at hq
          rw [← hq.2]
        · simp [GoMap.get] at hin

/-! ## Keys and names of `graphql.SchemaBuilder` -/

namespace GoMap

variable {κ ν : Type} [DecidableEq κ]

theorem mem_set {m : GoMap κ ν} {k : κ} {v : ν} {p : κ × ν} (h : p ∈ m.set k v) :
    p ∈ m ∨ p = (k, v) := by
  induction m with
  | nil => simpa [set] using h
  | cons q m ih =>
    obtain ⟨k₀, v₀⟩ := q
    by_cases h₀ : k₀ = k
    · simp only [set, h₀, if_true, List.mem_cons] at h
      rcases h with h | h
      · exact Or.inr h
      · exact Or.inl (List.mem_cons_of_mem _ h)
    · simp only [set, h₀, if_false, List.mem_cons] at h
      rcases h with h | h
      · exact Or.inl (h ▸ List.mem_cons_self _ _)
      · rcases ih h with h' | h'
        · exact Or.inl (List.mem_cons_of_mem _ h')
        · exact Or.inr h'

end GoMap

/-- C13, failing input.  On a fresh builder, where every entry is stored under its
own name, `Directive("auth", ["FIELD"], f, <name "authz">)` returns normally and
stores the entry named `authz` under the key `auth`: the invariant does not hold in
the resulting state. -/
theorem directive_key_differs_from_name :
    Example.emptyBuilder.keyedByName ∧
    graphql.SchemaBuilder.Directive Example.emptyBuilder "auth" ["FIELD"] (.ref 1)
        [Example.named "authz"] = (.ret (), Example.renamedDirectiveBuilder) ∧
    ¬ Example.renamedDirectiveBuilder.keyedByName := by
  refine ⟨?_, by decide, ?_⟩
  · simp [graphql.SchemaBuilder.keyedByName, Example.emptyBuilder]
  · intro h
    have := h.2.2.2.2.2 ("auth", _) (List.mem_cons_self _ _)
    simp at this

/-- The key-equals-name invariant is kept by every call of `Scalar`, `Enum`, `Object`,
`Union` and `Interface` that returns normally, with any options, and by every call
of `Directive` that returns normally with options that leave the name as passed. -/
theorem keyedByName_preserved (s s' : graphql.SchemaBuilder) (h : s.keyedByName)
    (T : Option RType) (opts : List graphql.OptionFn) :
    (∀ r, s.Scalar T opts = (.ret r, s') → s'.keyedByName) ∧
    (∀ values, s.Enum T values opts = (.ret (), s') → s'.keyedByName) ∧
    (∀ r, s.Object T opts = (.ret r, s') → s'.keyedByName) ∧
    (s.Union T opts = (.ret (), s') → s'.keyedByName) ∧
    (∀ r typeResolve, s.Interface T typeResolve opts = (.ret r, s') → s'.keyedByName) ∧
    (∀ name locations fn,
      (graphql.applyOpts opts (graphql.optionsNamed name)).name = name →
      s.Directive name locations fn opts = (.ret (), s') → s'.keyedByName) := by
  obtain ⟨k₁, k₂, k₃, k₄, k₅, k₆⟩ := h
  refine ⟨?_, ?_, ?_, ?_, ?_, ?_⟩
  · intro r hr
    unfold graphql.SchemaBuilder.Scalar at hr
    cases T with
    | none => simp at hr
    | some U =>
      simp only at hr
      by_cases hk : U.kind = .Ptr
      · simp [hk] at hr
      rw [if_neg hk] at hr
      split at hr
      · simp at hr
      · simp only [Prod.mk.injEq, Outcome.ret.injEq] at hr
        obtain ⟨_, rfl⟩ := hr
        refine ⟨?_, k₂, k₃, k₄, k₅, k₆⟩
        intro p hp
        rcases GoMap.mem_set hp with hp | rfl
        · exact k₁ p hp
        · rfl
  · intro values hr
    unfold graphql.SchemaBuilder.Enum at hr
    cases values with
    | notMap k => simp at hr
    | map entries =>
      cases T with
      | none => simp at hr
      | some U =>
        simp only at hr
        split at hr
        · simp at hr
        · split at hr
          · simp at hr
          · simp only [Prod.mk.injEq, true_and] at hr
            subst hr
            refine ⟨k₁, ?_, k₃, k₄, k₅, k₆⟩
            intro p hp
            rcases GoMap.mem_set hp with hp | rfl
            · exact k₂ p hp
            · rfl
  · intro r hr
    unfold graphql.SchemaBuilder.Object at hr
    cases T with
    | none => simp at hr
    | some U =>
      simp only at hr
      by_cases hk : U.kind ≠ .Struct
      · simp [hk] at hr
      rw [if_neg hk] at hr
      split at hr
      · rename_i object _
        by_cases ht : object.Typ ≠ U
        · simp [ht] at hr
        rw [if_neg ht] at hr
        simp only [Prod.mk.injEq] at hr
        rw [← hr.2]
        exact ⟨k₁, k₂, k₃, k₄, k₅, k₆⟩
      · split at hr
        · simp at hr
        · simp only [Prod.mk.injEq, Outcome.ret.injEq] at hr
          obtain ⟨_, rfl⟩ := hr
          refine ⟨k₁, k₂, ?_, k₄, k₅, k₆⟩
          intro p hp
          rcases GoMap.mem_set hp with hp | rfl
          · exact k₃ p hp
          · rfl
  · intro hr
    unfold graphql.SchemaBuilder.Union at hr
    cases T with
    | none => simp at hr
    | some U =>
      simp only at hr
      split at hr
      · simp at hr
      · split at hr
        · simp at hr
        · split at hr
          · simp at hr
          · simp only [Prod.mk.injEq, true_and] at hr
            subst hr
            refine ⟨k₁, k₂, k₃, ?_, k₅, k₆⟩
            intro p hp
            rcases GoMap.mem_set hp with hp | rfl
            · exact k₄ p hp
            · rfl
  · intro r typeResolve hr
    unfold graphql.SchemaBuilder.Interface at hr
    cases T with
    | none => simp at hr
    | some U =>
      simp only at hr
      split_ifs at hr with hk
      · simp at hr
      split at hr
      · simp at hr
      · simp only [Prod.mk.injEq, Outcome.ret.injEq] at hr
        obtain ⟨_, rfl⟩ := hr
        refine ⟨k₁, k₂, k₃, k₄, ?_, k₆⟩
        intro p hp
        rcases GoMap.mem_set hp with hp | rfl
        · exact k₅ p hp
        · rfl
  · intro name locations fn hname hr
    unfold graphql.SchemaBuilder.Directive at hr
    simp only at hr
    split_ifs at hr
    · simp at hr
    · simp at hr
    · simp at hr
    simp only [Prod.mk.injEq, true_and] at hr
    subst hr
    refine ⟨k₁, k₂, k₃, k₄, k₅, ?_⟩
    intro p hp
    rcases GoMap.mem_set hp with hp | rfl
    · exact k₆ p hp
    · exact hname.symm

/-! ## The partition pass on registries produced by the public API -/

namespace schemabuilder

/-- The entries of the registries other than the unions have a non-nil `Type`. -/
theorem ReachedBy.typed {scalars : GoMap String schemabuilder.Scalar} {s : Schema}
    (hs : ∀ p ∈ scalars, p.2.Typ ≠ none)
    (h : ReachedBy scalars (fun t => t ≠ none) s) :
    (∀ p ∈ s.objects, p.2.Typ ≠ none) ∧ (∀ p ∈ s.inputObjects, p.2.Typ ≠ none) ∧
    (∀ p ∈ s.enums, p.2.Typ ≠ none) ∧ (∀ p ∈ s.interfaces, p.2.Typ ≠ none) ∧
    (∀ p ∈ s.scalars, p.2.Typ ≠ none) := by
  induction h with
  | new => exact ⟨by simp [NewSchema], by simp [NewSchema], by simp [NewSchema],
      by simp [NewSchema], hs⟩
  | enum n val enumMap desc _ hval hcall ih =>
    obtain ⟨i₁, i₂, i₃, i₄, i₅⟩ := ih
    unfold Schema.Enum at hcall
    simp only at hcall
    split at hcall
    · simp at hcall
    · split at hcall
      · simp at hcall
      · simp only [Prod.mk.injEq, true_and] at hcall
        subst hcall
        refine ⟨i₁, i₂, ?_, i₄, i₅⟩
        intro p hp
        rcases GoMap.mem_set hp with hp | rfl
        · exact i₃ p hp
        · exact hval
  | object n typ desc options r _ htyp hcall ih =>
    obtain ⟨i₁, i₂, i₃, i₄, i₅⟩ := ih
    unfold Schema.Object at hcall
    split at hcall
    · split_ifs at hcall
      · split at hcall <;> simp at hcall
      · simp only [Prod.mk.injEq] at hcall
        rw [← hcall.2]
        exact ⟨i₁, i₂, i₃, i₄, i₅⟩
    · simp only [Prod.mk.injEq, Outcome.ret.injEq] at hcall
      obtain ⟨_, rfl⟩ := hcall
      refine ⟨?_, i₂, i₃, i₄, i₅⟩
      intro p hp
      rcases GoMap.mem_set hp with hp | rfl
      · exact i₁ p hp
      · exact htyp
  | @inputObject s₀ s₁ n typ r _ htyp hcall ih =>
    obtain ⟨i₁, i₂, i₃, i₄, i₅⟩ := ih
    have hset : ∀ p ∈ GoMap.set s₀.inputObjects n
        ({ Name := n, Typ := typ, Fields := [] } : schemabuilder.InputObject),
        p.2.Typ ≠ none := by
      intro p hp
      rcases GoMap.mem_set hp with hp | rfl
      · exact i₂ p hp
      · exact htyp
    unfold Schema.InputObject at hcall
    simp only at hcall
    split at hcall
    · split_ifs at hcall
      · split at hcall <;> simp at hcall
      · simp only [Prod.mk.injEq, Outcome.ret.injEq] at hcall
        obtain ⟨_, rfl⟩ := hcall
        exact ⟨i₁, hset, i₃, i₄, i₅⟩
    · simp only [Prod.mk.injEq, Outcome.ret.injEq] at hcall
      obtain ⟨_, rfl⟩ := hcall
      exact ⟨i₁, hset, i₃, i₄, i₅⟩
  | @scalar s₀ s₁ n tp desc ufn _ htp hcall ih =>
    obtain ⟨i₁, i₂, i₃, i₄, i₅⟩ := ih
    have hset : ∀ (f : Func) (U : RType), ∀ p ∈ GoMap.set s₀.scalars n
        ({ Name := n, Desc := desc, Typ := tp, Serialize := .closure "Serialize" .nil none,
           ParseValue := .closure "ParseValue" f (some U) } : schemabuilder.Scalar),
        p.2.Typ ≠ none := by
      intro f U p hp
      rcases GoMap.mem_set hp with hp | rfl
      · exact i₅ p hp
      · exact htp
    unfold Schema.Scalar at hcall
    split at hcall
    · simp at hcall
    · split at hcall
      · simp at hcall
      · simp only at hcall
        split_ifs at hcall
        · simp at hcall
        · split at hcall
          · split at hcall
            · simp at hcall
            · simp at hcall
            · simp only [Prod.mk.injEq, true_and] at hcall
              subst hcall
              exact ⟨i₁, i₂, i₃, i₄, hset _ _⟩
          · simp only [Prod.mk.injEq, true_and] at hcall
            subst hcall
            exact ⟨i₁, i₂, i₃, i₄, hset _ _⟩
  | union n u desc _ hu hcall ih =>
    obtain ⟨i₁, i₂, i₃, i₄, i₅⟩ := ih
    unfold Schema.Union at hcall
    split at hcall
    · simp at hcall
    · split at hcall
      · simp at hcall
      · split at hcall
        · simp at hcall
        · split at hcall
          · simp at hcall
          · simp only [Prod.mk.injEq, true_and] at hcall
            subst hcall
            exact ⟨i₁, i₂, i₃, i₄, i₅⟩

end schemabuilder

/-- C14, counterexample.  After `NewSchema()` and `Object("Anything", nil, "")`, which
returns normally, the loop of `Build` over the objects panics with a nil-pointer
dereference.  After `NewSchema()` without predeclared scalars and
`Union("Plain", Plain{}, "")`, which returns normally, the stored entry has a nil
`Type` and the loop of `Build` over the unions panics in the same way. -/
theorem partition_panics_on_api_state :
    schemabuilder.ReachedBy Example.builtinScalars (fun _ => True) Example.anythingSchema ∧
    schemabuilder.Schema.partition Example.anythingSchema = .panic nilDereference ∧
    schemabuilder.ReachedBy [] (fun _ => True) Example.plainUnionSchema ∧
    (Example.plainUnionSchema.unions.get "Plain").map (fun e => e.Typ) = some none ∧
    schemabuilder.Schema.partition Example.plainUnionSchema = .panic nilDereference := by
  refine ⟨?_, by decide, ?_, by decide, by decide⟩
  · exact schemabuilder.ReachedBy.object "Anything" none "" [] Example.anythingEntry
      schemabuilder.ReachedBy.new trivial (by decide)
  · exact schemabuilder.ReachedBy.union "Plain" (some Example.plainT) ""
      schemabuilder.ReachedBy.new trivial (by decide)

/-- C14, amended.  For every `Schema` state reached from `NewSchema`, whose
predeclared scalars have a non-nil `Type`, by calls of `Enum`, `Object`,
`InputObject`, `Scalar` and `Union` that returned normally and were given a non-nil
host value, and in which no union is stored, the six re-keying loops of `Build`
finish by returning an error value or by reaching root resolution, never by a
runtime panic. -/
theorem partition_total_on_typed_api_state (scalars : GoMap String schemabuilder.Scalar)
    (s : schemabuilder.Schema) (hs : ∀ p ∈ scalars, p.2.Typ ≠ none)
    (h : schemabuilder.ReachedBy scalars (fun t => t ≠ none) s) (hu : s.unions = []) :
    (∃ e, schemabuilder.Schema.partition s = .err e) ∨
    (∃ sb, schemabuilder.Schema.partition s = .done sb) := by
  obtain ⟨i₁, i₂, i₃, i₄, i₅⟩ := schemabuilder.ReachedBy.typed hs h
  have htyped : s.allTyped := ⟨i₁, i₂, i₃, i₄, i₅, by simp [hu]⟩
  cases hp : schemabuilder.Schema.partition s with
  | panic msg => exact absurd hp (schemabuilder.Schema.partition_no_panic s htyped msg)
  | err e => exact Or.inl ⟨e, rfl⟩
  | done sb => exact Or.inr ⟨sb, rfl⟩

/-- C14, witness.  After `NewSchema()` with the predeclared scalar `Boolean` and
`Object("User", User{}, "")` the partition pass ends without a panic. -/
theorem partition_total_on_typed_api_state_witness :
    (∃ e, schemabuilder.Schema.partition Example.userOnlySchema = .err e) ∨
    (∃ sb, schemabuilder.Schema.partition Example.userOnlySchema = .done sb) :=
  partition_total_on_typed_api_state Example.builtinScalars Example.userOnlySchema
    (by decide)
    (schemabuilder.ReachedBy.object "User" (some Example.userT) "" [] Example.userEntry
      schemabuilder.ReachedBy.new (by decide) (by decide))
    (by decide)

/-! ## Memoized type resolution -/

theorem filter_length_lt {α : Type} (l : List α) (p q : α → Bool)
    (hqp : ∀ x, q x = true → p x = true) (u : α) (hu : u ∈ l) (hp : p u = true)
    (hq : q u = false) : (l.filter q).length < (l.filter p).length := by
  induction l with
  | nil => simp at hu
  | cons a l ih =>
    have hle : (l.filter q).length ≤ (l.filter p).length := by
      rw [← List.countP_eq_length_filter, ← List.countP_eq_length_filter]
      exact List.countP_mono_left fun x _ hx => hqp x hx
    rcases List.mem_cons.mp hu with rfl | hu'
    · simp only [List.filter_cons, hp, hq, if_true, List.length_cons]
      simp only [Bool.false_eq_true, if_false]
      omega
    · have := ih hu'
      simp only [List.filter_cons]
      by_cases hqa : q a = true
      · simp only [hqa, hqp a hqa, if_true, List.length_cons]
        omega
      · by_cases hpa : p a = true
        · rw [if_neg hqa, if_pos hpa, List.length_cons]
          omega
        · rw [if_neg hqa, if_neg hpa]
          exact this

namespace GoMap

variable {κ ν : Type} [DecidableEq κ]

/-- An assignment under a key without a value appends the pair. -/
theorem set_of_get_none (m : GoMap κ ν) (k : κ) (v : ν) (h : m.get k = none) :
    m.set k v = m ++ [(k, v)] := by
  induction m with
  | nil => simp [set]
  | cons p m ih =>
    obtain ⟨k₀, v₀⟩ := p
    by_cases h₀ : k₀ = k
    · simp [get, h₀] at h
    · simp only [get, h₀, if_false] at h
      simp [set, h₀, ih h]

/-- An assignment under a bound key keeps the image of the values under a function
that does not tell the new value from the old one. -/
theorem map_set_of_get {β : Type} (f : ν → β) (m : GoMap κ ν) (k : κ) (v v' : ν)
    (h : m.get k = some v) (hf : f v' = f v) :
    (m.set k v').map (fun p => f p.2) = m.map (fun p => f p.2) := by
  induction m with
  | nil => simp [get] at h
  | cons p m ih =>
    obtain ⟨k₀, v₀⟩ := p
    by_cases h₀ : k₀ = k
    · simp only [get, h₀, if_true, Option.some.injEq] at h
      simp [set, h₀, hf, h]
    · simp only [get, h₀, if_false] at h
      simp [set, h₀, ih h]

/-- An assignment under a bound key keeps the keys. -/
theorem keys_set_of_get (m : GoMap κ ν) (k : κ) (v v' : ν) (h : m.get k = some v) :
    (m.set k v').keys = m.keys := by
  have hk : k ∈ m.keys := by
    by_contra hn
    rw [(get_eq_none_iff m k).mpr hn] at h
    cases h
  rw [keys_set, if_pos hk]

end GoMap

namespace schemabuilder

theorem Ext.refl (sb : schemaBuilder) : Ext sb sb :=
  ⟨rfl, rfl, rfl, rfl, rfl, rfl, fun _ _ h => h⟩

theorem Ext.trans {a b c : schemaBuilder} (h₁ : Ext a b) (h₂ : Ext b c) : Ext a c := by
  obtain ⟨a₁, a₂, a₃, a₄, a₅, a₆, a₇⟩ := h₁
  obtain ⟨b₁, b₂, b₃, b₄, b₅, b₆, b₇⟩ := h₂
  exact ⟨b₁.trans a₁, b₂.trans a₂, b₃.trans a₃, b₄.trans a₄, b₅.trans a₅, b₆.trans a₆,
    fun u typ h => b₇ u typ (a₇ u typ h)⟩

theorem Ext.known {a b : schemaBuilder} (h : Ext a b) {u : RType} (hu : known a u = true) :
    known b u = true := by
  unfold schemabuilder.known at hu ⊢
  obtain ⟨typ, htyp⟩ := Option.isSome_iff_exists.mp hu
  rw [h.2.2.2.2.2.2 u typ htyp]
  rfl

/-- Working maps that keep every slot keep every identity. -/
theorem Ext.idExt {a b : schemaBuilder} (h : Ext a b) : IdExt a b := by
  obtain ⟨h₁, h₂, h₃, h₄, h₅, h₆, h₇⟩ := h
  refine ⟨h₁, h₂, h₃, h₄, h₅, h₆, ?_⟩
  intro u i hu
  unfold slotId at hu ⊢
  cases hg : a.types.get u with
  | none => simp [hg] at hu
  | some typ =>
    rw [hg] at hu
    rw [h₇ u typ hg]
    exact hu

theorem IdExt.sameDependents {a b : schemaBuilder} (h : IdExt a b) (fields : FieldTable)
    (u : RType) : dependents fields b u = dependents fields a u := by
  obtain ⟨h₁, h₂, _, h₄, h₅, h₆, _⟩ := h
  unfold schemabuilder.dependents
  rw [h₁, h₂, h₄, h₅, h₆]

theorem Ext.dependents {a b : schemaBuilder} (h : Ext a b) (fields : FieldTable) (u : RType) :
    dependents fields b u = dependents fields a u :=
  h.idExt.sameDependents fields u

theorem Ext.allKeys {a b : schemaBuilder} (h : Ext a b) : allKeys b = allKeys a := by
  obtain ⟨h₁, h₂, _, h₄, h₅, h₆, _⟩ := h
  unfold schemabuilder.allKeys
  rw [h₁, h₂, h₄, h₅, h₆]

theorem Ext.fuelFor {a b : schemaBuilder} (h : Ext a b) : fuelFor b = fuelFor a := by
  obtain ⟨h₁, h₂, _, h₄, h₅, h₆, _⟩ := h
  unfold schemabuilder.fuelFor
  rw [h₁, h₂, h₄, h₅, h₆]

theorem Ext.pending_le {a b : schemaBuilder} (h : Ext a b) : pending b ≤ pending a := by
  unfold schemabuilder.pending
  rw [h.allKeys, ← List.countP_eq_length_filter, ← List.countP_eq_length_filter]
  apply List.countP_mono_left
  intro x _ hx
  cases hk : schemabuilder.known a x with
  | false => rfl
  | true => simp [h.known hk] at hx

/-- Registering a slot for a type without one extends the working maps. -/
theorem Ext.set (sb : schemaBuilder) (u : RType) (typ : internal.IType)
    (h : sb.types.get u = none) : Ext sb { sb with types := sb.types.set u typ } := by
  refine ⟨rfl, rfl, rfl, rfl, rfl, rfl, ?_⟩
  intro x t hx
  have hne : u ≠ x := by
    intro he
    rw [he, hx] at h
    cases h
  simpa [GoMap.get_set_ne sb.types typ hne] using hx

/-- Filling in the contents of a slot keeps every identity. -/
theorem IdExt.fill (sb : schemaBuilder) (u : RType) (slot typ : internal.IType)
    (h : sb.types.get u = some slot) (hid : typ.id = slot.id) :
    IdExt sb { sb with types := sb.types.set u typ } := by
  refine ⟨rfl, rfl, rfl, rfl, rfl, rfl, ?_⟩
  intro x i hx
  unfold slotId at hx ⊢
  by_cases hxu : u = x
  · subst hxu
    simp only [h, Option.map_some'] at hx
    simp only [GoMap.get_set_self, Option.map_some', hid]
    exact hx
  · simp only [GoMap.get_set_ne sb.types typ hxu]
    exact hx

/-- A filled slot stays filled in working maps that keep every identity. -/
theorem filled_mono {a b : schemaBuilder} (h : IdExt a b) {fields : FieldTable} {u : RType}
    {typ : internal.IType} (hf : filled fields a u typ) : filled fields b u typ := by
  obtain ⟨deps, refs, hd, hr, hm⟩ := hf
  refine ⟨deps, refs, by rw [h.sameDependents]; exact hd, hr, ?_⟩
  rw [hm]
  apply List.map_congr_left
  intro d hdm
  have hmem : reference a d ∈ refs.map some := by
    rw [hm]
    exact List.mem_map_of_mem _ hdm
  obtain ⟨r, _, hr'⟩ := List.mem_map.mp hmem
  unfold reference at hr' ⊢
  cases hs : slotId a (target d.2) with
  | none => simp [hs] at hr'
  | some i => rw [h.2.2.2.2.2.2 _ _ hs]

theorem get_isSome_mem_keys {α : Type} (m : GoMap RType α) (u : RType)
    (h : (m.get u).isSome = true) : u ∈ m.keys := by
  by_contra hn
  rw [(GoMap.get_eq_none_iff m u).mpr hn] at h
  cases h

theorem mem_allKeys_of_dependents {fields : FieldTable} {sb : schemaBuilder} {u : RType}
    {deps : List (String × RType)} (h : dependents fields sb u = .ok deps) :
    u ∈ allKeys sb := by
  unfold schemabuilder.dependents at h
  unfold schemabuilder.allKeys
  simp only [List.mem_append]
  by_cases h₁ : (sb.objects.get u).isSome = true
  · exact Or.inl (Or.inl (Or.inl (Or.inl (get_isSome_mem_keys _ _ h₁))))
  by_cases h₂ : (sb.interfaces.get u).isSome = true
  · exact Or.inl (Or.inl (Or.inl (Or.inr (get_isSome_mem_keys _ _ h₂))))
  simp only [h₁, h₂, Bool.or_self, Bool.false_eq_true, if_false] at h
  cases h₃ : sb.unions.get u with
  | some un =>
    exact Or.inl (Or.inl (Or.inr (get_isSome_mem_keys _ _ (by simp [h₃]))))
  | none =>
    simp only [h₃] at h
    by_cases h₄ : (sb.scalars.get u).isSome = true
    · exact Or.inl (Or.inr (get_isSome_mem_keys _ _ h₄))
    by_cases h₅ : (sb.enums.get u).isSome = true
    · exact Or.inr (get_isSome_mem_keys _ _ h₅)
    simp [h₄, h₅] at h

/-- Registering a slot for a registered type without one leaves fewer types pending. -/
theorem pending_set_lt (sb : schemaBuilder) (u : RType) (typ : internal.IType)
    (hu : u ∈ allKeys sb) (h : sb.types.get u = none) :
    pending { sb with types := sb.types.set u typ } < pending sb := by
  have hext := Ext.set sb u typ h
  unfold schemabuilder.pending
  rw [hext.allKeys]
  apply filter_length_lt _ _ _ _ u hu
  · simp [schemabuilder.known, h]
  · simp [schemabuilder.known, GoMap.get_set_self]
  · intro x hx
    cases hk : schemabuilder.known sb x with
    | false => rfl
    | true => simp [hext.known hk] at hx

theorem pending_lt_fuelFor (sb : schemaBuilder) : pending sb < fuelFor sb := by
  have h : pending sb ≤ (allKeys sb).length := List.length_filter_le _ _
  have h' : (allKeys sb).length + 1 = fuelFor sb := by
    simp only [schemabuilder.allKeys, schemabuilder.fuelFor, GoMap.keys, List.length_append,
      List.length_map]
  omega

theorem Ext.closedTable {a b : schemaBuilder} (h : Ext a b) {fields : FieldTable}
    (hc : schemabuilder.closedTable fields a) : schemabuilder.closedTable fields b := by
  intro u deps hu d hd
  rw [h.dependents] at hu
  obtain ⟨deps', hd'⟩ := hc u deps hu d hd
  exact ⟨deps', by rw [h.dependents]; exact hd'⟩

theorem Ext.resolvable {a b : schemaBuilder} (h : Ext a b) {fields : FieldTable} {u : RType}
    (hu : schemabuilder.known a u = true ∨
      ∃ deps, schemabuilder.dependents fields a u = .ok deps) :
    schemabuilder.known b u = true ∨
      ∃ deps, schemabuilder.dependents fields b u = .ok deps := by
  rcases hu with hk | ⟨deps, hd⟩
  · exact Or.inl (h.known hk)
  · exact Or.inr ⟨deps, by rw [h.dependents]; exact hd⟩

/-- The contents that `resolve` fills in are the references of the dependents, when
each result has the identity of the slot of its dependent. -/
theorem references_of_results (sb : schemaBuilder) (deps : List (String × RType)) :
    ∀ typs : List internal.IType,
      List.Forall₂ (fun t r => slotId sb (target t) = some r.id) (deps.map Prod.snd) typs →
      ((deps.map Prod.fst).zip (typs.map fun r => r.id)).map some = deps.map (reference sb) := by
  induction deps with
  | nil =>
    intro typs h
    simp
  | cons d deps ih =>
    intro typs h
    cases typs with
    | nil => simp at h
    | cons r rest =>
      simp only [List.map_cons, List.forall₂_cons] at h
      simp only [List.map_cons, List.zip_cons_cons, List.cons.injEq]
      exact ⟨by simp [reference, h.1], ih rest h.2⟩

end schemabuilder

namespace schemabuilder

/-- The resolution of a list of resolvable types, given the property of the
resolution of one type at the same depth: each result is the slot that the memo table
holds for its type at the end. -/
theorem resolveAll_spec (fields : FieldTable) (fuel : Nat)
    (ih : ∀ (sb : schemaBuilder) (w : List RType) (t : RType) (O : List RType),
      WalkInv fields O sb w → pending sb < fuel →
      (known sb (target t) = true ∨ ∃ deps, dependents fields sb (target t) = .ok deps) →
      ∃ typ sb' w', resolve fields fuel sb w t = .done typ sb' w' ∧ Ext sb sb' ∧
        WalkInv fields O sb' w' ∧ sb'.types.get (target t) = some typ)
    (ts : List RType) :
    ∀ (sb : schemaBuilder) (w : List RType) (O : List RType),
      WalkInv fields O sb w → pending sb < fuel →
      (∀ t ∈ ts, known sb (target t) = true ∨
        ∃ deps, dependents fields sb (target t) = .ok deps) →
      ∃ typs sb' w', resolveAll (resolve fields fuel) ts sb w = .done typs sb' w' ∧
        Ext sb sb' ∧ WalkInv fields O sb' w' ∧
        List.Forall₂ (fun t typ => sb'.types.get (target t) = some typ) ts typs := by
  induction ts with
  | nil =>
    intro sb w O hinv _ _
    exact ⟨[], sb, w, rfl, Ext.refl sb, hinv, List.Forall₂.nil⟩
  | cons t rest ihl =>
    intro sb w O hinv hf hr
    obtain ⟨typ, sb₁, w₁, hres, e₁, inv₁, hg₁⟩ :=
      ih sb w t O hinv hf (hr t (List.mem_cons_self _ _))
    obtain ⟨typs, sb₂, w₂, hall, e₂, inv₂, hF⟩ :=
      ihl sb₁ w₁ O inv₁ (lt_of_le_of_lt e₁.pending_le hf)
        (fun t' ht' => e₁.resolvable (hr t' (List.mem_cons_of_mem _ ht')))
    refine ⟨typ :: typs, sb₂, w₂, ?_, e₁.trans e₂, inv₂, ?_⟩
    · simp only [resolveAll, hres, hall]
    · exact List.Forall₂.cons (e₂.2.2.2.2.2.2 _ _ hg₁) hF

/-- Memoized resolution with enough fuel ends with a result on every resolvable type
of a closed field table, cyclic or not: it keeps every slot that the memo table had,
leaves no placeholder outside the types in progress, walks no type twice, and returns
the slot that the memo table holds for the type. -/
theorem resolve_spec (fields : FieldTable) (fuel : Nat) :
    ∀ (sb : schemaBuilder) (w : List RType) (t : RType) (O : List RType),
      WalkInv fields O sb w → pending sb < fuel →
      (known sb (target t) = true ∨ ∃ deps, dependents fields sb (target t) = .ok deps) →
      ∃ typ sb' w', resolve fields fuel sb w t = .done typ sb' w' ∧ Ext sb sb' ∧
        WalkInv fields O sb' w' ∧ sb'.types.get (target t) = some typ := by
  induction fuel with
  | zero =>
    intro sb w t O _ hf _
    exact absurd hf (Nat.not_lt_zero _)
  | succ fuel ih =>
    intro sb w t O hinv hf hr
    obtain ⟨hc, hp, hk, hn, hnum⟩ := hinv
    cases hget : sb.types.get (target t) with
    | some typ =>
      exact ⟨typ, sb, w, by simp [resolve, hget], Ext.refl sb, ⟨hc, hp, hk, hn, hnum⟩, hget⟩
    | none =>
      have hnk : known sb (target t) = false := by simp [known, hget]
      rcases hr with hkn | ⟨deps, hdeps⟩
      · rw [hnk] at hkn
        cases hkn
      · have hnotin : target t ∉ sb.types.keys := (GoMap.get_eq_none_iff _ _).mp hget
        have hext := Ext.set sb (target t) { id := sb.types.length, refs := none } hget
        have hmem := mem_allKeys_of_dependents hdeps
        have hlt := pending_set_lt sb (target t) { id := sb.types.length, refs := none } hmem hget
        have hset := GoMap.set_of_get_none sb.types (target t)
          { id := sb.types.length, refs := none } hget
        have inv₁ : WalkInv fields (target t :: O)
            { sb with types := (sb.types.set (target t)
              { id := sb.types.length, refs := none }) } (w ++ [target t]) := by
          refine ⟨hext.closedTable hc, ?_, ?_, ?_, ?_⟩
          · intro x typ hx
            by_cases hxt : x = target t
            · exact Or.inl (hxt ▸ List.mem_cons_self _ _)
            · have hne : target t ≠ x := fun h => hxt h.symm
              have hx' : sb.types.get x = some typ := by
                simpa [GoMap.get_set_ne sb.types _ hne] using hx
              rcases hp x typ hx' with hO | hfl
              · exact Or.inl (List.mem_cons_of_mem _ hO)
              · exact Or.inr (filled_mono hext.idExt hfl)
          · show (sb.types.set (target t) _).keys = w ++ [target t]
            rw [GoMap.keys_set, if_neg hnotin, hk]
          · apply List.Nodup.append hn (List.nodup_singleton _)
            intro x hxw hxs
            rw [List.mem_singleton] at hxs
            subst hxs
            rw [← hk] at hxw
            exact hnotin hxw
          · unfold numbered at hnum ⊢
            simp only [hset, List.map_append, List.length_append, List.map_cons, List.map_nil,
              List.length_singleton, List.range_succ, hnum]
        obtain ⟨typs, sb₂, w₂, hall, e₂, inv₂, hF⟩ :=
          resolveAll_spec fields fuel ih (deps.map Prod.snd) _ (w ++ [target t]) (target t :: O)
            inv₁ (by omega)
            (fun t' ht' => by
              obtain ⟨d, hd, rfl⟩ := List.mem_map.mp ht'
              exact hext.resolvable (Or.inr (hc _ _ hdeps d hd)))
        obtain ⟨hc₂, hp₂, hk₂, hn₂, hnum₂⟩ := inv₂
        have hslot : sb₂.types.get (target t) = some { id := sb.types.length, refs := none } :=
          e₂.2.2.2.2.2.2 _ _ (GoMap.get_set_self _ _ _)
        have e₀₂ := hext.trans e₂
        have hfill := IdExt.fill sb₂ (target t) { id := sb.types.length, refs := none }
          { id := sb.types.length,
            refs := some ((deps.map Prod.fst).zip (typs.map fun r => r.id)) } hslot rfl
        have e₃ : Ext sb { sb₂ with types := (sb₂.types.set (target t)
            { id := sb.types.length,
              refs := some ((deps.map Prod.fst).zip (typs.map fun r => r.id)) }) } := by
          obtain ⟨a₁, a₂, a₃, a₄, a₅, a₆, a₇⟩ := e₀₂
          refine ⟨a₁, a₂, a₃, a₄, a₅, a₆, ?_⟩
          intro x typ hx
          have hne : target t ≠ x := by
            intro he
            rw [he, hx] at hget
            cases hget
          simpa [GoMap.get_set_ne sb₂.types _ hne] using a₇ x typ hx
        refine ⟨{ id := sb.types.length,
                  refs := some ((deps.map Prod.fst).zip (typs.map fun r => r.id)) },
          { sb₂ with types := (sb₂.types.set (target t)
            { id := sb.types.length,
              refs := some ((deps.map Prod.fst).zip (typs.map fun r => r.id)) }) },
          w₂, ?_, e₃, ⟨e₃.closedTable hc, ?_, ?_, hn₂, ?_⟩, ?_⟩
        · simp only [resolve, hget, hdeps, hall]
        · intro x typ hx
          by_cases hxt : x = target t
          · subst hxt
            simp only [GoMap.get_set_self, Option.some.injEq] at hx
            subst hx
            refine Or.inr ⟨deps, _, by rw [e₃.dependents]; exact hdeps, rfl, ?_⟩
            apply references_of_results
            apply List.Forall₂.imp _ hF
            intro t' r hr'
            apply hfill.2.2.2.2.2.2
            simp [slotId, hr']
          · have hne : target t ≠ x := fun h => hxt h.symm
            have hx' : sb₂.types.get x = some typ := by
              simpa [GoMap.get_set_ne sb₂.types _ hne] using hx
            rcases hp₂ x typ hx' with hO | hfl
            · rcases List.mem_cons.mp hO with h | h
              · exact absurd h hxt
              · exact Or.inl h
            · exact Or.inr (filled_mono hfill hfl)
        · show (sb₂.types.set (target t) _).keys = w₂
          rw [GoMap.keys_set_of_get _ _ _ _ hslot, hk₂]
        · unfold numbered at hnum₂ ⊢
          have hm := GoMap.map_set_of_get (fun typ : internal.IType => typ.id) sb₂.types
            (target t) { id := sb.types.length, refs := none }
            { id := sb.types.length,
              refs := some ((deps.map Prod.fst).zip (typs.map fun r => r.id)) } hslot rfl
          have hl : (sb₂.types.set (target t)
              { id := sb.types.length,
                refs := some ((deps.map Prod.fst).zip (typs.map fun r => r.id)) }).length =
              sb₂.types.length := by
            have := congrArg List.length hm
            simpa using this
          simp only [hm, hl, hnum₂]
        · exact GoMap.get_set_self _ _ _

end schemabuilder

namespace schemabuilder

/-- The results and the working maps of a list of resolutions do not depend on the
types walked before. -/
theorem resolveAll_walked {α : Type} (step : schemaBuilder → List RType → RType → Walk α)
    (hstep : ∀ sb w w₀ t a sb' w', step sb w t = .done a sb' w' →
      ∃ w'', step sb w₀ t = .done a sb' w'')
    (ts : List RType) :
    ∀ sb w w₀ as sb' w', resolveAll step ts sb w = .done as sb' w' →
      ∃ w'', resolveAll step ts sb w₀ = .done as sb' w'' := by
  induction ts with
  | nil =>
    intro sb w w₀ as sb' w' h
    simp only [resolveAll, Walk.done.injEq] at h
    exact ⟨w₀, by simp [resolveAll, h.1, h.2.1]⟩
  | cons t rest ih =>
    intro sb w w₀ as sb' w' h
    simp only [resolveAll] at h
    cases hs : step sb w t with
    | done a sb₁ w₁ =>
      rw [hs] at h
      simp only at h
      obtain ⟨v₁, hv₁⟩ := hstep sb w w₀ t a sb₁ w₁ hs
      cases hr : resolveAll step rest sb₁ w₁ with
      | done as₁ sb₂ w₂ =>
        rw [hr] at h
        simp only [Walk.done.injEq] at h
        obtain ⟨v₂, hv₂⟩ := ih sb₁ w₁ v₁ as₁ sb₂ w₂ hr
        exact ⟨v₂, by simp only [resolveAll, hv₁, hv₂, ← h.1, ← h.2.1]⟩
      | fail err => simp [hr] at h
      | exhausted => simp [hr] at h
    | fail err => simp [hs] at h
    | exhausted => simp [hs] at h

/-- The result and the working maps of a resolution do not depend on the types walked
before. -/
theorem resolve_walked (fields : FieldTable) (fuel : Nat) :
    ∀ sb w w₀ t typ sb' w', resolve fields fuel sb w t = .done typ sb' w' →
      ∃ w'', resolve fields fuel sb w₀ t = .done typ sb' w'' := by
  induction fuel with
  | zero =>
    intro sb w w₀ t typ sb' w' h
    simp [resolve] at h
  | succ fuel ih =>
    intro sb w w₀ t typ sb' w' h
    simp only [resolve] at h ⊢
    cases hget : sb.types.get (target t) with
    | some typ₀ =>
      simp only [hget, Walk.done.injEq] at h
      exact ⟨w₀, by simp [h.1, h.2.1]⟩
    | none =>
      simp only [hget] at h ⊢
      cases hdeps : dependents fields sb (target t) with
      | error err => simp [hdeps] at h
      | ok deps =>
        simp only [hdeps] at h ⊢
        cases hall : resolveAll (resolve fields fuel) (deps.map Prod.snd)
            { sb with types := (sb.types.set (target t)
              { id := sb.types.length, refs := none }) }
            (w ++ [target t]) with
        | done typs sb₂ w₂ =>
          simp only [hall, Walk.done.injEq] at h
          obtain ⟨v, hv⟩ := resolveAll_walked (resolve fields fuel) ih (deps.map Prod.snd) _ _
            (w₀ ++ [target t]) typs sb₂ w₂ hall
          refine ⟨v, ?_⟩
          rw [hv, ← h.1, ← h.2.1]
        | fail err => simp [hall] at h
        | exhausted => simp [hall] at h

/-- The result and the working maps of `getType` do not depend on the types walked
before. -/
theorem getTypeWalk_walked (fields : FieldTable) :
    ∀ sb w w₀ t r sb' w', getTypeWalk fields sb w t = .done r sb' w' →
      ∃ w'', getTypeWalk fields sb w₀ t = .done r sb' w'' := by
  intro sb w w₀ t r sb' w' h
  unfold getTypeWalk at h ⊢
  by_cases ha : absentRoot sb t = true
  · simp only [ha, if_true, Walk.done.injEq] at h ⊢
    exact ⟨w₀, h.1, h.2.1, rfl⟩
  · simp only [ha, Bool.false_eq_true, if_false] at h ⊢
    cases hr : resolve fields (fuelFor sb) sb w t with
    | done typ sb₁ w₁ =>
      rw [hr] at h
      simp only [Walk.done.injEq] at h
      obtain ⟨v, hv⟩ := resolve_walked fields _ sb w w₀ t typ sb₁ w₁ hr
      exact ⟨v, by simp only [hv, h.1, h.2.1]⟩
    | fail err => simp [hr] at h
    | exhausted => simp [hr] at h

/-- A host type registered as an object has dependents: its fields. -/
theorem dependents_object (fields : FieldTable) (sb : schemaBuilder) (u : RType)
    (h : (sb.objects.get u).isSome = true) :
    dependents fields sb u = .ok (fields u) := by
  simp [dependents, h]

/-- The check of the field table over the registered types decides `closedTable`. -/
theorem closedTable_of_check (fields : FieldTable) (sb : schemaBuilder)
    (h : closedTableCheck fields sb = true) : closedTable fields sb := by
  intro u deps hu d hd
  have hmem := mem_allKeys_of_dependents hu
  unfold closedTableCheck at h
  have hu' := List.all_eq_true.mp h u hmem
  simp only [hu] at hu'
  have hd' := List.all_eq_true.mp hu' d hd
  cases hdd : dependents fields sb (target d.2) with
  | ok deps' => exact ⟨deps', rfl⟩
  | error err => simp [hdd] at hd'

/-- The partition pass starts the memo table empty. -/
theorem partition_types (s : Schema) (sb : schemaBuilder)
    (h : Schema.partition s = .done sb) : sb.types = [] := by
  unfold Schema.partition at h
  cases h₁ : Schema.rekeyObjects (s.objects.map Prod.snd) with
  | panic msg => simp [h₁] at h
  | err e => simp [h₁] at h
  | done m₁ =>
  cases h₂ : Schema.rekeyInputObjects (s.inputObjects.map Prod.snd) with
  | panic msg => simp [h₁, h₂] at h
  | err e => simp [h₁, h₂] at h
  | done m₂ =>
  cases h₃ : Schema.rekeyEnums (s.enums.map Prod.snd) with
  | panic msg => simp [h₁, h₂, h₃] at h
  | err e => simp [h₁, h₂, h₃] at h
  | done m₃ =>
  cases h₄ : Schema.rekeyInterfaces (s.interfaces.map Prod.snd) with
  | panic msg => simp [h₁, h₂, h₃, h₄] at h
  | err e => simp [h₁, h₂, h₃, h₄] at h
  | done m₄ =>
  cases h₅ : Schema.rekeyScalars (s.scalars.map Prod.snd) with
  | panic msg => simp [h₁, h₂, h₃, h₄, h₅] at h
  | err e => simp [h₁, h₂, h₃, h₄, h₅] at h
  | done m₅ =>
  cases h₆ : Schema.rekeyUnions (s.unions.map Prod.snd) with
  | panic msg => simp [h₁, h₂, h₃, h₄, h₅, h₆] at h
  | err e => simp [h₁, h₂, h₃, h₄, h₅, h₆] at h
  | done m₆ =>
    simp only [h₁, h₂, h₃, h₄, h₅, h₆, Schema.Partitioned.done.injEq] at h
    rw [← h]

/-- The method `getType` on a root between two resolutions: on an absent root it
returns nil and changes nothing; on every other resolvable type it returns the slot
that the memo table holds for the type, and leaves every slot filled. -/
theorem getTypeWalk_spec (fields : FieldTable) (sb : schemaBuilder) (w : List RType) (t : RType)
    (hinv : WalkInv fields [] sb w)
    (hr : absentRoot sb t = true ∨ known sb (target t) = true ∨
      ∃ deps, dependents fields sb (target t) = .ok deps) :
    ∃ r sb' w', getTypeWalk fields sb w t = .done r sb' w' ∧ Ext sb sb' ∧
      WalkInv fields [] sb' w' ∧ (∀ typ, r = some typ → sb'.types.get (target t) = some typ) ∧
      (absentRoot sb t = false → r.isSome = true) := by
  by_cases ha : absentRoot sb t = true
  · refine ⟨none, sb, w, by simp [getTypeWalk, ha], Ext.refl sb, hinv, ?_, ?_⟩
    · intro typ h
      cases h
    · intro h
      rw [ha] at h
      cases h
  · have hr' : known sb (target t) = true ∨
        ∃ deps, dependents fields sb (target t) = .ok deps := by
      rcases hr with h | h | h
      · exact absurd h ha
      · exact Or.inl h
      · exact Or.inr h
    obtain ⟨typ, sb', w', hres, e, inv, hg⟩ :=
      resolve_spec fields (fuelFor sb) sb w t [] hinv (pending_lt_fuelFor sb) hr'
    refine ⟨some typ, sb', w', ?_, e, inv, ?_, fun _ => rfl⟩
    · simp only [getTypeWalk, ha, Bool.false_eq_true, if_false, hres]
    · intro typ' h
      simp only [Option.some.injEq] at h
      rw [← h]
      exact hg

/-- The marker of `Mutation` or `Subscription` is absent, has a slot in the memo table
or is registered as an object. -/
theorem root_cases (fields : FieldTable) (sb : schemaBuilder) (t : RType)
    (ht : target t = mutationType ∨ target t = subscriptionType) :
    absentRoot sb t = true ∨ known sb (target t) = true ∨
      ∃ deps, dependents fields sb (target t) = .ok deps := by
  by_cases hk : known sb (target t) = true
  · exact Or.inr (Or.inl hk)
  by_cases ho : (sb.objects.get (target t)).isSome = true
  · exact Or.inr (Or.inr ⟨_, dependents_object fields sb _ ho⟩)
  left
  unfold known at hk
  unfold absentRoot
  have h₁ : (sb.types.get (target t)).isNone = true := by
    cases h : sb.types.get (target t) <;> simp [h] at hk ⊢
  have h₂ : (sb.objects.get (target t)).isNone = true := by
    cases h : sb.objects.get (target t) <;> simp [h] at ho ⊢
  rw [h₁, h₂]
  rcases ht with h | h <;> simp [h]

/-- A root registered as an object is not absent. -/
theorem absentRoot_registered (sb : schemaBuilder) (t : RType)
    (h : (sb.objects.get (target t)).isSome = true) : absentRoot sb t = false := by
  unfold absentRoot
  cases ho : sb.objects.get (target t) with
  | none => simp [ho] at h
  | some o => simp

/-- The results of `getType` on the three roots, from the walk of the roots. -/
theorem getType_of_walk (fields : FieldTable) (sb : schemaBuilder) (w : List RType) (t : RType)
    (r : Option internal.IType) (sb' : schemaBuilder) (w' : List RType)
    (h : getTypeWalk fields sb w t = .done r sb' w') :
    getType fields sb t = (.ret r none, sb') := by
  obtain ⟨v, hv⟩ := getTypeWalk_walked fields sb w [] t r sb' w' h
  simp only [getType, hv]

/-- In a memo table without placeholders every reference of a slot leads to a slot of
the table that is filled. -/
theorem populated_closed (fields : FieldTable) (sb : schemaBuilder) (h : populated fields sb)
    (u : RType) (typ : internal.IType) (refs : List (String × Nat)) (name : String) (i : Nat)
    (hu : sb.types.get u = some typ) (hr : typ.refs = some refs) (hi : (name, i) ∈ refs) :
    ∃ v typ', sb.types.get v = some typ' ∧ typ'.id = i ∧ typ'.refs.isSome = true := by
  obtain ⟨deps, refs', _, hr', hm⟩ := h u typ hu
  rw [hr] at hr'
  simp only [Option.some.injEq] at hr'
  subst hr'
  have hmem : some (name, i) ∈ deps.map (reference sb) := by
    rw [← hm]
    exact List.mem_map_of_mem _ hi
  obtain ⟨d, _, hd⟩ := List.mem_map.mp hmem
  unfold reference slotId at hd
  cases hg : sb.types.get (target d.2) with
  | none => simp [hg] at hd
  | some typ' =>
    simp only [hg, Option.map_some', Option.some.injEq, Prod.mk.injEq] at hd
    obtain ⟨_, _, _, hf, _⟩ := h _ typ' hg
    exact ⟨target d.2, typ', hg, hd.2, by simp [hf]⟩

end schemabuilder

/-- C12.  `Build` terminates on cyclic type graphs.  For every registry that passes the
partition pass, holds the root `Query` as an object, and has a field table in which
every field refers to a registered type, whether or not the references form cycles
(an object with a field of its own type, two objects each with a field of the other's
type), `Build` with the memoized type resolver returns a Schema and a nil error.  The
resolution of the three roots ends after walking a finite list of host types in which
no host type occurs twice, and these are exactly the types of the memo table.  In the
memo table that the resolution leaves no placeholder remains: every slot is filled
with one reference for each field of its type, under the name of the field, to the
slot that the memo table holds for the type of the field, no two slots share an
identity, and every reference of a slot leads to a filled slot of the table.  The root `Query` of the Schema is the slot of the memo table for `query`;
the roots `Mutation` and `Subscription` are nil or the slots of the memo table for
their markers, and they are not nil when the marker is registered as an object. -/
theorem build_terminates_on_cycles (fields : schemabuilder.FieldTable)
    (s : schemabuilder.Schema) (sb : schemabuilder.schemaBuilder)
    (hpart : schemabuilder.Schema.partition s = .done sb)
    (hq : (sb.objects.get schemabuilder.queryType).isSome = true)
    (hclosed : schemabuilder.closedTable fields sb) :
    ∃ sbF walked q m su,
      schemabuilder.rootsWalk fields sb = .done [some q, m, su] sbF walked ∧
      walked.Nodup ∧ sbF.types.keys = walked ∧
      schemabuilder.populated fields sbF ∧
      (sbF.types.map fun p => p.2.id) = List.range sbF.types.length ∧
      (schemabuilder.Schema.Build (schemabuilder.getType fields) s).1 =
        .ret (some { Query := some q, Mutation := m, Subscription := su }) none ∧
      sbF.types.get schemabuilder.queryType = some q ∧
      (∀ typ, m = some typ → sbF.types.get schemabuilder.mutationType = some typ) ∧
      (∀ typ, su = some typ → sbF.types.get schemabuilder.subscriptionType = some typ) ∧
      ((sb.objects.get schemabuilder.mutationType).isSome = true → m.isSome = true) ∧
      ((sb.objects.get schemabuilder.subscriptionType).isSome = true → su.isSome = true) ∧
      (∀ u typ refs name i, sbF.types.get u = some typ → typ.refs = some refs →
        (name, i) ∈ refs →
        ∃ v typ', sbF.types.get v = some typ' ∧ typ'.id = i ∧ typ'.refs.isSome = true) := by
  have htypes := schemabuilder.partition_types s sb hpart
  have inv₀ : schemabuilder.WalkInv fields [] sb [] := by
    refine ⟨hclosed, ?_, ?_, List.nodup_nil, ?_⟩
    · intro u typ hu
      simp [htypes, GoMap.get] at hu
    · simp [htypes, GoMap.keys]
    · simp [schemabuilder.numbered, htypes]
  -- the resolution of `*query`
  obtain ⟨r₁, sb₁, w₁, h₁, e₁, inv₁, g₁, a₁⟩ :=
    schemabuilder.getTypeWalk_spec fields sb [] (.ptr schemabuilder.queryType) inv₀
      (Or.inr (Or.inr ⟨_, schemabuilder.dependents_object fields sb _ hq⟩))
  have hq₁ := a₁ (schemabuilder.absentRoot_registered sb (.ptr schemabuilder.queryType) hq)
  obtain ⟨q, rfl⟩ := Option.isSome_iff_exists.mp hq₁
  -- the resolution of `*mutation`
  obtain ⟨m, sb₂, w₂, h₂, e₂, inv₂, g₂, a₂⟩ :=
    schemabuilder.getTypeWalk_spec fields sb₁ w₁ (.ptr schemabuilder.mutationType) inv₁
      (schemabuilder.root_cases fields sb₁ _ (Or.inl rfl))
  -- the resolution of `*Subscription`
  obtain ⟨su, sb₃, w₃, h₃, e₃, inv₃, g₃, a₃⟩ :=
    schemabuilder.getTypeWalk_spec fields sb₂ w₂ (.ptr schemabuilder.subscriptionType) inv₂
      (schemabuilder.root_cases fields sb₂ _ (Or.inr rfl))
  obtain ⟨_, hp₃, hk₃, hn₃, hnum₃⟩ := inv₃
  have c₁ := schemabuilder.getType_of_walk fields sb [] _ _ sb₁ w₁ h₁
  have c₂ := schemabuilder.getType_of_walk fields sb₁ w₁ _ _ sb₂ w₂ h₂
  have c₃ := schemabuilder.getType_of_walk fields sb₂ w₂ _ _ sb₃ w₃ h₃
  have hpop : schemabuilder.populated fields sb₃ := by
    intro u typ hu
    rcases hp₃ u typ hu with h | h
    · simp at h
    · exact h
  refine ⟨sb₃, w₃, q, m, su, ?_, hn₃, hk₃, hpop, hnum₃, ?_, ?_, ?_, ?_, ?_, ?_,
    schemabuilder.populated_closed fields sb₃ hpop⟩
  · simp only [schemabuilder.rootsWalk, schemabuilder.resolveAll, h₁, h₂, h₃]
  · simp only [schemabuilder.Schema.Build, hpart, schemabuilder.Schema.resolveRoots, c₁, c₂, c₃]
  · exact (e₂.trans e₃).2.2.2.2.2.2 _ _ (g₁ q rfl)
  · intro typ hm
    exact e₃.2.2.2.2.2.2 _ _ (g₂ typ hm)
  · intro typ hs
    exact g₃ typ hs
  · intro hm
    apply a₂
    apply schemabuilder.absentRoot_registered
    show (sb₁.objects.get schemabuilder.mutationType).isSome = true
    rw [e₁.1]
    exact hm
  · intro hs
    apply a₃
    apply schemabuilder.absentRoot_registered
    show (sb₂.objects.get schemabuilder.subscriptionType).isSome = true
    rw [(e₁.trans e₂).1]
    exact hs

/-- C12, witness.  The registry after `Query()` and `Object("A", A{}, "")`, with the
fields `Query.a : *A` and `A.next : *A`, and the registry after `Query()`,
`Mutation()`, `Subscription()`, `Object("A", A{}, "")` and `Object("B", B{}, "")`, with
the fields `Query.a : *A`, `Mutation.setB : *B`, `A.b : *B` and `B.a : *A`.  Each
passes the partition pass; the resolution of the roots walks each type once and
leaves the memo table shown, in which every slot is filled; `Build` returns the
Schema of the root slots and a nil error. -/
theorem build_terminates_on_cycles_witness :
    (schemabuilder.Schema.partition Example.selfSchema = .done Example.selfMaps ∧
      schemabuilder.rootsWalk Example.selfFields Example.selfMaps =
        .done [some { id := 0, refs := some [("a", 1)] }, none, none] Example.selfResolved
          [schemabuilder.queryType, Example.aT] ∧
      schemabuilder.populated Example.selfFields Example.selfResolved ∧
      (schemabuilder.Schema.Build (schemabuilder.getType Example.selfFields)
          Example.selfSchema).1 =
        .ret (some { Query := some { id := 0, refs := some [("a", 1)] }, Mutation := none,
                     Subscription := none }) none) ∧
    (schemabuilder.Schema.partition Example.mutualSchema = .done Example.mutualMaps ∧
      schemabuilder.rootsWalk Example.mutualFields Example.mutualMaps =
        .done [some { id := 0, refs := some [("a", 1)] },
               some { id := 3, refs := some [("setB", 2)] }, some { id := 4, refs := some [] }]
          Example.mutualResolved
          [schemabuilder.queryType, Example.aT, Example.bT, schemabuilder.mutationType,
           schemabuilder.subscriptionType] ∧
      schemabuilder.populated Example.mutualFields Example.mutualResolved ∧
      (schemabuilder.Schema.Build (schemabuilder.getType Example.mutualFields)
          Example.mutualSchema).1 =
        .ret (some { Query := some { id := 0, refs := some [("a", 1)] },
                     Mutation := some { id := 3, refs := some [("setB", 2)] },
                     Subscription := some { id := 4, refs := some [] } }) none) := by
  constructor
  · have hw : schemabuilder.rootsWalk Example.selfFields Example.selfMaps =
        .done [some { id := 0, refs := some [("a", 1)] }, none, none] Example.selfResolved
          [schemabuilder.queryType, Example.aT] := by decide
    obtain ⟨sbF, walked, q, m, su, h₁, _, _, h₄, _, h₆, _⟩ :=
      build_terminates_on_cycles Example.selfFields Example.selfSchema Example.selfMaps
        (by decide) (by decide) (schemabuilder.closedTable_of_check _ _ (by decide))
    rw [hw] at h₁
    simp only [schemabuilder.Walk.done.injEq, List.cons.injEq, Option.some.injEq, and_true] at h₁
    obtain ⟨⟨hq, hm, hs⟩, hsb, _⟩ := h₁
    subst hq hm hs hsb
    exact ⟨by decide, hw, h₄, h₆⟩
  · have hw : schemabuilder.rootsWalk Example.mutualFields Example.mutualMaps =
        .done [some { id := 0, refs := some [("a", 1)] },
               some { id := 3, refs := some [("setB", 2)] }, some { id := 4, refs := some [] }]
          Example.mutualResolved
          [schemabuilder.queryType, Example.aT, Example.bT, schemabuilder.mutationType,
           schemabuilder.subscriptionType] := by decide
    obtain ⟨sbF, walked, q, m, su, h₁, _, _, h₄, _, h₆, _⟩ :=
      build_terminates_on_cycles Example.mutualFields Example.mutualSchema Example.mutualMaps
        (by decide) (by decide) (schemabuilder.closedTable_of_check _ _ (by decide))
    rw [hw] at h₁
    simp only [schemabuilder.Walk.done.injEq, List.cons.injEq, Option.some.injEq, and_true] at h₁
    obtain ⟨⟨hq, hm, hs⟩, hsb, _⟩ := h₁
    subst hq hm hs hsb
    exact ⟨by decide, hw, h₄, h₆⟩
